import Mathlib

/-!
Verification development for the `emlabpkg` sweep orchestration engine
(`sweep/sweep.py`).  The `Station` class and its six entry points
(`measure`, `watch`, `sweep`, `megasweep`, `sweep_vna_1d`, `sweep_vna_2d`)
are shallowly embedded as pure Lean functions that produce an event trace:
every call to the persistence writer (`db.Writer`, modelled from the spec's
§6 append-only contract since `db.py` is not part of the sources), to the
live plotter (`plot.Plotter`, likewise modelled from its §6 contract), every
device write/read and every read of the cooperative interrupt flag becomes
one event.  External nondeterminism (clock readings, raw instrument
readings, the arrival of the interrupt signal) is supplied by an `Env` of
oracles; `math.log10` is also an oracle because rows are embedded as
rational numbers.
-/

namespace Emlab

/-- Heterogeneous metadata value, as stored in `w.metadata[...]` (a Python
dict holds numbers, strings, booleans, lists and nested dicts; `nv` stands
for Python `None`). -/
inductive MVal where
  | s (v : String)
  | q (v : Rat)
  | b (v : Bool)
  | ls (v : List String)
  | lq (v : List Rat)
  | sd (v : List (String × String))
  | nv
deriving DecidableEq, Repr

/-- A qcodes-style parameter handle: its `full_name` and the string
rendering of its owning instrument (used by the provenance matching). -/
structure Param where
  full_name : String
  instrument : String
deriving DecidableEq, Repr

/-- A VNA trace handle: channel name, trace name and its S-parameter label. -/
structure TraceH where
  channel_name : String
  trace_name : String
  s_param : String
deriving DecidableEq, Repr

/-- The `Station` registration state: `_params` (pairs of handle and gain),
`_traces`, the derived `_trace_cols`, and `_notes`. -/
structure Station where
  params : List (Param × Rat)
  traces : List (TraceH × Rat)
  trace_cols : List String
  notes : String
deriving DecidableEq, Repr

/-- Embeds `Station.follow_param`: unconditionally appends the handle/gain
pair (the source performs no duplicate check and cannot fail). -/
def follow_param (st : Station) (p : Param) (gain : Rat) : Station :=
  { st with params := st.params ++ [(p, gain)] }

/-- The common prefix of the three derived columns of one trace, mirroring
the f-strings in `Station.follow_trace`. -/
def trace_col_base (t : TraceH) : String :=
  "znle." ++ t.channel_name.toLower ++ "." ++ t.trace_name.toLower

/-- Embeds `Station.follow_trace`: appends the trace and its three derived
column names (`..._i`, `..._q`, and the log-magnitude column). -/
def follow_trace (st : Station) (t : TraceH) (gain : Rat) : Station :=
  { st with traces := st.traces ++ [(t, gain)],
            trace_cols := st.trace_cols ++
              [trace_col_base t ++ "_i", trace_col_base t ++ "_q", trace_col_base t] }

/-- Embeds `Station._col_names`. -/
def col_names (st : Station) : List String :=
  if st.traces.isEmpty then st.params.map (fun pg => pg.1.full_name)
  else st.params.map (fun pg => pg.1.full_name) ++ st.trace_cols

/-- Embeds `Station.add_notes`. -/
def add_notes (st : Station) (note : String) : Station := { st with notes := note }

/-- Oracles supplying every value the engine obtains from the outside world.
`wall k` is the k-th `time.time()` sample of a run (rows index it by their
position), `mono k` the k-th `time.monotonic()` sample, `raw k i` the raw
reading of parameter `i` during the k-th `_measure` call, and `flag k` the
value of `self.interrupt_requested` at the k-th read of that attribute.
`trcI s t`/`trcQ s t` are the I/Q series of trace `t` on acquisition pass
`s`, `freqs` is `get_freq_setpoints()`.  `log10` abstracts `np.log10`
(rows are rationals); `htime`, `hostname`, `calling_file`, `zmCal`, `zmVar`,
`srFreq`, `srAmp` supply formatted provenance strings and source-instrument
snapshots; `image` tells whether `send_image()` returns a picture. -/
structure Env where
  wall : Nat → Rat
  mono : Nat → Rat
  raw : Nat → Nat → Rat
  flag : Nat → Bool
  log10 : Rat → Rat
  htime : Nat → String
  hostname : String
  calling_file : String
  image : Bool
  trcI : Nat → Nat → List Rat
  trcQ : Nat → Nat → List Rat
  freqs : List Rat
  zmCal : String → List String
  zmVar : String → List String
  srFreq : String → Rat
  srAmp : String → Rat

/-- Embeds `Station._measure` at the k-th measurement call: each registered
parameter's raw reading divided by its registered gain. -/
def measureAt (st : Station) (env : Env) (k : Nat) : List Rat :=
  st.params.enum.map (fun ig => env.raw k ig.1 / ig.2.2)

/-- One observable step of a run: device writes (`setp`), sleeps, parameter
measurements (`meas k` is the k-th `_measure` call), trace reads, rows handed
to the writer (`wrow`) and to the plotter (`prow`/`prowNew`), interrupt-flag
reads (`check`), the `watch` duration check (`chkDur`), metadata writes
(`smeta`), the plotter schema call (`pcols`) and blob attachment. -/
inductive Ev where
  | setp (pname : String) (v : Rat)
  | sleep
  | meas (k : Nat)
  | trcRead (tname : String)
  | wrow (r : List Rat)
  | prow (r : List Rat)
  | prowNew (r : List Rat)
  | check (b : Bool)
  | chkDur (b : Bool)
  | smeta (k : String) (v : MVal)
  | pcols (cols : List String)
  | blob (nm : String)
deriving DecidableEq, Repr

/-- Rows received by the persistence writer, in order. -/
def wrows (t : List Ev) : List (List Rat) :=
  t.filterMap (fun e => match e with | .wrow r => some r | _ => none)

/-- Rows received by the plotter (both plain and new-line appends), in order. -/
def prows (t : List Ev) : List (List Rat) :=
  t.filterMap (fun e =>
    match e with | .prow r => some r | .prowNew r => some r | _ => none)

/-- Plotter calls with a flag telling whether a new rendered line starts. -/
def plotEvs (t : List Ev) : List (Bool × List Rat) :=
  t.filterMap (fun e =>
    match e with
    | .prow r => some (false, r)
    | .prowNew r => some (true, r)
    | _ => none)

/-- Number of "start a new line" plotter calls in a trace. -/
def newLines (t : List Ev) : Nat :=
  (t.filterMap (fun e => match e with | .prowNew r => some r | _ => none)).length

/-- All values successively assigned to metadata key `k`, in order. -/
def smetas (k : String) (t : List Ev) : List MVal :=
  t.filterMap (fun e =>
    match e with
    | .smeta k' v => if k' = k then some v else none
    | _ => none)

/-- Final value of `w.metadata[k]` after the run: Python dict assignment is
last-write-wins. -/
def metaAt (t : List Ev) (k : String) : Option MVal := (smetas k t).getLast?

/-- Indices of the `_measure` calls appearing in a trace, in order. -/
def measIdxs (t : List Ev) : List Nat :=
  t.filterMap (fun e => match e with | .meas k => some k | _ => none)

/-- Python's `needle in hay` on strings. -/
def containsSub (hay needle : String) : Bool :=
  (List.range (hay.length + 1)).any (fun i => needle.toList.isPrefixOf (hay.toList.drop i))

/-- Embeds the `instruments_used` accumulation loop shared by the sweep
entry points: instrument strings of the registered parameters, first
occurrence order, without duplicates. -/
def instruments_used (st : Station) : List String :=
  st.params.foldl
    (fun acc pg => if pg.1.instrument ∈ acc then acc else acc ++ [pg.1.instrument])
    []

/-- Embeds the per-instrument provenance metadata block shared by `sweep`,
`megasweep` and the VNA sweeps: a calibration/variables snapshot for each
instrument whose name contains `"ZM2376"` and a frequency/amplitude snapshot
for each whose name contains `"SR"` (snapshot values come from oracles). -/
def provEvs (env : Env) (names : List String) : List Ev :=
  names.foldr
    (fun nm rest =>
      (if containsSub nm "ZM2376" then
        [Ev.smeta ("calibrations (" ++ nm ++ ")") (.ls (env.zmCal nm)),
         Ev.smeta ("variables (" ++ nm ++ ")") (.ls (env.zmVar nm))]
       else []) ++
      (if containsSub nm "SR" then
        [Ev.smeta ("frequency (" ++ nm ++ ")") (.q (env.srFreq nm)),
         Ev.smeta ("sine out amplitude (" ++ nm ++ ")") (.q (env.srAmp nm))]
       else []) ++ rest)
    []

/-- Python `int()` truncation on a rational. -/
def pyInt (q : Rat) : Int := if 0 ≤ q then ⌊q⌋ else ⌈q⌉

/-- Embeds `_sec_to_str`. -/
def sec_to_str (d : Rat) : String :=
  toString (pyInt (d / 3600)) ++ "h " ++ toString (pyInt (d / 60) % 60) ++ "m "
    ++ toString (pyInt d % 60) ++ "s"

/-- Embeds `Station.measure`: `0D` metadata, `['time'] + self._col_names()`
columns, one timestamp, one `_measure` call, one persisted row (the plotter
is not used by this entry point). -/
def measureRun (st : Station) (env : Env) : List Ev :=
  [Ev.smeta "type" (.s "0D"),
   Ev.smeta "columns" (.ls ("time" :: col_names st)),
   Ev.smeta "time" (.q (env.wall 0)),
   Ev.meas 0,
   Ev.wrow (env.wall 0 :: measureAt st env 0)]

/-- How a loop left its run: the `watch` duration condition turned false,
the interrupt flag was seen set, or (an artefact of the fuelled embedding of
the unbounded `while`) the fuel ran out. -/
inductive LoopExit where
  | dur
  | intr
  | fuelOut
deriving DecidableEq, Repr

/-- The row built in iteration `i` of the `watch` loop (`wall 0` was spent on
`start_time`, so row `i` samples `wall (1+i)`). -/
def watchRow (st : Station) (env : Env) (i : Nat) : List Rat :=
  env.wall (1 + i) :: measureAt st env i

/-- Embeds the `while` loop of `Station.watch`: each pass re-evaluates the
duration condition against `tstart` (captured once by the caller), sleeps,
measures, hands the row to writer then plotter, then reads the interrupt
flag once.  `fuel` bounds the unbounded Python `while`; the result also
reports how the loop exited and how many iterations completed. -/
def watchLoop (st : Station) (env : Env) (maxDur : Option Rat) (tstart : Rat) :
    Nat → Nat → List Ev × LoopExit × Nat
  | 0, i => ([], .fuelOut, i)
  | fuel + 1, i =>
    let ok : Bool := match maxDur with
      | none => true
      | some d => decide (env.mono (i + 1) - tstart < d)
    if ok then
      let row := watchRow st env i
      let f := env.flag i
      let evs := [Ev.chkDur true, Ev.sleep, Ev.meas i, Ev.wrow row, Ev.prow row,
                  Ev.check f]
      if f then (evs ++ [Ev.smeta "interrupted" (.b true)], .intr, i + 1)
      else
        let rest := watchLoop st env maxDur tstart fuel (i + 1)
        (evs ++ rest.1, rest.2.1, rest.2.2)
    else ([Ev.chkDur false], .dur, i)

/-- The metadata/schema assembly of `Station.watch`, performed before the
loop. -/
def watchPre (st : Station) (env : Env) (delay : Rat) (maxDur : Option Rat) : List Ev :=
  [Ev.smeta "type" (.s "1D"),
   Ev.smeta "delay" (.q delay),
   Ev.smeta "max_duration" (match maxDur with | some d => .q d | none => .nv),
   Ev.smeta "columns" (.ls ("time" :: col_names st)),
   Ev.smeta "interrupted" (.b false),
   Ev.smeta "start_time" (.q (env.wall 0)),
   Ev.pcols ("time" :: col_names st)]

/-- The finalization of `Station.watch` after `n` completed iterations:
end time, and the plot snapshot attached when one is produced. -/
def watchPost (env : Env) (n : Nat) : List Ev :=
  [Ev.smeta "end_time" (.q (env.wall (1 + n)))] ++
    (if env.image then [Ev.blob "plot.png"] else [])

/-- Embeds `Station.watch`: assemble metadata, capture `time.monotonic()`
once (`mono 0`), run the loop, finalize. -/
def watchRun (st : Station) (env : Env) (delay : Rat) (maxDur : Option Rat)
    (fuel : Nat) : List Ev × LoopExit :=
  let lp := watchLoop st env maxDur (env.mono 0) fuel 0
  (watchPre st env delay maxDur ++ lp.1 ++ watchPost env lp.2.2, lp.2.1)

/-- The row built for setpoint `sp` in iteration `i` of the `sweep` loop
(`wall 0`/`wall 1` went to `start_time` and its human-readable rendering). -/
def sweepRow (st : Station) (env : Env) (sp : Rat) (i : Nat) : List Rat :=
  env.wall (2 + i) :: sp :: measureAt st env i

/-- Embeds the setpoint loop of `Station.sweep`: write the setpoint, sleep,
measure, hand the row to writer then plotter, then read the interrupt flag
once; on a set flag record `interrupted` and break. -/
def sweepLoop (st : Station) (env : Env) (pname : String) :
    List Rat → Nat → List Ev
  | [], _ => []
  | sp :: rest, i =>
    [Ev.setp pname sp, Ev.sleep, Ev.meas i,
     Ev.wrow (sweepRow st env sp i), Ev.prow (sweepRow st env sp i),
     Ev.check (env.flag i)] ++
    (if env.flag i then [Ev.smeta "interrupted" (.b true)]
     else sweepLoop st env pname rest (i + 1))

/-- The metadata/schema assembly of `Station.sweep`, in source order:
optional notes, host, originating file, instruments, topology tag, delay,
swept-parameter name, columns, per-instrument provenance, the setpoint list,
the interruption flag, start times, and the plotter schema. -/
def sweepPre (st : Station) (env : Env) (p : Param) (sps : List Rat)
    (delay : Rat) : List Ev :=
  (if st.notes ≠ "" then [Ev.smeta "notes" (.s st.notes)] else []) ++
  [Ev.smeta "computer used" (.s env.hostname),
   Ev.smeta "measurement code ran from file" (.s env.calling_file),
   Ev.smeta "instruments used" (.ls (instruments_used st)),
   Ev.smeta "type" (.s "1D"),
   Ev.smeta "delay" (.q delay),
   Ev.smeta "param" (.s p.full_name),
   Ev.smeta "columns" (.ls ("time" :: p.full_name :: col_names st))] ++
  provEvs env (instruments_used st) ++
  [Ev.smeta "setpoints" (.lq sps),
   Ev.smeta "interrupted" (.b false),
   Ev.smeta "start_time" (.q (env.wall 0)),
   Ev.smeta "human_readable start time" (.s (env.htime 0)),
   Ev.pcols ("time" :: p.full_name :: col_names st)]

/-- The finalization shared by `sweep`, `megasweep` and the VNA sweeps,
after `n` persisted rows: end time (raw and human-readable), elapsed
duration string, and the plot snapshot when produced. -/
def sweepPost (env : Env) (n : Nat) : List Ev :=
  [Ev.smeta "end_time" (.q (env.wall (2 + n))),
   Ev.smeta "human_readable end time" (.s (env.htime 1)),
   Ev.smeta "time taken" (.s (sec_to_str (env.wall (2 + n) - env.wall 0)))] ++
  (if env.image then [Ev.blob "plot.png"] else [])

/-- Embeds `Station.sweep`. -/
def sweepRun (st : Station) (env : Env) (p : Param) (sps : List Rat)
    (delay : Rat) : List Ev :=
  let lp := sweepLoop st env p.full_name sps 0
  sweepPre st env p sps delay ++ lp ++ sweepPost env (wrows lp).length

/-- The row built by `megasweep` for slow value `ov` and fast value `iv`
when it is the `r`-th row of the run. -/
def megaRow (st : Station) (env : Env) (ov iv : Rat) (r : Nat) : List Rat :=
  env.wall (2 + r) :: ov :: iv :: measureAt st env r

/-- Embeds the fast (inner) loop of `Station.megasweep`: write the fast
setpoint, sleep, measure, hand the row to the writer, then to the plotter —
on a new rendered line when the fast index `j` is zero — and read the
interrupt flag once.  `r` counts rows of the whole run, `c` counts flag
reads; the returned booleans/counters feed the outer loop. -/
def megaFast (st : Station) (env : Env) (fname : String) (ov : Rat) :
    List Rat → Nat → Nat → Nat → List Ev × Nat × Nat × Bool
  | [], _, r, c => ([], r, c, false)
  | iv :: rest, j, r, c =>
    let row := megaRow st env ov iv r
    let evs := [Ev.setp fname iv, Ev.sleep, Ev.meas r, Ev.wrow row,
                (if j = 0 then Ev.prowNew row else Ev.prow row),
                Ev.check (env.flag c)]
    if env.flag c then (evs ++ [Ev.smeta "interrupted" (.b true)], r + 1, c + 1, true)
    else
      let rest' := megaFast st env fname ov rest (j + 1) (r + 1) (c + 1)
      (evs ++ rest'.1, rest'.2.1, rest'.2.2.1, rest'.2.2.2)

/-- Embeds the slow (outer) loop of `Station.megasweep`: write the slow
setpoint, sleep, run the fast loop, then read the interrupt flag once more
and break — without touching metadata — when it is set. -/
def megaSlow (st : Station) (env : Env) (sname fname : String) (fast : List Rat) :
    List Rat → Nat → Nat → List Ev × Nat × Nat × Bool
  | [], r, c => ([], r, c, false)
  | ov :: rest, r, c =>
    let inner := megaFast st env fname ov fast 0 r c
    let evs := Ev.setp sname ov :: Ev.sleep :: inner.1 ++
      [Ev.check (env.flag inner.2.2.1)]
    if env.flag inner.2.2.1 then (evs, inner.2.1, inner.2.2.1 + 1, true)
    else
      let rest' := megaSlow st env sname fname fast rest inner.2.1 (inner.2.2.1 + 1)
      (evs ++ rest'.1, rest'.2.1, rest'.2.2.1, rest'.2.2.2)

/-- The metadata/schema assembly of `Station.megasweep`, in source order. -/
def megaPre (st : Station) (env : Env) (sp fp : Param) (slow fast : List Rat)
    (sdelay fdelay : Rat) : List Ev :=
  (if st.notes ≠ "" then [Ev.smeta "notes" (.s st.notes)] else []) ++
  [Ev.smeta "computer used" (.s env.hostname),
   Ev.smeta "measurement code ran from file" (.s env.calling_file),
   Ev.smeta "instruments used" (.ls (instruments_used st)),
   Ev.smeta "type" (.s "2D"),
   Ev.smeta "slow_delay" (.q sdelay),
   Ev.smeta "fast_delay" (.q fdelay),
   Ev.smeta "slow_param" (.s sp.full_name),
   Ev.smeta "fast_param" (.s fp.full_name),
   Ev.smeta "columns" (.ls ("time" :: sp.full_name :: fp.full_name :: col_names st))] ++
  provEvs env (instruments_used st) ++
  [Ev.smeta "slow_setpoints" (.lq slow),
   Ev.smeta "fast_setpoints" (.lq fast),
   Ev.smeta "interrupted" (.b false),
   Ev.smeta "start_time" (.q (env.wall 0)),
   Ev.smeta "human_readable start time" (.s (env.htime 0)),
   Ev.pcols ("time" :: sp.full_name :: fp.full_name :: col_names st)]

/-- Embeds `Station.megasweep`. -/
def megaRun (st : Station) (env : Env) (sp fp : Param) (slow fast : List Rat)
    (sdelay fdelay : Rat) : List Ev :=
  let lp := megaSlow st env sp.full_name fp.full_name fast slow 0 0
  megaPre st env sp fp slow fast sdelay fdelay ++ lp.1 ++ sweepPost env (wrows lp.1).length

/-- Python dict built by a comprehension: first-occurrence insertion order,
last assignment wins. -/
def strDict (l : List (String × String)) : List (String × String) :=
  l.foldl
    (fun m kv =>
      if (m.lookup kv.1).isSome then
        m.map (fun kv' => if kv'.1 = kv.1 then kv else kv')
      else m ++ [kv])
    []

/-- The per-point derived triple of one trace read: in-phase component,
quadrature component, and `10 * log10(i^2 + q^2)` (the `log10` oracle stands
for `np.log10`).  `s` is the acquisition pass, `t` the trace position. -/
def procData (env : Env) (s t : Nat) : List (List Rat) :=
  List.zipWith (fun i q => [i, q, 10 * env.log10 (i ^ 2 + q ^ 2)])
    (env.trcI s t) (env.trcQ s t)

/-- Embeds `traces_points = [a + b for a, b in zip(*traces_data)]` for the
two registered traces (the unpacking `a, b` requires exactly two; other
counts raise in Python and make the embedded VNA runs return `none`). -/
def tracesPoints (env : Env) (s : Nat) : List (List Rat) :=
  List.zipWith (· ++ ·) (procData env s 0) (procData env s 1)

/-- Embeds the row-emission loop of `Station.sweep_vna_1d` over the zipped
trace points: each pass measures the parameters, builds
`[time, freq] + measurements + point`, hands it to writer then plotter, and
reads the interrupt flag once.  `fast_v[j]` is totalized as `getD j 0`; the
theorems only use it where Python would not raise. -/
def vnaEmit (st : Station) (env : Env) : List (List Rat) → Nat → List Ev
  | [], _ => []
  | pt :: rest, j =>
    [Ev.meas j,
     Ev.wrow (env.wall (2 + j) :: env.freqs.getD j 0 :: (measureAt st env j ++ pt)),
     Ev.prow (env.wall (2 + j) :: env.freqs.getD j 0 :: (measureAt st env j ++ pt)),
     Ev.check (env.flag j)] ++
    (if env.flag j then [Ev.smeta "interrupted" (.b true)]
     else vnaEmit st env rest (j + 1))

/-- The metadata/schema assembly of `Station.sweep_vna_1d`, in source
order, for the two registered traces. -/
def vna1dPre (st : Station) (env : Env) (t0 t1 : TraceH) (delay : Rat) : List Ev :=
  (if st.notes ≠ "" then [Ev.smeta "notes" (.s st.notes)] else []) ++
  [Ev.smeta "computer used" (.s env.hostname),
   Ev.smeta "measurement code ran from file" (.s env.calling_file),
   Ev.smeta "instruments used" (.ls (instruments_used st)),
   Ev.smeta "type" (.s "1D_VNA_Sweep"),
   Ev.smeta "delay" (.q delay),
   Ev.smeta "trace_information"
     (.sd (strDict [(t0.trace_name, t0.s_param), (t1.trace_name, t1.s_param)])),
   Ev.smeta "columns" (.ls ("time" :: "znle_frequency" :: col_names st))] ++
  provEvs env (instruments_used st) ++
  [Ev.smeta "znle_freq_setpoints" (.lq env.freqs),
   Ev.smeta "interrupted" (.b false),
   Ev.smeta "start_time" (.q (env.wall 0)),
   Ev.smeta "human_readable start time" (.s (env.htime 0)),
   Ev.pcols ("time" :: "znle_frequency" :: col_names st)]

/-- Embeds `Station.sweep_vna_1d`: metadata assembly, one acquisition pass
activating and reading each of the two traces (with the inter-trace delay),
then the emission loop over the zipped points.  With a trace count other
than two the Python source raises (`self._traces[0]` on zero,
`for a, b in zip(*traces_data)` otherwise), embedded as `none`. -/
def vna1dRun (st : Station) (env : Env) (delay : Rat) : Option (List Ev) :=
  match st.traces with
  | [t0, t1] =>
    let emit := vnaEmit st env (tracesPoints env 0) 0
    some (vna1dPre st env t0.1 t1.1 delay ++
      [Ev.trcRead t0.1.trace_name, Ev.sleep, Ev.trcRead t1.1.trace_name, Ev.sleep] ++
      emit ++ sweepPost env (wrows emit).length)
  | _ => none

/-- Embeds the row-emission loop inside one slow pass of
`Station.sweep_vna_2d`: rows are `[time, ov, freq] + slow_measurement +
point` — the parameter measurement of pass `i` (taken once, before the
traces were read) replicated into every row — handed to the writer and then
to the plotter (new line at fast index zero), with one interrupt-flag read
per row.  `r` counts rows of the whole run, `c` flag reads. -/
def vna2dEmit (st : Station) (env : Env) (ov : Rat) (i : Nat) :
    List (List Rat) → Nat → Nat → Nat → List Ev × Nat × Nat × Bool
  | [], _, r, c => ([], r, c, false)
  | pt :: rest, j, r, c =>
    let row := env.wall (2 + r) :: ov :: env.freqs.getD j 0 ::
      (measureAt st env i ++ pt)
    let evs := [Ev.wrow row,
                (if j = 0 then Ev.prowNew row else Ev.prow row),
                Ev.check (env.flag c)]
    if env.flag c then (evs ++ [Ev.smeta "interrupted" (.b true)], r + 1, c + 1, true)
    else
      let rest' := vna2dEmit st env ov i rest (j + 1) (r + 1) (c + 1)
      (evs ++ rest'.1, rest'.2.1, rest'.2.2.1, rest'.2.2.2)

/-- Embeds the slow loop of `Station.sweep_vna_2d`: write the slow
setpoint, sleep, measure the parameters once, activate and read both
traces, emit one row per zipped point, then read the interrupt flag once
more and break — without touching metadata — when it is set.  `i` is the
slow index (also indexing the single `_measure` call of the pass). -/
def vna2dSlow (st : Station) (env : Env) (sname t0n t1n : String) :
    List Rat → Nat → Nat → Nat → List Ev × Nat × Nat × Bool
  | [], _, r, c => ([], r, c, false)
  | ov :: rest, i, r, c =>
    let inner := vna2dEmit st env ov i (tracesPoints env i) 0 r c
    let evs := Ev.setp sname ov :: Ev.sleep :: Ev.meas i ::
      Ev.trcRead t0n :: Ev.trcRead t1n :: inner.1 ++
      [Ev.check (env.flag inner.2.2.1)]
    if env.flag inner.2.2.1 then (evs, inner.2.1, inner.2.2.1 + 1, true)
    else
      let rest' := vna2dSlow st env sname t0n t1n rest (i + 1) inner.2.1
        (inner.2.2.1 + 1)
      (evs ++ rest'.1, rest'.2.1, rest'.2.2.1, rest'.2.2.2)

/-- The metadata/schema assembly of `Station.sweep_vna_2d`, in source
order, for the two registered traces (`fast_delay` is hard-coded to 0 by the
source). -/
def vna2dPre (st : Station) (env : Env) (t0 t1 : TraceH) (sp : Param)
    (slow : List Rat) (sdelay : Rat) : List Ev :=
  (if st.notes ≠ "" then [Ev.smeta "notes" (.s st.notes)] else []) ++
  [Ev.smeta "computer used" (.s env.hostname),
   Ev.smeta "measurement code ran from file" (.s env.calling_file),
   Ev.smeta "instruments used" (.ls (instruments_used st)),
   Ev.smeta "type" (.s "2D_VNA_Sweep"),
   Ev.smeta "slow_delay" (.q sdelay),
   Ev.smeta "fast_delay" (.q 0),
   Ev.smeta "slow_param" (.s sp.full_name),
   Ev.smeta "fast_param" (.s "znle_frequency"),
   Ev.smeta "trace_information"
     (.sd (strDict [(t0.trace_name, t0.s_param), (t1.trace_name, t1.s_param)])),
   Ev.smeta "columns" (.ls ("time" :: sp.full_name :: "znle_frequency" :: col_names st))] ++
  provEvs env (instruments_used st) ++
  [Ev.smeta "slow_setpoints" (.lq slow),
   Ev.smeta "fast_setpoints" (.lq env.freqs),
   Ev.smeta "interrupted" (.b false),
   Ev.smeta "start_time" (.q (env.wall 0)),
   Ev.smeta "human_readable start time" (.s (env.htime 0)),
   Ev.pcols ("time" :: sp.full_name :: "znle_frequency" :: col_names st)]

/-- Embeds `Station.sweep_vna_2d`; as in the 1-D variant, a registered
trace count other than two raises in Python and is embedded as `none`. -/
def vna2dRun (st : Station) (env : Env) (sp : Param) (slow : List Rat)
    (sdelay : Rat) : Option (List Ev) :=
  match st.traces with
  | [t0, t1] =>
    let lp := vna2dSlow st env sp.full_name t0.1.trace_name t1.1.trace_name slow 0 0 0
    some (vna2dPre st env t0.1 t1.1 sp slow sdelay ++ lp.1 ++
      sweepPost env (wrows lp.1).length)
  | _ => none

/-- Embeds the `_interruptible` decorator's wrapper acting on the process
signal-handler table, with handlers abstracted as naturals: it saves the
currently installed handler, installs its own (`hNew`), runs the wrapped
body, and re-installs the saved handler only on the straight-line path —
a body that raises propagates before the restoring `signal.signal` call
executes, so the temporary handler stays installed.  The wrapped bodies
never touch the handler table themselves.  Returns the body's outcome and
the finally-installed handler. -/
def interruptibleCall (installed hNew : Nat) (body : Except String Unit) :
    Except String Unit × Nat :=
  let old := installed
  match body with
  | .ok r => (.ok r, old)
  | .error e => (.error e, hNew)

/-! ### Basic facts about trace projections -/

@[simp] theorem wrows_nil : wrows [] = [] := rfl

@[simp] theorem wrows_append (a b : List Ev) : wrows (a ++ b) = wrows a ++ wrows b :=
  List.filterMap_append ..

@[simp] theorem prows_nil : prows [] = [] := rfl

@[simp] theorem prows_append (a b : List Ev) : prows (a ++ b) = prows a ++ prows b :=
  List.filterMap_append ..

@[simp] theorem plotEvs_nil : plotEvs [] = [] := rfl

@[simp] theorem plotEvs_append (a b : List Ev) :
    plotEvs (a ++ b) = plotEvs a ++ plotEvs b :=
  List.filterMap_append ..

@[simp] theorem newLines_nil : newLines [] = 0 := rfl

@[simp] theorem newLines_append (a b : List Ev) :
    newLines (a ++ b) = newLines a + newLines b := by
  simp [newLines, List.filterMap_append]

@[simp] theorem smetas_nil (k : String) : smetas k [] = [] := rfl

@[simp] theorem smetas_append (k : String) (a b : List Ev) :
    smetas k (a ++ b) = smetas k a ++ smetas k b :=
  List.filterMap_append ..

@[simp] theorem measIdxs_nil : measIdxs [] = [] := rfl

@[simp] theorem measIdxs_append (a b : List Ev) :
    measIdxs (a ++ b) = measIdxs a ++ measIdxs b :=
  List.filterMap_append ..

@[simp] theorem wrows_cons_setp (p : String) (v : Rat) (t : List Ev) :
    wrows (Ev.setp p v :: t) = wrows t := rfl

@[simp] theorem wrows_cons_sleep (t : List Ev) : wrows (Ev.sleep :: t) = wrows t := rfl

@[simp] theorem wrows_cons_meas (k : Nat) (t : List Ev) :
    wrows (Ev.meas k :: t) = wrows t := rfl

@[simp] theorem wrows_cons_trcRead (nm : String) (t : List Ev) :
    wrows (Ev.trcRead nm :: t) = wrows t := rfl

@[simp] theorem wrows_cons_wrow (r : List Rat) (t : List Ev) :
    wrows (Ev.wrow r :: t) = r :: wrows t := rfl

@[simp] theorem wrows_cons_prow (r : List Rat) (t : List Ev) :
    wrows (Ev.prow r :: t) = wrows t := rfl

@[simp] theorem wrows_cons_prowNew (r : List Rat) (t : List Ev) :
    wrows (Ev.prowNew r :: t) = wrows t := rfl

@[simp] theorem wrows_cons_check (b : Bool) (t : List Ev) :
    wrows (Ev.check b :: t) = wrows t := rfl

@[simp] theorem wrows_cons_chkDur (b : Bool) (t : List Ev) :
    wrows (Ev.chkDur b :: t) = wrows t := rfl

@[simp] theorem wrows_cons_smeta (k : String) (v : MVal) (t : List Ev) :
    wrows (Ev.smeta k v :: t) = wrows t := rfl

@[simp] theorem wrows_cons_pcols (c : List String) (t : List Ev) :
    wrows (Ev.pcols c :: t) = wrows t := rfl

@[simp] theorem wrows_cons_blob (nm : String) (t : List Ev) :
    wrows (Ev.blob nm :: t) = wrows t := rfl

@[simp] theorem prows_cons_setp (p : String) (v : Rat) (t : List Ev) :
    prows (Ev.setp p v :: t) = prows t := rfl

@[simp] theorem prows_cons_sleep (t : List Ev) : prows (Ev.sleep :: t) = prows t := rfl

@[simp] theorem prows_cons_meas (k : Nat) (t : List Ev) :
    prows (Ev.meas k :: t) = prows t := rfl

@[simp] theorem prows_cons_trcRead (nm : String) (t : List Ev) :
    prows (Ev.trcRead nm :: t) = prows t := rfl

@[simp] theorem prows_cons_wrow (r : List Rat) (t : List Ev) :
    prows (Ev.wrow r :: t) = prows t := rfl

@[simp] theorem prows_cons_prow (r : List Rat) (t : List Ev) :
    prows (Ev.prow r :: t) = r :: prows t := rfl

@[simp] theorem prows_cons_prowNew (r : List Rat) (t : List Ev) :
    prows (Ev.prowNew r :: t) = r :: prows t := rfl

@[simp] theorem prows_cons_check (b : Bool) (t : List Ev) :
    prows (Ev.check b :: t) = prows t := rfl

@[simp] theorem prows_cons_chkDur (b : Bool) (t : List Ev) :
    prows (Ev.chkDur b :: t) = prows t := rfl

@[simp] theorem prows_cons_smeta (k : String) (v : MVal) (t : List Ev) :
    prows (Ev.smeta k v :: t) = prows t := rfl

@[simp] theorem prows_cons_pcols (c : List String) (t : List Ev) :
    prows (Ev.pcols c :: t) = prows t := rfl

@[simp] theorem prows_cons_blob (nm : String) (t : List Ev) :
    prows (Ev.blob nm :: t) = prows t := rfl

@[simp] theorem plotEvs_cons_setp (p : String) (v : Rat) (t : List Ev) :
    plotEvs (Ev.setp p v :: t) = plotEvs t := rfl

@[simp] theorem plotEvs_cons_sleep (t : List Ev) :
    plotEvs (Ev.sleep :: t) = plotEvs t := rfl

@[simp] theorem plotEvs_cons_meas (k : Nat) (t : List Ev) :
    plotEvs (Ev.meas k :: t) = plotEvs t := rfl

@[simp] theorem plotEvs_cons_trcRead (nm : String) (t : List Ev) :
    plotEvs (Ev.trcRead nm :: t) = plotEvs t := rfl

@[simp] theorem plotEvs_cons_wrow (r : List Rat) (t : List Ev) :
    plotEvs (Ev.wrow r :: t) = plotEvs t := rfl

@[simp] theorem plotEvs_cons_prow (r : List Rat) (t : List Ev) :
    plotEvs (Ev.prow r :: t) = (false, r) :: plotEvs t := rfl

@[simp] theorem plotEvs_cons_prowNew (r : List Rat) (t : List Ev) :
    plotEvs (Ev.prowNew r :: t) = (true, r) :: plotEvs t := rfl

@[simp] theorem plotEvs_cons_check (b : Bool) (t : List Ev) :
    plotEvs (Ev.check b :: t) = plotEvs t := rfl

@[simp] theorem plotEvs_cons_chkDur (b : Bool) (t : List Ev) :
    plotEvs (Ev.chkDur b :: t) = plotEvs t := rfl

@[simp] theorem plotEvs_cons_smeta (k : String) (v : MVal) (t : List Ev) :
    plotEvs (Ev.smeta k v :: t) = plotEvs t := rfl

@[simp] theorem plotEvs_cons_pcols (c : List String) (t : List Ev) :
    plotEvs (Ev.pcols c :: t) = plotEvs t := rfl

@[simp] theorem plotEvs_cons_blob (nm : String) (t : List Ev) :
    plotEvs (Ev.blob nm :: t) = plotEvs t := rfl

@[simp] theorem newLines_cons_setp (p : String) (v : Rat) (t : List Ev) :
    newLines (Ev.setp p v :: t) = newLines t := rfl

@[simp] theorem newLines_cons_sleep (t : List Ev) :
    newLines (Ev.sleep :: t) = newLines t := rfl

@[simp] theorem newLines_cons_meas (k : Nat) (t : List Ev) :
    newLines (Ev.meas k :: t) = newLines t := rfl

@[simp] theorem newLines_cons_trcRead (nm : String) (t : List Ev) :
    newLines (Ev.trcRead nm :: t) = newLines t := rfl

@[simp] theorem newLines_cons_wrow (r : List Rat) (t : List Ev) :
    newLines (Ev.wrow r :: t) = newLines t := rfl

@[simp] theorem newLines_cons_prow (r : List Rat) (t : List Ev) :
    newLines (Ev.prow r :: t) = newLines t := rfl

@[simp] theorem newLines_cons_prowNew (r : List Rat) (t : List Ev) :
    newLines (Ev.prowNew r :: t) = newLines t + 1 := by
  simp [newLines, Nat.add_comm]

@[simp] theorem newLines_cons_check (b : Bool) (t : List Ev) :
    newLines (Ev.check b :: t) = newLines t := rfl

@[simp] theorem newLines_cons_chkDur (b : Bool) (t : List Ev) :
    newLines (Ev.chkDur b :: t) = newLines t := rfl

@[simp] theorem newLines_cons_smeta (k : String) (v : MVal) (t : List Ev) :
    newLines (Ev.smeta k v :: t) = newLines t := rfl

@[simp] theorem newLines_cons_pcols (c : List String) (t : List Ev) :
    newLines (Ev.pcols c :: t) = newLines t := rfl

@[simp] theorem newLines_cons_blob (nm : String) (t : List Ev) :
    newLines (Ev.blob nm :: t) = newLines t := rfl

@[simp] theorem smetas_cons_setp (k : String) (p : String) (v : Rat) (t : List Ev) :
    smetas k (Ev.setp p v :: t) = smetas k t := rfl

@[simp] theorem smetas_cons_sleep (k : String) (t : List Ev) :
    smetas k (Ev.sleep :: t) = smetas k t := rfl

@[simp] theorem smetas_cons_meas (k : String) (j : Nat) (t : List Ev) :
    smetas k (Ev.meas j :: t) = smetas k t := rfl

@[simp] theorem smetas_cons_trcRead (k : String) (nm : String) (t : List Ev) :
    smetas k (Ev.trcRead nm :: t) = smetas k t := rfl

@[simp] theorem smetas_cons_wrow (k : String) (r : List Rat) (t : List Ev) :
    smetas k (Ev.wrow r :: t) = smetas k t := rfl

@[simp] theorem smetas_cons_prow (k : String) (r : List Rat) (t : List Ev) :
    smetas k (Ev.prow r :: t) = smetas k t := rfl

@[simp] theorem smetas_cons_prowNew (k : String) (r : List Rat) (t : List Ev) :
    smetas k (Ev.prowNew r :: t) = smetas k t := rfl

@[simp] theorem smetas_cons_check (k : String) (b : Bool) (t : List Ev) :
    smetas k (Ev.check b :: t) = smetas k t := rfl

@[simp] theorem smetas_cons_chkDur (k : String) (b : Bool) (t : List Ev) :
    smetas k (Ev.chkDur b :: t) = smetas k t := rfl

@[simp] theorem smetas_cons_smeta (k k' : String) (v : MVal) (t : List Ev) :
    smetas k (Ev.smeta k' v :: t) =
      if k' = k then v :: smetas k t else smetas k t := by
  by_cases h : k' = k <;> simp [smetas, h]

@[simp] theorem smetas_cons_pcols (k : String) (c : List String) (t : List Ev) :
    smetas k (Ev.pcols c :: t) = smetas k t := rfl

@[simp] theorem smetas_cons_blob (k : String) (nm : String) (t : List Ev) :
    smetas k (Ev.blob nm :: t) = smetas k t := rfl

@[simp] theorem measIdxs_cons_setp (p : String) (v : Rat) (t : List Ev) :
    measIdxs (Ev.setp p v :: t) = measIdxs t := rfl

@[simp] theorem measIdxs_cons_sleep (t : List Ev) :
    measIdxs (Ev.sleep :: t) = measIdxs t := rfl

@[simp] theorem measIdxs_cons_meas (k : Nat) (t : List Ev) :
    measIdxs (Ev.meas k :: t) = k :: measIdxs t := rfl

@[simp] theorem measIdxs_cons_trcRead (nm : String) (t : List Ev) :
    measIdxs (Ev.trcRead nm :: t) = measIdxs t := rfl

@[simp] theorem measIdxs_cons_wrow (r : List Rat) (t : List Ev) :
    measIdxs (Ev.wrow r :: t) = measIdxs t := rfl

@[simp] theorem measIdxs_cons_prow (r : List Rat) (t : List Ev) :
    measIdxs (Ev.prow r :: t) = measIdxs t := rfl

@[simp] theorem measIdxs_cons_prowNew (r : List Rat) (t : List Ev) :
    measIdxs (Ev.prowNew r :: t) = measIdxs t := rfl

@[simp] theorem measIdxs_cons_check (b : Bool) (t : List Ev) :
    measIdxs (Ev.check b :: t) = measIdxs t := rfl

@[simp] theorem measIdxs_cons_chkDur (b : Bool) (t : List Ev) :
    measIdxs (Ev.chkDur b :: t) = measIdxs t := rfl

@[simp] theorem measIdxs_cons_smeta (k : String) (v : MVal) (t : List Ev) :
    measIdxs (Ev.smeta k v :: t) = measIdxs t := rfl

@[simp] theorem measIdxs_cons_pcols (c : List String) (t : List Ev) :
    measIdxs (Ev.pcols c :: t) = measIdxs t := rfl

@[simp] theorem measIdxs_cons_blob (nm : String) (t : List Ev) :
    measIdxs (Ev.blob nm :: t) = measIdxs t := rfl

@[simp] theorem wrows_cons_ite_plot (P : Prop) [Decidable P] (r : List Rat) (t : List Ev) :
    wrows ((if P then Ev.prowNew r else Ev.prow r) :: t) = wrows t := by
  split <;> rfl

@[simp] theorem prows_cons_ite_plot (P : Prop) [Decidable P] (r : List Rat) (t : List Ev) :
    prows ((if P then Ev.prowNew r else Ev.prow r) :: t) = r :: prows t := by
  split <;> rfl

@[simp] theorem smetas_cons_ite_plot (k : String) (P : Prop) [Decidable P]
    (r : List Rat) (t : List Ev) :
    smetas k ((if P then Ev.prowNew r else Ev.prow r) :: t) = smetas k t := by
  split <;> rfl

@[simp] theorem measIdxs_cons_ite_plot (P : Prop) [Decidable P] (r : List Rat)
    (t : List Ev) :
    measIdxs ((if P then Ev.prowNew r else Ev.prow r) :: t) = measIdxs t := by
  split <;> rfl

theorem measureAt_length (st : Station) (env : Env) (k : Nat) :
    (measureAt st env k).length = st.params.length := by
  simp [measureAt]

theorem str_ne_of_len {a b : String} (h : a.length ≠ b.length) : a ≠ b :=
  fun e => h (by rw [e])

/-- The provenance block only assigns keys of the four snapshot families,
all of length at least 12 characters; shorter keys are never touched. -/
theorem smetas_provEvs (env : Env) (l : List String) (k : String)
    (hk : k.length < 12) : smetas k (provEvs env l) = [] := by
  induction l with
  | nil => rfl
  | cons nm rest ih =>
    have h1 : ("calibrations (" ++ nm ++ ")") ≠ k := by
      apply str_ne_of_len
      simp only [String.length_append]
      have : (String.length "calibrations (") = 14 := by decide
      omega
    have h2 : ("variables (" ++ nm ++ ")") ≠ k := by
      apply str_ne_of_len
      simp only [String.length_append]
      have : (String.length "variables (") = 11 := by decide
      have : (String.length ")") = 1 := by decide
      omega
    have h3 : ("frequency (" ++ nm ++ ")") ≠ k := by
      apply str_ne_of_len
      simp only [String.length_append]
      have : (String.length "frequency (") = 11 := by decide
      have : (String.length ")") = 1 := by decide
      omega
    have h4 : ("sine out amplitude (" ++ nm ++ ")") ≠ k := by
      apply str_ne_of_len
      simp only [String.length_append]
      have : (String.length "sine out amplitude (") = 20 := by decide
      omega
    simp only [provEvs, List.foldr_cons]
    rw [show (List.foldr _ [] rest : List Ev) = provEvs env rest from rfl] at *
    simp only [smetas, List.filterMap_append] at ih ⊢
    split <;> split <;> simp [h1, h2, h3, h4, ih]

theorem wrows_provEvs (env : Env) (l : List String) : wrows (provEvs env l) = [] := by
  induction l with
  | nil => rfl
  | cons nm rest ih =>
    simp only [provEvs, List.foldr_cons]
    rw [show (List.foldr _ [] rest : List Ev) = provEvs env rest from rfl]
    simp only [wrows, List.filterMap_append] at ih ⊢
    split <;> split <;> simp [ih]

theorem prows_provEvs (env : Env) (l : List String) : prows (provEvs env l) = [] := by
  induction l with
  | nil => rfl
  | cons nm rest ih =>
    simp only [provEvs, List.foldr_cons]
    rw [show (List.foldr _ [] rest : List Ev) = provEvs env rest from rfl]
    simp only [prows, List.filterMap_append] at ih ⊢
    split <;> split <;> simp [ih]

/-! ### Writer-before-plotter ordering -/

/-- A trace fragment that hands rows to neither collaborator. -/
def rowless (t : List Ev) : Prop := wrows t = [] ∧ prows t = []

/-- In every prefix of the trace, what the plotter has received so far is a
prefix of what the writer has received: no row reaches the plotter before
the writer holds it, and neither collaborator sees rows out of order. -/
def plotAfterWrite (t : List Ev) : Prop :=
  ∀ n, prows (t.take n) <+: wrows (t.take n)

theorem rowless_take {t : List Ev} (h : rowless t) (n : Nat) : rowless (t.take n) := by
  have h1 : List.Sublist (wrows (t.take n)) (wrows t) :=
    (List.take_sublist n t).filterMap _
  have h2 : List.Sublist (prows (t.take n)) (prows t) :=
    (List.take_sublist n t).filterMap _
  rw [h.1] at h1
  rw [h.2] at h2
  exact ⟨List.sublist_nil.mp h1, List.sublist_nil.mp h2⟩

theorem plotAfterWrite_of_rowless {t : List Ev} (h : rowless t) : plotAfterWrite t := by
  intro n
  rw [(rowless_take h n).2]
  exact List.nil_prefix

theorem rowless_append {a b : List Ev} (ha : rowless a) (hb : rowless b) :
    rowless (a ++ b) := by
  constructor
  · simp [ha.1, hb.1]
  · simp [ha.2, hb.2]

theorem prefix_append_both {α : Type} {a p w : List α} (h : p <+: w) :
    a ++ p <+: a ++ w := by
  rcases h with ⟨t, rfl⟩
  exact ⟨t, by simp⟩

/-- Ordering composes: a trace made of a balanced part (plotter = writer)
followed by anything that itself satisfies the ordering keeps the
ordering. -/
theorem plotAfterWrite_append {a b : List Ev} (ha : plotAfterWrite a)
    (hab : prows a = wrows a) (hb : plotAfterWrite b) :
    plotAfterWrite (a ++ b) := by
  intro n
  rw [List.take_append_eq_append_take]
  by_cases hn : n ≤ a.length
  · have : n - a.length = 0 := by omega
    rw [this]
    simpa using ha n
  · rw [List.take_of_length_le (by omega)]
    simp only [prows_append, wrows_append, hab]
    exact prefix_append_both (hb (n - a.length))

/-- Ordering for one row-producing block: some rowless events, the row to
the writer, the same row to the plotter, more rowless events. -/
theorem plotAfterWrite_block {x y : List Ev} {r : List Rat} {e : Ev}
    (hx : rowless x) (hy : rowless y) (he : e = Ev.prow r ∨ e = Ev.prowNew r) :
    plotAfterWrite (x ++ Ev.wrow r :: e :: y) := by
  intro n
  rw [List.take_append_eq_append_take]
  by_cases hn : n ≤ x.length
  · have : n - x.length = 0 := by omega
    rw [this]
    simp only [List.take_zero, List.append_nil]
    rw [(rowless_take hx n).2]
    exact List.nil_prefix
  · rw [List.take_of_length_le (by omega)]
    rcases Nat.exists_eq_add_of_lt (by omega : x.length < n) with ⟨m, rfl⟩
    match m with
    | 0 =>
      have h1 : x.length + 0 + 1 - x.length = 1 := by omega
      rw [h1]
      simp only [List.take_succ_cons, List.take_zero, prows_append, wrows_append,
        hx.1, hx.2, wrows_cons_wrow, wrows_nil, prows_cons_wrow, prows_nil]
      exact ⟨[r], rfl⟩
    | m + 1 =>
      have h2 : x.length + (m + 1) + 1 - x.length = m + 2 := by omega
      rw [h2]
      have hyt := rowless_take hy m
      rcases he with rfl | rfl <;>
        simp [List.take_succ_cons, hx.1, hx.2, hyt.1, hyt.2]

/-- Rows received by both collaborators agree on such a block. -/
theorem prows_eq_wrows_block {x y : List Ev} {r : List Rat} {e : Ev}
    (hx : rowless x) (hy : rowless y) (he : e = Ev.prow r ∨ e = Ev.prowNew r) :
    prows (x ++ Ev.wrow r :: e :: y) = wrows (x ++ Ev.wrow r :: e :: y) := by
  rcases he with rfl | rfl <;>
    simp [hx.1, hx.2, hy.1, hy.2]

/-- Both halves of the ordering property, bundled. -/
def balanced (t : List Ev) : Prop := plotAfterWrite t ∧ prows t = wrows t

theorem balanced_nil : balanced ([] : List Ev) :=
  ⟨plotAfterWrite_of_rowless ⟨rfl, rfl⟩, rfl⟩

theorem balanced_of_rowless {t : List Ev} (h : rowless t) : balanced t :=
  ⟨plotAfterWrite_of_rowless h, by rw [h.1, h.2]⟩

theorem balanced_append {a b : List Ev} (ha : balanced a) (hb : balanced b) :
    balanced (a ++ b) :=
  ⟨plotAfterWrite_append ha.1 ha.2 hb.1, by simp [ha.2, hb.2]⟩

theorem balanced_block {x y : List Ev} {r : List Rat} {e : Ev}
    (hx : rowless x) (hy : rowless y) (he : e = Ev.prow r ∨ e = Ev.prowNew r) :
    balanced (x ++ Ev.wrow r :: e :: y) :=
  ⟨plotAfterWrite_block hx hy he, prows_eq_wrows_block hx hy he⟩

/-! ### Characterising the `sweep` loop -/

/-- The events of one uncancelled `sweep` iteration. -/
def sweepBlock (st : Station) (env : Env) (pname : String) (sp : Rat) (i : Nat) :
    List Ev :=
  [Ev.setp pname sp, Ev.sleep, Ev.meas i,
   Ev.wrow (sweepRow st env sp i), Ev.prow (sweepRow st env sp i),
   Ev.check (env.flag i)]

/-- The full `sweep` loop trace when no iteration is cancelled. -/
def sweepFullExp (st : Station) (env : Env) (pname : String) :
    List Rat → Nat → List Ev
  | [], _ => []
  | sp :: rest, i => sweepBlock st env pname sp i ++ sweepFullExp st env pname rest (i + 1)

/-- The rows of the uncancelled `sweep` loop. -/
def sweepRowsExp (st : Station) (env : Env) : List Rat → Nat → List (List Rat)
  | [], _ => []
  | sp :: rest, i => sweepRow st env sp i :: sweepRowsExp st env rest (i + 1)

theorem sweepLoop_eq_full (st : Station) (env : Env) (pname : String)
    (sps : List Rat) (i : Nat)
    (h : ∀ j, j < sps.length → env.flag (i + j) = false) :
    sweepLoop st env pname sps i = sweepFullExp st env pname sps i := by
  induction sps generalizing i with
  | nil => rfl
  | cons sp rest ih =>
    have h0 : env.flag i = false := by simpa using h 0 (by simp)
    have ih' := ih (i + 1) (fun j hj => by
      have h' := h (j + 1) (by simpa using Nat.succ_lt_succ hj)
      rwa [show i + (j + 1) = i + 1 + j from by omega] at h')
    simp [sweepLoop, sweepFullExp, sweepBlock, h0, ih']

theorem sweepLoop_eq_intr (st : Station) (env : Env) (pname : String)
    (sps : List Rat) (i k : Nat) (hk : k < sps.length)
    (hlt : ∀ j, j < k → env.flag (i + j) = false)
    (hT : env.flag (i + k) = true) :
    sweepLoop st env pname sps i =
      sweepFullExp st env pname (sps.take (k + 1)) i ++
        [Ev.smeta "interrupted" (.b true)] := by
  induction sps generalizing i k with
  | nil => simp at hk
  | cons sp rest ih =>
    match k with
    | 0 =>
      have h0 : env.flag i = true := by simpa using hT
      simp [sweepLoop, sweepFullExp, sweepBlock, h0]
    | k + 1 =>
      have h0 : env.flag i = false := by simpa using hlt 0 (by omega)
      have ih' := ih (i + 1) k (by simpa using hk)
        (fun j hj => by
          have h' := hlt (j + 1) (by omega)
          rwa [show i + (j + 1) = i + 1 + j from by omega] at h')
        (by
          rwa [show i + (k + 1) = i + 1 + k from by omega] at hT)
      simp [sweepLoop, sweepFullExp, sweepBlock, h0, ih']

theorem wrows_sweepFullExp (st : Station) (env : Env) (pname : String)
    (sps : List Rat) (i : Nat) :
    wrows (sweepFullExp st env pname sps i) = sweepRowsExp st env sps i := by
  induction sps generalizing i with
  | nil => rfl
  | cons sp rest ih => simp [sweepFullExp, sweepBlock, sweepRowsExp, ih]

theorem prows_sweepFullExp (st : Station) (env : Env) (pname : String)
    (sps : List Rat) (i : Nat) :
    prows (sweepFullExp st env pname sps i) = sweepRowsExp st env sps i := by
  induction sps generalizing i with
  | nil => rfl
  | cons sp rest ih => simp [sweepFullExp, sweepBlock, sweepRowsExp, ih]

theorem smetas_sweepFullExp (st : Station) (env : Env) (pname : String)
    (sps : List Rat) (i : Nat) (k : String) :
    smetas k (sweepFullExp st env pname sps i) = [] := by
  induction sps generalizing i with
  | nil => rfl
  | cons sp rest ih => simp [sweepFullExp, sweepBlock, ih]

theorem sweepRowsExp_length (st : Station) (env : Env) (sps : List Rat) (i : Nat) :
    (sweepRowsExp st env sps i).length = sps.length := by
  induction sps generalizing i with
  | nil => rfl
  | cons sp rest ih => simp [sweepRowsExp, ih]

theorem sweepRowsExp_getD (st : Station) (env : Env) (sps : List Rat) (i k : Nat)
    (hk : k < sps.length) :
    (sweepRowsExp st env sps i).getD k [] = sweepRow st env (sps.getD k 0) (i + k) := by
  induction sps generalizing i k with
  | nil => simp at hk
  | cons sp rest ih =>
    match k with
    | 0 => simp [sweepRowsExp]
    | k + 1 =>
      have h' := ih (i + 1) k (by simpa using hk)
      rw [show i + 1 + k = i + (k + 1) from by omega] at h'
      simpa [sweepRowsExp] using h'

theorem sweepRow_length (st : Station) (env : Env) (sp : Rat) (i : Nat) :
    (sweepRow st env sp i).length = 2 + st.params.length := by
  simp [sweepRow, measureAt_length]
  omega

theorem sweepRow_getD_one (st : Station) (env : Env) (sp : Rat) (i : Nat) :
    (sweepRow st env sp i).getD 1 0 = sp := rfl

/-- Every row the `sweep` loop hands to the writer has the schema width,
whatever the flag oracle does. -/
theorem sweepLoop_row_len (st : Station) (env : Env) (pname : String)
    (sps : List Rat) (i : Nat) :
    ∀ r ∈ wrows (sweepLoop st env pname sps i), r.length = 2 + st.params.length := by
  induction sps generalizing i with
  | nil => simp [sweepLoop]
  | cons sp rest ih =>
    intro r hr
    simp only [sweepLoop] at hr
    by_cases hf : env.flag i <;> simp [hf] at hr <;>
      rcases hr with rfl | hr
    · exact sweepRow_length ..
    · exact sweepRow_length ..
    · exact ih (i + 1) r hr

/-- The `sweep` loop respects writer-before-plotter ordering for every flag
oracle. -/
theorem balanced_sweepLoop (st : Station) (env : Env) (pname : String)
    (sps : List Rat) (i : Nat) : balanced (sweepLoop st env pname sps i) := by
  induction sps generalizing i with
  | nil => exact balanced_nil
  | cons sp rest ih =>
    have hblk : balanced (sweepBlock st env pname sp i) :=
      balanced_block (x := [Ev.setp pname sp, Ev.sleep, Ev.meas i])
        (y := [Ev.check (env.flag i)]) ⟨rfl, rfl⟩ ⟨rfl, rfl⟩ (Or.inl rfl)
    by_cases hf : env.flag i
    · have : sweepLoop st env pname (sp :: rest) i =
        sweepBlock st env pname sp i ++ [Ev.smeta "interrupted" (.b true)] := by
        simp [sweepLoop, sweepBlock, hf]
      rw [this]
      exact balanced_append hblk (balanced_of_rowless ⟨rfl, rfl⟩)
    · have : sweepLoop st env pname (sp :: rest) i =
        sweepBlock st env pname sp i ++ sweepLoop st env pname rest (i + 1) := by
        simp [sweepLoop, sweepBlock, hf]
      rw [this]
      exact balanced_append hblk (ih (i + 1))

/-! ### Characterising the `watch` loop -/

/-- The duration condition of the `watch` loop before iteration `i`:
vacuously true without a bound, otherwise the `i`-th re-read of the
monotonic clock compared against the entry capture `tstart`. -/
def durOK (env : Env) (maxDur : Option Rat) (tstart : Rat) (i : Nat) : Bool :=
  match maxDur with
  | none => true
  | some d => decide (env.mono (i + 1) - tstart < d)

/-- The events of one uncancelled `watch` iteration. -/
def watchBlock (st : Station) (env : Env) (i : Nat) : List Ev :=
  [Ev.chkDur true, Ev.sleep, Ev.meas i, Ev.wrow (watchRow st env i),
   Ev.prow (watchRow st env i), Ev.check (env.flag i)]

/-- The trace of `n` uncancelled `watch` iterations starting at `i`. -/
def watchFullExp (st : Station) (env : Env) : Nat → Nat → List Ev
  | 0, _ => []
  | n + 1, i => watchBlock st env i ++ watchFullExp st env n (i + 1)

/-- The rows of `n` uncancelled `watch` iterations starting at `i`. -/
def watchRowsExp (st : Station) (env : Env) : Nat → Nat → List (List Rat)
  | 0, _ => []
  | n + 1, i => watchRow st env i :: watchRowsExp st env n (i + 1)

theorem watchLoop_succ (st : Station) (env : Env) (maxDur : Option Rat)
    (tstart : Rat) (fuel i : Nat) :
    watchLoop st env maxDur tstart (fuel + 1) i =
      if durOK env maxDur tstart i then
        if env.flag i then
          (watchBlock st env i ++ [Ev.smeta "interrupted" (.b true)], .intr, i + 1)
        else
          (watchBlock st env i ++ (watchLoop st env maxDur tstart fuel (i + 1)).1,
            (watchLoop st env maxDur tstart fuel (i + 1)).2.1,
            (watchLoop st env maxDur tstart fuel (i + 1)).2.2)
      else ([Ev.chkDur false], .dur, i) := by
  rcases maxDur with _ | d <;>
    simp only [watchLoop, watchBlock, durOK]

theorem watchLoop_eq_intr (st : Station) (env : Env) (maxDur : Option Rat)
    (tstart : Rat) (fuel i k : Nat) (hfuel : k < fuel)
    (hok : ∀ j, j ≤ k → durOK env maxDur tstart (i + j) = true)
    (hlt : ∀ j, j < k → env.flag (i + j) = false)
    (hT : env.flag (i + k) = true) :
    watchLoop st env maxDur tstart fuel i =
      (watchFullExp st env (k + 1) i ++ [Ev.smeta "interrupted" (.b true)],
        .intr, i + k + 1) := by
  induction fuel generalizing i k with
  | zero => omega
  | succ fuel ih =>
    rw [watchLoop_succ]
    have hok0 : durOK env maxDur tstart i = true := by simpa using hok 0 (by omega)
    rw [if_pos hok0]
    match k with
    | 0 =>
      have h0 : env.flag i = true := by simpa using hT
      rw [if_pos h0]
      simp [watchFullExp]
    | k + 1 =>
      have h0 : env.flag i = false := by simpa using hlt 0 (by omega)
      rw [if_neg (by simp [h0])]
      have ih' := ih (i + 1) k (by omega)
        (fun j hj => by
          have h' := hok (j + 1) (by omega)
          rwa [show i + (j + 1) = i + 1 + j from by omega] at h')
        (fun j hj => by
          have h' := hlt (j + 1) (by omega)
          rwa [show i + (j + 1) = i + 1 + j from by omega] at h')
        (by rwa [show i + (k + 1) = i + 1 + k from by omega] at hT)
      rw [ih']
      simp [watchFullExp]
      omega

theorem watchLoop_eq_dur (st : Station) (env : Env) (maxDur : Option Rat)
    (tstart : Rat) (fuel i k : Nat) (hfuel : k < fuel)
    (hok : ∀ j, j < k → durOK env maxDur tstart (i + j) = true ∧ env.flag (i + j) = false)
    (hbad : durOK env maxDur tstart (i + k) = false) :
    watchLoop st env maxDur tstart fuel i =
      (watchFullExp st env k i ++ [Ev.chkDur false], .dur, i + k) := by
  induction fuel generalizing i k with
  | zero => omega
  | succ fuel ih =>
    rw [watchLoop_succ]
    match k with
    | 0 =>
      have h0 : durOK env maxDur tstart i = false := by simpa using hbad
      rw [if_neg (by simp [h0])]
      simp [watchFullExp]
    | k + 1 =>
      have h0 : durOK env maxDur tstart i = true := by simpa using (hok 0 (by omega)).1
      have h1 : env.flag i = false := by simpa using (hok 0 (by omega)).2
      rw [if_pos h0, if_neg (by simp [h1])]
      have ih' := ih (i + 1) k (by omega)
        (fun j hj => by
          have h' := hok (j + 1) (by omega)
          rwa [show i + (j + 1) = i + 1 + j from by omega] at h')
        (by rwa [show i + (k + 1) = i + 1 + k from by omega] at hbad)
      rw [ih']
      simp [watchFullExp]
      omega

/-- Without a duration bound the `watch` loop can never exit through the
duration branch. -/
theorem watchLoop_none_ne_dur (st : Station) (env : Env) (tstart : Rat)
    (fuel i : Nat) :
    (watchLoop st env none tstart fuel i).2.1 ≠ .dur := by
  induction fuel generalizing i with
  | zero => simp [watchLoop]
  | succ fuel ih =>
    rw [watchLoop_succ]
    have : durOK env none tstart i = true := rfl
    rw [if_pos this]
    by_cases hf : env.flag i
    · simp [hf]
    · simp only [hf, if_neg, Bool.false_eq_true, if_false]
      exact ih (i + 1)

/-- The `watch` loop's exit mode and row count do not depend on the wall
clock: the duration bound is enforced against the monotonic clock only. -/
theorem watchLoop_wall_indep (st : Station) (env : Env) (w' : Nat → Rat)
    (maxDur : Option Rat) (tstart : Rat) (fuel i : Nat) :
    (watchLoop st { env with wall := w' } maxDur tstart fuel i).2 =
        (watchLoop st env maxDur tstart fuel i).2 ∧
      (wrows (watchLoop st { env with wall := w' } maxDur tstart fuel i).1).length =
        (wrows (watchLoop st env maxDur tstart fuel i).1).length := by
  induction fuel generalizing i with
  | zero => simp [watchLoop]
  | succ fuel ih =>
    rw [watchLoop_succ, watchLoop_succ]
    have hd : durOK { env with wall := w' } maxDur tstart i = durOK env maxDur tstart i := by
      rcases maxDur with _ | d <;> rfl
    rw [hd]
    by_cases hok : durOK env maxDur tstart i
    · rw [if_pos hok, if_pos hok]
      by_cases hf : env.flag i
      · simp [hf, watchBlock]
      · simp only [show ({ env with wall := w' } : Env).flag = env.flag from rfl, hf,
          Bool.false_eq_true, if_false]
        refine ⟨(ih (i + 1)).1, ?_⟩
        simp [watchBlock, (ih (i + 1)).2]
    · rw [if_neg hok, if_neg hok]
      simp

theorem wrows_watchFullExp (st : Station) (env : Env) (n i : Nat) :
    wrows (watchFullExp st env n i) = watchRowsExp st env n i := by
  induction n generalizing i with
  | zero => rfl
  | succ n ih => simp [watchFullExp, watchBlock, watchRowsExp, ih]

theorem prows_watchFullExp (st : Station) (env : Env) (n i : Nat) :
    prows (watchFullExp st env n i) = watchRowsExp st env n i := by
  induction n generalizing i with
  | zero => rfl
  | succ n ih => simp [watchFullExp, watchBlock, watchRowsExp, ih]

theorem smetas_watchFullExp (st : Station) (env : Env) (n i : Nat) (k : String) :
    smetas k (watchFullExp st env n i) = [] := by
  induction n generalizing i with
  | zero => rfl
  | succ n ih => simp [watchFullExp, watchBlock, ih]

theorem watchRowsExp_length (st : Station) (env : Env) (n i : Nat) :
    (watchRowsExp st env n i).length = n := by
  induction n generalizing i with
  | zero => rfl
  | succ n ih => simp [watchRowsExp, ih]

theorem watchRow_length (st : Station) (env : Env) (i : Nat) :
    (watchRow st env i).length = 1 + st.params.length := by
  simp [watchRow, measureAt_length]
  omega

/-- Every row the `watch` loop hands to the writer has the schema width,
whatever the oracles do. -/
theorem watchLoop_row_len (st : Station) (env : Env) (maxDur : Option Rat)
    (tstart : Rat) (fuel i : Nat) :
    ∀ r ∈ wrows (watchLoop st env maxDur tstart fuel i).1,
      r.length = 1 + st.params.length := by
  induction fuel generalizing i with
  | zero => simp [watchLoop]
  | succ fuel ih =>
    rw [watchLoop_succ]
    by_cases hok : durOK env maxDur tstart i
    · rw [if_pos hok]
      by_cases hf : env.flag i
      · intro r hr
        simp [hf, watchBlock] at hr
        rcases hr with rfl | rfl <;> exact watchRow_length ..
      · intro r hr
        simp only [hf, Bool.false_eq_true, if_false, wrows_append] at hr
        rcases List.mem_append.mp hr with hr | hr
        · simp [watchBlock] at hr
          rcases hr with rfl | rfl <;> exact watchRow_length ..
        · exact ih (i + 1) r hr
    · rw [if_neg hok]
      simp

/-- The `watch` loop respects writer-before-plotter ordering for every
oracle. -/
theorem balanced_watchLoop (st : Station) (env : Env) (maxDur : Option Rat)
    (tstart : Rat) (fuel i : Nat) :
    balanced (watchLoop st env maxDur tstart fuel i).1 := by
  induction fuel generalizing i with
  | zero => exact balanced_nil
  | succ fuel ih =>
    rw [watchLoop_succ]
    have hblk : balanced (watchBlock st env i) :=
      balanced_block (x := [Ev.chkDur true, Ev.sleep, Ev.meas i])
        (y := [Ev.check (env.flag i)]) ⟨rfl, rfl⟩ ⟨rfl, rfl⟩ (Or.inl rfl)
    by_cases hok : durOK env maxDur tstart i
    · rw [if_pos hok]
      by_cases hf : env.flag i
      · rw [if_pos hf]
        exact balanced_append hblk (balanced_of_rowless ⟨rfl, rfl⟩)
      · rw [if_neg (by simp [hf])]
        exact balanced_append hblk (ih (i + 1))
    · rw [if_neg hok]
      exact balanced_of_rowless ⟨rfl, rfl⟩

/-! ### Characterising the `megasweep` loops -/

/-- The interrupt flag of a real run is monotone: the SIGINT handler only
ever sets `interrupt_requested` and nothing clears it during the wrapped
call, so once a read returns true every later read does too. -/
def FlagMono (env : Env) : Prop :=
  ∀ a b, a ≤ b → env.flag a = true → env.flag b = true

/-- The events of one uncancelled fast-loop iteration of `megasweep`. -/
def megaFastBlock (st : Station) (env : Env) (fname : String) (ov iv : Rat)
    (j r c : Nat) : List Ev :=
  [Ev.setp fname iv, Ev.sleep, Ev.meas r, Ev.wrow (megaRow st env ov iv r),
   (if j = 0 then Ev.prowNew (megaRow st env ov iv r) else Ev.prow (megaRow st env ov iv r)),
   Ev.check (env.flag c)]

/-- The trace of an uncancelled fast loop of `megasweep`. -/
def megaFastExp (st : Station) (env : Env) (fname : String) (ov : Rat) :
    List Rat → Nat → Nat → Nat → List Ev
  | [], _, _, _ => []
  | iv :: rest, j, r, c =>
    megaFastBlock st env fname ov iv j r c ++
      megaFastExp st env fname ov rest (j + 1) (r + 1) (c + 1)

/-- The trace of an uncancelled slow loop of `megasweep`. -/
def megaSlowExp (st : Station) (env : Env) (sname fname : String) (fast : List Rat) :
    List Rat → Nat → Nat → List Ev
  | [], _, _ => []
  | ov :: rest, r, c =>
    Ev.setp sname ov :: Ev.sleep ::
      (megaFastExp st env fname ov fast 0 r c ++
        (Ev.check (env.flag (c + fast.length)) ::
          megaSlowExp st env sname fname fast rest (r + fast.length)
            (c + fast.length + 1)))

/-- The rows of one uncancelled fast pass. -/
def megaRowsFastExp (st : Station) (env : Env) (ov : Rat) :
    List Rat → Nat → List (List Rat)
  | [], _ => []
  | iv :: rest, r => megaRow st env ov iv r :: megaRowsFastExp st env ov rest (r + 1)

/-- The rows of an uncancelled `megasweep`. -/
def megaRowsExp (st : Station) (env : Env) (fast : List Rat) :
    List Rat → Nat → List (List Rat)
  | [], _ => []
  | ov :: rest, r =>
    megaRowsFastExp st env ov fast r ++
      megaRowsExp st env fast rest (r + fast.length)

/-- The plotter calls of one uncancelled fast pass: a new line exactly at
fast index zero, every other row appended to the current line. -/
def plotsFastExp (st : Station) (env : Env) (ov : Rat) :
    List Rat → Nat → Nat → List (Bool × List Rat)
  | [], _, _ => []
  | iv :: rest, j, r =>
    (decide (j = 0), megaRow st env ov iv r) :: plotsFastExp st env ov rest (j + 1) (r + 1)

/-- The plotter calls of an uncancelled `megasweep`. -/
def megaPlotsExp (st : Station) (env : Env) (fast : List Rat) :
    List Rat → Nat → List (Bool × List Rat)
  | [], _ => []
  | ov :: rest, r =>
    plotsFastExp st env ov fast 0 r ++
      megaPlotsExp st env fast rest (r + fast.length)

/-- Componentwise equality for the 4-tuples returned by the nested loops. -/
theorem prodEq4 {a a' : List Ev} {b b' c c' : Nat} {d d' : Bool}
    (h1 : a = a') (h2 : b = b') (h3 : c = c') (h4 : d = d') :
    ((a, b, c, d) : List Ev × Nat × Nat × Bool) = (a', b', c', d') := by
  rw [h1, h2, h3, h4]

theorem megaFast_eq_full (st : Station) (env : Env) (fname : String) (ov : Rat)
    (fast : List Rat) (j r c : Nat)
    (h : ∀ m, m < fast.length → env.flag (c + m) = false) :
    megaFast st env fname ov fast j r c =
      (megaFastExp st env fname ov fast j r c, r + fast.length, c + fast.length, false) := by
  induction fast generalizing j r c with
  | nil => simp [megaFast, megaFastExp]
  | cons iv rest ih =>
    have h0 : env.flag c = false := by simpa using h 0 (by simp)
    have ih' := ih (j + 1) (r + 1) (c + 1) (fun m hm => by
      have h' := h (m + 1) (by simpa using Nat.succ_lt_succ hm)
      rwa [show c + (m + 1) = c + 1 + m from by omega] at h')
    simp only [megaFast, h0, Bool.false_eq_true, if_false, ih']
    simp [megaFastBlock, megaFastExp, h0]
    omega

theorem megaFast_eq_intr (st : Station) (env : Env) (fname : String) (ov : Rat)
    (fast : List Rat) (j r c k : Nat) (hk : k < fast.length)
    (hlt : ∀ m, m < k → env.flag (c + m) = false)
    (hT : env.flag (c + k) = true) :
    megaFast st env fname ov fast j r c =
      (megaFastExp st env fname ov (fast.take (k + 1)) j r c ++
          [Ev.smeta "interrupted" (.b true)],
        r + k + 1, c + k + 1, true) := by
  induction fast generalizing j r c k with
  | nil => simp at hk
  | cons iv rest ih =>
    match k with
    | 0 =>
      have h0 : env.flag c = true := by simpa using hT
      simp [megaFast, megaFastExp, megaFastBlock, h0]
    | k + 1 =>
      have h0 : env.flag c = false := by simpa using hlt 0 (by omega)
      have ih' := ih (j + 1) (r + 1) (c + 1) k (by simpa using hk)
        (fun m hm => by
          have h' := hlt (m + 1) (by omega)
          rwa [show c + (m + 1) = c + 1 + m from by omega] at h')
        (by rwa [show c + (k + 1) = c + 1 + k from by omega] at hT)
      simp only [megaFast, h0, Bool.false_eq_true, if_false, ih']
      simp [megaFastBlock, megaFastExp, h0]
      omega

theorem megaSlow_eq_full (st : Station) (env : Env) (sname fname : String)
    (fast slow : List Rat) (r c : Nat)
    (h : ∀ m, m < slow.length * (fast.length + 1) → env.flag (c + m) = false) :
    megaSlow st env sname fname fast slow r c =
      (megaSlowExp st env sname fname fast slow r c,
        r + slow.length * fast.length, c + slow.length * (fast.length + 1), false) := by
  induction slow generalizing r c with
  | nil => simp [megaSlow, megaSlowExp]
  | cons ov rest ih =>
    have hS : (ov :: rest).length * (fast.length + 1) =
        rest.length * (fast.length + 1) + (fast.length + 1) := by
      simp [List.length_cons, Nat.succ_mul]
    have hin := megaFast_eq_full st env fname ov fast 0 r c (fun m hm =>
      h m (by rw [hS]; omega))
    have hout : env.flag (c + fast.length) = false :=
      h fast.length (by rw [hS]; omega)
    have ih' := ih (r + fast.length) (c + fast.length + 1) (fun m hm => by
      have h' := h (fast.length + 1 + m) (by rw [hS]; omega)
      rwa [show c + (fast.length + 1 + m) = c + fast.length + 1 + m from by omega] at h')
    simp only [megaSlow, hin, hout, Bool.false_eq_true, if_false]
    rw [ih']
    refine prodEq4 (by simp [megaSlowExp, hout]) ?_ ?_ rfl
    · simp only [List.length_cons, Nat.succ_mul]
      ring
    · simp only [List.length_cons, Nat.succ_mul]
      ring

theorem megaSlow_eq_intr_inner (st : Station) (env : Env) (sname fname : String)
    (fast slow : List Rat) (r c q rem : Nat) (hrem : rem < fast.length)
    (hq : q < slow.length)
    (hlt : ∀ m, m < q * (fast.length + 1) + rem → env.flag (c + m) = false)
    (hT : env.flag (c + (q * (fast.length + 1) + rem)) = true)
    (hM : FlagMono env) :
    megaSlow st env sname fname fast slow r c =
      (megaSlowExp st env sname fname fast (slow.take q) r c ++
          Ev.setp sname (slow.getD q 0) :: Ev.sleep ::
            (megaFastExp st env fname (slow.getD q 0) (fast.take (rem + 1)) 0
                (r + q * fast.length) (c + q * (fast.length + 1)) ++
              [Ev.smeta "interrupted" (.b true), Ev.check true]),
        r + q * fast.length + rem + 1,
        c + (q * (fast.length + 1) + rem) + 2, true) := by
  induction slow generalizing r c q with
  | nil => simp at hq
  | cons ov rest ih =>
    match q with
    | 0 =>
      simp only [Nat.zero_mul, Nat.zero_add] at hlt hT
      have hin := megaFast_eq_intr st env fname ov fast 0 r c rem hrem hlt hT
      have hout : env.flag (c + rem + 1) = true :=
        hM (c + rem) (c + rem + 1) (by omega) hT
      simp only [megaSlow, hin, hout, eq_self_iff_true, if_true]
      refine prodEq4 (by simp [megaSlowExp, hout]) ?_ ?_ rfl
      · simp
      · simp only [Nat.zero_mul, Nat.zero_add]
    | q + 1 =>
      have hk : fast.length + 1 ≤ (q + 1) * (fast.length + 1) + rem := by
        have : 1 * (fast.length + 1) ≤ (q + 1) * (fast.length + 1) :=
          Nat.mul_le_mul_right _ (by omega)
        omega
      have hin := megaFast_eq_full st env fname ov fast 0 r c (fun m hm =>
        hlt m (by omega))
      have hout : env.flag (c + fast.length) = false := hlt fast.length (by omega)
      have harg : ∀ m, m < q * (fast.length + 1) + rem →
          env.flag (c + fast.length + 1 + m) = false := by
        intro m hm
        have hmm : fast.length + 1 + m < (q + 1) * (fast.length + 1) + rem := by
          rw [Nat.succ_mul]
          omega
        have h' := hlt (fast.length + 1 + m) hmm
        rwa [show c + (fast.length + 1 + m) = c + fast.length + 1 + m from by omega] at h'
      have hT' : env.flag (c + fast.length + 1 + (q * (fast.length + 1) + rem)) = true := by
        have : c + (q + 1) * (fast.length + 1) + rem =
            c + fast.length + 1 + (q * (fast.length + 1) + rem) := by
          rw [Nat.succ_mul]
          ring
        rw [← this]
        rwa [show c + ((q + 1) * (fast.length + 1) + rem) =
          c + (q + 1) * (fast.length + 1) + rem from by omega] at hT
      have ih' := ih (r + fast.length) (c + fast.length + 1) q
        (by simpa using hq) harg hT'
      have e1 : r + fast.length + q * fast.length = r + (q + 1) * fast.length := by
        rw [Nat.succ_mul]
        ring
      have e2 : c + fast.length + 1 + q * (fast.length + 1) =
          c + (q + 1) * (fast.length + 1) := by
        rw [Nat.succ_mul]
        ring
      have e4 : c + fast.length + 1 + (q * (fast.length + 1) + rem) + 2 =
          c + ((q + 1) * (fast.length + 1) + rem) + 2 := by
        rw [Nat.succ_mul]
        ring
      rw [e1, e2, e4] at ih'
      simp only [megaSlow, hin, hout, Bool.false_eq_true, if_false]
      rw [ih']
      refine prodEq4 ?_ rfl rfl rfl
      simp [megaSlowExp, List.take_succ_cons, List.getD_cons_succ, hout]

theorem megaSlow_eq_intr_outer (st : Station) (env : Env) (sname fname : String)
    (fast slow : List Rat) (r c q : Nat) (hq : q < slow.length)
    (hlt : ∀ m, m < q * (fast.length + 1) + fast.length → env.flag (c + m) = false)
    (hT : env.flag (c + (q * (fast.length + 1) + fast.length)) = true) :
    megaSlow st env sname fname fast slow r c =
      (megaSlowExp st env sname fname fast (slow.take q) r c ++
          Ev.setp sname (slow.getD q 0) :: Ev.sleep ::
            (megaFastExp st env fname (slow.getD q 0) fast 0
                (r + q * fast.length) (c + q * (fast.length + 1)) ++
              [Ev.check true]),
        r + (q + 1) * fast.length,
        c + (q * (fast.length + 1) + fast.length) + 1, true) := by
  induction slow generalizing r c q with
  | nil => simp at hq
  | cons ov rest ih =>
    match q with
    | 0 =>
      simp only [Nat.zero_mul, Nat.zero_add] at hlt hT
      have hin := megaFast_eq_full st env fname ov fast 0 r c (fun m hm => hlt m hm)
      simp only [megaSlow, hin, hT, eq_self_iff_true, if_true]
      refine prodEq4 (by simp [megaSlowExp, hT]) ?_ ?_ rfl
      · simp
      · simp only [Nat.zero_mul, Nat.zero_add]
    | q + 1 =>
      have hin := megaFast_eq_full st env fname ov fast 0 r c (fun m hm =>
        hlt m (by
          have : 1 * (fast.length + 1) ≤ (q + 1) * (fast.length + 1) :=
            Nat.mul_le_mul_right _ (by omega)
          omega))
      have hout : env.flag (c + fast.length) = false :=
        hlt fast.length (by
          have : 1 * (fast.length + 1) ≤ (q + 1) * (fast.length + 1) :=
            Nat.mul_le_mul_right _ (by omega)
          omega)
      have harg : ∀ m, m < q * (fast.length + 1) + fast.length →
          env.flag (c + fast.length + 1 + m) = false := by
        intro m hm
        have hmm : fast.length + 1 + m < (q + 1) * (fast.length + 1) + fast.length := by
          rw [Nat.succ_mul]
          omega
        have h' := hlt (fast.length + 1 + m) hmm
        rwa [show c + (fast.length + 1 + m) = c + fast.length + 1 + m from by omega] at h'
      have hT' : env.flag
          (c + fast.length + 1 + (q * (fast.length + 1) + fast.length)) = true := by
        have heq : c + ((q + 1) * (fast.length + 1) + fast.length) =
            c + fast.length + 1 + (q * (fast.length + 1) + fast.length) := by
          rw [Nat.succ_mul]
          ring
        rwa [heq] at hT
      have ih' := ih (r + fast.length) (c + fast.length + 1) q
        (by simpa using hq) harg hT'
      have e1 : r + fast.length + q * fast.length = r + (q + 1) * fast.length := by
        rw [Nat.succ_mul]
        ring
      have e2 : c + fast.length + 1 + q * (fast.length + 1) =
          c + (q + 1) * (fast.length + 1) := by
        rw [Nat.succ_mul]
        ring
      have e3 : r + fast.length + (q + 1) * fast.length = r + (q + 1 + 1) * fast.length := by
        rw [Nat.succ_mul (q + 1)]
        ring
      have e4 : c + fast.length + 1 + (q * (fast.length + 1) + fast.length) + 1 =
          c + ((q + 1) * (fast.length + 1) + fast.length) + 1 := by
        rw [Nat.succ_mul]
        ring
      rw [e1, e2, e3, e4] at ih'
      simp only [megaSlow, hin, hout, Bool.false_eq_true, if_false]
      rw [ih']
      refine prodEq4 ?_ rfl rfl rfl
      simp [megaSlowExp, List.take_succ_cons, List.getD_cons_succ, hout]

theorem wrows_megaFastExp (st : Station) (env : Env) (fname : String) (ov : Rat)
    (fast : List Rat) (j r c : Nat) :
    wrows (megaFastExp st env fname ov fast j r c) = megaRowsFastExp st env ov fast r := by
  induction fast generalizing j r c with
  | nil => rfl
  | cons iv rest ih =>
    by_cases hj : j = 0 <;>
      simp [megaFastExp, megaFastBlock, megaRowsFastExp, hj, ih]

theorem prows_megaFastExp (st : Station) (env : Env) (fname : String) (ov : Rat)
    (fast : List Rat) (j r c : Nat) :
    prows (megaFastExp st env fname ov fast j r c) = megaRowsFastExp st env ov fast r := by
  induction fast generalizing j r c with
  | nil => rfl
  | cons iv rest ih =>
    by_cases hj : j = 0 <;>
      simp [megaFastExp, megaFastBlock, megaRowsFastExp, hj, ih]

theorem smetas_megaFastExp (st : Station) (env : Env) (fname : String) (ov : Rat)
    (fast : List Rat) (j r c : Nat) (k : String) :
    smetas k (megaFastExp st env fname ov fast j r c) = [] := by
  induction fast generalizing j r c with
  | nil => rfl
  | cons iv rest ih =>
    by_cases hj : j = 0 <;> simp [megaFastExp, megaFastBlock, hj, ih]

theorem plotEvs_megaFastExp (st : Station) (env : Env) (fname : String) (ov : Rat)
    (fast : List Rat) (j r c : Nat) :
    plotEvs (megaFastExp st env fname ov fast j r c) = plotsFastExp st env ov fast j r := by
  induction fast generalizing j r c with
  | nil => rfl
  | cons iv rest ih =>
    by_cases hj : j = 0 <;>
      simp [megaFastExp, megaFastBlock, plotsFastExp, hj, ih]

theorem wrows_megaSlowExp (st : Station) (env : Env) (sname fname : String)
    (fast slow : List Rat) (r c : Nat) :
    wrows (megaSlowExp st env sname fname fast slow r c) =
      megaRowsExp st env fast slow r := by
  induction slow generalizing r c with
  | nil => rfl
  | cons ov rest ih =>
    simp [megaSlowExp, megaRowsExp, wrows_megaFastExp, ih]

theorem prows_megaSlowExp (st : Station) (env : Env) (sname fname : String)
    (fast slow : List Rat) (r c : Nat) :
    prows (megaSlowExp st env sname fname fast slow r c) =
      megaRowsExp st env fast slow r := by
  induction slow generalizing r c with
  | nil => rfl
  | cons ov rest ih =>
    simp [megaSlowExp, megaRowsExp, prows_megaFastExp, ih]

theorem smetas_megaSlowExp (st : Station) (env : Env) (sname fname : String)
    (fast slow : List Rat) (r c : Nat) (k : String) :
    smetas k (megaSlowExp st env sname fname fast slow r c) = [] := by
  induction slow generalizing r c with
  | nil => rfl
  | cons ov rest ih =>
    simp [megaSlowExp, smetas_megaFastExp, ih]

theorem plotEvs_megaSlowExp (st : Station) (env : Env) (sname fname : String)
    (fast slow : List Rat) (r c : Nat) :
    plotEvs (megaSlowExp st env sname fname fast slow r c) =
      megaPlotsExp st env fast slow r := by
  induction slow generalizing r c with
  | nil => rfl
  | cons ov rest ih =>
    simp [megaSlowExp, megaPlotsExp, plotEvs_megaFastExp, ih]

theorem megaRowsFastExp_length (st : Station) (env : Env) (ov : Rat)
    (fast : List Rat) (r : Nat) :
    (megaRowsFastExp st env ov fast r).length = fast.length := by
  induction fast generalizing r with
  | nil => rfl
  | cons iv rest ih => simp [megaRowsFastExp, ih]

theorem megaRowsExp_length (st : Station) (env : Env) (fast slow : List Rat) (r : Nat) :
    (megaRowsExp st env fast slow r).length = slow.length * fast.length := by
  induction slow generalizing r with
  | nil => simp [megaRowsExp]
  | cons ov rest ih =>
    simp only [megaRowsExp, List.length_append, megaRowsFastExp_length, ih,
      List.length_cons, Nat.succ_mul]
    ring

/-- With at least one fast setpoint, each fast pass starts exactly one new
plotted line. -/
theorem newLines_megaFastExp_pos (st : Station) (env : Env) (fname : String)
    (ov : Rat) (fast : List Rat) (j r c : Nat) (hj : j ≠ 0) :
    newLines (megaFastExp st env fname ov fast j r c) = 0 := by
  induction fast generalizing j r c with
  | nil => rfl
  | cons iv rest ih =>
    have := ih (j + 1) (r + 1) (c + 1) (by omega)
    simp [megaFastExp, megaFastBlock, hj, this]

theorem newLines_megaFastExp_zero (st : Station) (env : Env) (fname : String)
    (ov iv : Rat) (fast : List Rat) (r c : Nat) :
    newLines (megaFastExp st env fname ov (iv :: fast) 0 r c) = 1 := by
  simp [megaFastExp, megaFastBlock,
    newLines_megaFastExp_pos st env fname ov fast 1 (r + 1) (c + 1) (by omega)]

theorem newLines_megaSlowExp (st : Station) (env : Env) (sname fname : String)
    (iv : Rat) (fast slow : List Rat) (r c : Nat) :
    newLines (megaSlowExp st env sname fname (iv :: fast) slow r c) = slow.length := by
  induction slow generalizing r c with
  | nil => rfl
  | cons ov rest ih =>
    simp [megaSlowExp, newLines_megaFastExp_zero, ih]
    omega

theorem megaRow_length (st : Station) (env : Env) (ov iv : Rat) (r : Nat) :
    (megaRow st env ov iv r).length = 3 + st.params.length := by
  simp [megaRow, measureAt_length]
  omega

/-- Every row the `megasweep` fast loop hands to the writer has the schema
width, whatever the flag oracle does. -/
theorem megaFast_row_len (st : Station) (env : Env) (fname : String) (ov : Rat)
    (fast : List Rat) (j r c : Nat) :
    ∀ x ∈ wrows (megaFast st env fname ov fast j r c).1,
      x.length = 3 + st.params.length := by
  induction fast generalizing j r c with
  | nil => simp [megaFast]
  | cons iv rest ih =>
    intro x hx
    simp only [megaFast] at hx
    by_cases hf : env.flag c
    · simp [hf, megaFastBlock] at hx
      subst hx
      exact megaRow_length ..
    · simp [hf, megaFastBlock] at hx
      rcases hx with rfl | hx
      · exact megaRow_length ..
      · exact ih (j + 1) (r + 1) (c + 1) x hx

theorem megaSlow_row_len (st : Station) (env : Env) (sname fname : String)
    (fast slow : List Rat) (r c : Nat) :
    ∀ x ∈ wrows (megaSlow st env sname fname fast slow r c).1,
      x.length = 3 + st.params.length := by
  induction slow generalizing r c with
  | nil => simp [megaSlow]
  | cons ov rest ih =>
    intro x hx
    simp only [megaSlow] at hx
    by_cases hf : env.flag (megaFast st env fname ov fast 0 r c).2.2.1
    · simp [hf] at hx
      exact megaFast_row_len st env fname ov fast 0 r c x hx
    · simp [hf] at hx
      rcases hx with hx | hx
      · exact megaFast_row_len st env fname ov fast 0 r c x hx
      · exact ih _ _ x hx

theorem balanced_megaFast (st : Station) (env : Env) (fname : String) (ov : Rat)
    (fast : List Rat) (j r c : Nat) :
    balanced (megaFast st env fname ov fast j r c).1 := by
  induction fast generalizing j r c with
  | nil => exact balanced_nil
  | cons iv rest ih =>
    have hblk : balanced (megaFastBlock st env fname ov iv j r c) := by
      refine balanced_block (x := [Ev.setp fname iv, Ev.sleep, Ev.meas r])
        (y := [Ev.check (env.flag c)]) ⟨rfl, rfl⟩ ⟨rfl, rfl⟩ ?_
      by_cases hj : j = 0 <;> simp [hj]
    by_cases hf : env.flag c
    · have : (megaFast st env fname ov (iv :: rest) j r c).1 =
        megaFastBlock st env fname ov iv j r c ++ [Ev.smeta "interrupted" (.b true)] := by
        simp [megaFast, megaFastBlock, hf]
      rw [this]
      exact balanced_append hblk (balanced_of_rowless ⟨rfl, rfl⟩)
    · have : (megaFast st env fname ov (iv :: rest) j r c).1 =
        megaFastBlock st env fname ov iv j r c ++
          (megaFast st env fname ov rest (j + 1) (r + 1) (c + 1)).1 := by
        simp [megaFast, megaFastBlock, hf]
      rw [this]
      exact balanced_append hblk (ih (j + 1) (r + 1) (c + 1))

theorem balanced_megaSlow (st : Station) (env : Env) (sname fname : String)
    (fast slow : List Rat) (r c : Nat) :
    balanced (megaSlow st env sname fname fast slow r c).1 := by
  induction slow generalizing r c with
  | nil => exact balanced_nil
  | cons ov rest ih =>
    have hpre : balanced [Ev.setp sname ov, Ev.sleep] :=
      balanced_of_rowless ⟨rfl, rfl⟩
    have hinner := balanced_megaFast st env fname ov fast 0 r c
    have hchk : balanced [Ev.check (env.flag (megaFast st env fname ov fast 0 r c).2.2.1)] :=
      balanced_of_rowless ⟨rfl, rfl⟩
    by_cases hf : env.flag (megaFast st env fname ov fast 0 r c).2.2.1
    · have : (megaSlow st env sname fname fast (ov :: rest) r c).1 =
        [Ev.setp sname ov, Ev.sleep] ++ (megaFast st env fname ov fast 0 r c).1 ++
          [Ev.check (env.flag (megaFast st env fname ov fast 0 r c).2.2.1)] := by
        simp [megaSlow, hf]
      rw [this]
      exact balanced_append (balanced_append hpre hinner) hchk
    · have : (megaSlow st env sname fname fast (ov :: rest) r c).1 =
        [Ev.setp sname ov, Ev.sleep] ++ (megaFast st env fname ov fast 0 r c).1 ++
          [Ev.check (env.flag (megaFast st env fname ov fast 0 r c).2.2.1)] ++
          (megaSlow st env sname fname fast rest (megaFast st env fname ov fast 0 r c).2.1
            ((megaFast st env fname ov fast 0 r c).2.2.1 + 1)).1 := by
        simp [megaSlow, hf]
      rw [this]
      exact balanced_append (balanced_append (balanced_append hpre hinner) hchk) (ih _ _)

/-! ### Characterising the VNA loops -/

/-- Every element of `zipWith` is the image of one element of each list. -/
theorem mem_zipWith {α β γ : Type} {f : α → β → γ} :
    ∀ {l1 : List α} {l2 : List β} {x : γ}, x ∈ List.zipWith f l1 l2 →
      ∃ a b, a ∈ l1 ∧ b ∈ l2 ∧ x = f a b := by
  intro l1
  induction l1 with
  | nil => intro l2 x hx; simp [List.zipWith] at hx
  | cons a l1 ih =>
    intro l2 x hx
    match l2 with
    | [] => simp [List.zipWith] at hx
    | b :: l2 =>
      simp only [List.zipWith, List.mem_cons] at hx
      rcases hx with rfl | hx
      · exact ⟨a, b, by simp, by simp, rfl⟩
      · rcases ih hx with ⟨a', b', ha, hb, rfl⟩
        exact ⟨a', b', by simp [ha], by simp [hb], rfl⟩

theorem procData_mem_length (env : Env) (s t : Nat) :
    ∀ x ∈ procData env s t, x.length = 3 := by
  intro x hx
  rcases mem_zipWith hx with ⟨a, b, _, _, rfl⟩
  rfl

/-- Every zipped trace point carries the six derived values of the two
traces. -/
theorem tracesPoints_mem_length (env : Env) (s : Nat) :
    ∀ x ∈ tracesPoints env s, x.length = 6 := by
  intro x hx
  rcases mem_zipWith hx with ⟨a, b, ha, hb, rfl⟩
  rw [List.length_append, procData_mem_length env s 0 a ha,
    procData_mem_length env s 1 b hb]

/-- When both traces report series on the instrument's frequency grid, the
zipped point list has exactly one entry per grid frequency. -/
theorem tracesPoints_length (env : Env) (s : Nat)
    (h : ∀ t, t < 2 → (env.trcI s t).length = env.freqs.length ∧
      (env.trcQ s t).length = env.freqs.length) :
    (tracesPoints env s).length = env.freqs.length := by
  simp [tracesPoints, procData, List.length_zipWith, (h 0 (by omega)).1,
    (h 0 (by omega)).2, (h 1 (by omega)).1, (h 1 (by omega)).2]

/-- The row emitted by `sweep_vna_1d` for the `j`-th zipped point. -/
def vnaRow (st : Station) (env : Env) (pt : List Rat) (j : Nat) : List Rat :=
  env.wall (2 + j) :: env.freqs.getD j 0 :: (measureAt st env j ++ pt)

/-- The events of one uncancelled `sweep_vna_1d` emission iteration. -/
def vnaEmitBlock (st : Station) (env : Env) (pt : List Rat) (j : Nat) : List Ev :=
  [Ev.meas j, Ev.wrow (vnaRow st env pt j), Ev.prow (vnaRow st env pt j),
   Ev.check (env.flag j)]

/-- The full `sweep_vna_1d` emission trace when no iteration is cancelled. -/
def vnaEmitExp (st : Station) (env : Env) : List (List Rat) → Nat → List Ev
  | [], _ => []
  | pt :: rest, j => vnaEmitBlock st env pt j ++ vnaEmitExp st env rest (j + 1)

/-- The rows of the uncancelled `sweep_vna_1d` emission loop. -/
def vnaRowsExp (st : Station) (env : Env) : List (List Rat) → Nat → List (List Rat)
  | [], _ => []
  | pt :: rest, j => vnaRow st env pt j :: vnaRowsExp st env rest (j + 1)

theorem vnaEmit_eq_full (st : Station) (env : Env) (pts : List (List Rat)) (j : Nat)
    (h : ∀ m, m < pts.length → env.flag (j + m) = false) :
    vnaEmit st env pts j = vnaEmitExp st env pts j := by
  induction pts generalizing j with
  | nil => rfl
  | cons pt rest ih =>
    have h0 : env.flag j = false := by simpa using h 0 (by simp)
    have ih' := ih (j + 1) (fun m hm => by
      have h' := h (m + 1) (by simpa using Nat.succ_lt_succ hm)
      rwa [show j + (m + 1) = j + 1 + m from by omega] at h')
    simp [vnaEmit, vnaEmitExp, vnaEmitBlock, vnaRow, h0, ih']

theorem vnaEmit_eq_intr (st : Station) (env : Env) (pts : List (List Rat))
    (j k : Nat) (hk : k < pts.length)
    (hlt : ∀ m, m < k → env.flag (j + m) = false)
    (hT : env.flag (j + k) = true) :
    vnaEmit st env pts j =
      vnaEmitExp st env (pts.take (k + 1)) j ++ [Ev.smeta "interrupted" (.b true)] := by
  induction pts generalizing j k with
  | nil => simp at hk
  | cons pt rest ih =>
    match k with
    | 0 =>
      have h0 : env.flag j = true := by simpa using hT
      simp [vnaEmit, vnaEmitExp, vnaEmitBlock, vnaRow, h0]
    | k + 1 =>
      have h0 : env.flag j = false := by simpa using hlt 0 (by omega)
      have ih' := ih (j + 1) k (by simpa using hk)
        (fun m hm => by
          have h' := hlt (m + 1) (by omega)
          rwa [show j + (m + 1) = j + 1 + m from by omega] at h')
        (by rwa [show j + (k + 1) = j + 1 + k from by omega] at hT)
      simp [vnaEmit, vnaEmitExp, vnaEmitBlock, vnaRow, h0, ih']

theorem wrows_vnaEmitExp (st : Station) (env : Env) (pts : List (List Rat)) (j : Nat) :
    wrows (vnaEmitExp st env pts j) = vnaRowsExp st env pts j := by
  induction pts generalizing j with
  | nil => rfl
  | cons pt rest ih => simp [vnaEmitExp, vnaEmitBlock, vnaRowsExp, ih]

theorem prows_vnaEmitExp (st : Station) (env : Env) (pts : List (List Rat)) (j : Nat) :
    prows (vnaEmitExp st env pts j) = vnaRowsExp st env pts j := by
  induction pts generalizing j with
  | nil => rfl
  | cons pt rest ih => simp [vnaEmitExp, vnaEmitBlock, vnaRowsExp, ih]

theorem smetas_vnaEmitExp (st : Station) (env : Env) (pts : List (List Rat))
    (j : Nat) (k : String) :
    smetas k (vnaEmitExp st env pts j) = [] := by
  induction pts generalizing j with
  | nil => rfl
  | cons pt rest ih => simp [vnaEmitExp, vnaEmitBlock, ih]

theorem vnaRowsExp_length (st : Station) (env : Env) (pts : List (List Rat)) (j : Nat) :
    (vnaRowsExp st env pts j).length = pts.length := by
  induction pts generalizing j with
  | nil => rfl
  | cons pt rest ih => simp [vnaRowsExp, ih]

theorem vnaRow_length (st : Station) (env : Env) (pt : List Rat) (j : Nat) :
    (vnaRow st env pt j).length = 2 + st.params.length + pt.length := by
  simp [vnaRow, measureAt_length]
  omega

/-- Every row the `sweep_vna_1d` emission loop hands to the writer has
width `2 + N + 6`, whatever the flag oracle does. -/
theorem vnaEmit_row_len (st : Station) (env : Env) (pts : List (List Rat)) (j : Nat)
    (hpt : ∀ pt ∈ pts, pt.length = 6) :
    ∀ x ∈ wrows (vnaEmit st env pts j), x.length = 2 + st.params.length + 6 := by
  induction pts generalizing j with
  | nil => simp [vnaEmit]
  | cons pt rest ih =>
    intro x hx
    simp only [vnaEmit] at hx
    by_cases hf : env.flag j
    · simp [hf] at hx
      subst hx
      simp [measureAt_length, hpt pt (by simp)]
      omega
    · simp [hf] at hx
      rcases hx with rfl | hx
      · simp [measureAt_length, hpt pt (by simp)]
        omega
      · exact ih (j + 1) (fun p hp => hpt p (by simp [hp])) x hx

theorem balanced_vnaEmit (st : Station) (env : Env) (pts : List (List Rat)) (j : Nat) :
    balanced (vnaEmit st env pts j) := by
  induction pts generalizing j with
  | nil => exact balanced_nil
  | cons pt rest ih =>
    have hblk : balanced (vnaEmitBlock st env pt j) :=
      balanced_block (x := [Ev.meas j]) (y := [Ev.check (env.flag j)])
        ⟨rfl, rfl⟩ ⟨rfl, rfl⟩ (Or.inl rfl)
    by_cases hf : env.flag j
    · have : vnaEmit st env (pt :: rest) j =
        vnaEmitBlock st env pt j ++ [Ev.smeta "interrupted" (.b true)] := by
        simp [vnaEmit, vnaEmitBlock, vnaRow, hf]
      rw [this]
      exact balanced_append hblk (balanced_of_rowless ⟨rfl, rfl⟩)
    · have : vnaEmit st env (pt :: rest) j =
        vnaEmitBlock st env pt j ++ vnaEmit st env rest (j + 1) := by
        simp [vnaEmit, vnaEmitBlock, vnaRow, hf]
      rw [this]
      exact balanced_append hblk (ih (j + 1))

/-- The row emitted by `sweep_vna_2d` for slow value `ov` (slow pass `i`)
and zipped point `pt` at fast index `j`, as the `r`-th row of the run: the
single parameter measurement of pass `i` is replicated into it. -/
def vna2dRowOf (st : Station) (env : Env) (ov : Rat) (i : Nat) (pt : List Rat)
    (j r : Nat) : List Rat :=
  env.wall (2 + r) :: ov :: env.freqs.getD j 0 :: (measureAt st env i ++ pt)

/-- The events of one uncancelled `sweep_vna_2d` emission iteration. -/
def vna2dEmitBlock (st : Station) (env : Env) (ov : Rat) (i : Nat) (pt : List Rat)
    (j r c : Nat) : List Ev :=
  [Ev.wrow (vna2dRowOf st env ov i pt j r),
   (if j = 0 then Ev.prowNew (vna2dRowOf st env ov i pt j r)
    else Ev.prow (vna2dRowOf st env ov i pt j r)),
   Ev.check (env.flag c)]

/-- The trace of an uncancelled `sweep_vna_2d` emission pass. -/
def vna2dEmitExp (st : Station) (env : Env) (ov : Rat) (i : Nat) :
    List (List Rat) → Nat → Nat → Nat → List Ev
  | [], _, _, _ => []
  | pt :: rest, j, r, c =>
    vna2dEmitBlock st env ov i pt j r c ++
      vna2dEmitExp st env ov i rest (j + 1) (r + 1) (c + 1)

/-- The trace of an uncancelled `sweep_vna_2d` slow loop: slow setpoint,
sleep, one parameter measurement, both trace reads, the emission pass, and
the outer flag read. -/
def vna2dSlowExp (st : Station) (env : Env) (sname t0n t1n : String) :
    List Rat → Nat → Nat → Nat → List Ev
  | [], _, _, _ => []
  | ov :: rest, i, r, c =>
    Ev.setp sname ov :: Ev.sleep :: Ev.meas i :: Ev.trcRead t0n :: Ev.trcRead t1n ::
      (vna2dEmitExp st env ov i (tracesPoints env i) 0 r c ++
        (Ev.check (env.flag (c + (tracesPoints env i).length)) ::
          vna2dSlowExp st env sname t0n t1n rest (i + 1)
            (r + (tracesPoints env i).length)
            (c + (tracesPoints env i).length + 1)))

/-- The rows of one uncancelled `sweep_vna_2d` emission pass. -/
def vna2dRowsFastExp (st : Station) (env : Env) (ov : Rat) (i : Nat) :
    List (List Rat) → Nat → Nat → List (List Rat)
  | [], _, _ => []
  | pt :: rest, j, r =>
    vna2dRowOf st env ov i pt j r :: vna2dRowsFastExp st env ov i rest (j + 1) (r + 1)

/-- The rows of an uncancelled `sweep_vna_2d`. -/
def vna2dRowsExp (st : Station) (env : Env) : List Rat → Nat → Nat → List (List Rat)
  | [], _, _ => []
  | ov :: rest, i, r =>
    vna2dRowsFastExp st env ov i (tracesPoints env i) 0 r ++
      vna2dRowsExp st env rest (i + 1) (r + (tracesPoints env i).length)

theorem vna2dEmit_eq_full (st : Station) (env : Env) (ov : Rat) (i : Nat)
    (pts : List (List Rat)) (j r c : Nat)
    (h : ∀ m, m < pts.length → env.flag (c + m) = false) :
    vna2dEmit st env ov i pts j r c =
      (vna2dEmitExp st env ov i pts j r c, r + pts.length, c + pts.length, false) := by
  induction pts generalizing j r c with
  | nil => simp [vna2dEmit, vna2dEmitExp]
  | cons pt rest ih =>
    have h0 : env.flag c = false := by simpa using h 0 (by simp)
    have ih' := ih (j + 1) (r + 1) (c + 1) (fun m hm => by
      have h' := h (m + 1) (by simpa using Nat.succ_lt_succ hm)
      rwa [show c + (m + 1) = c + 1 + m from by omega] at h')
    simp only [vna2dEmit, h0, Bool.false_eq_true, if_false, ih']
    simp [vna2dEmitBlock, vna2dEmitExp, vna2dRowOf, h0]
    omega

theorem vna2dEmit_eq_intr (st : Station) (env : Env) (ov : Rat) (i : Nat)
    (pts : List (List Rat)) (j r c k : Nat) (hk : k < pts.length)
    (hlt : ∀ m, m < k → env.flag (c + m) = false)
    (hT : env.flag (c + k) = true) :
    vna2dEmit st env ov i pts j r c =
      (vna2dEmitExp st env ov i (pts.take (k + 1)) j r c ++
          [Ev.smeta "interrupted" (.b true)],
        r + k + 1, c + k + 1, true) := by
  induction pts generalizing j r c k with
  | nil => simp at hk
  | cons pt rest ih =>
    match k with
    | 0 =>
      have h0 : env.flag c = true := by simpa using hT
      simp [vna2dEmit, vna2dEmitExp, vna2dEmitBlock, vna2dRowOf, h0]
    | k + 1 =>
      have h0 : env.flag c = false := by simpa using hlt 0 (by omega)
      have ih' := ih (j + 1) (r + 1) (c + 1) k (by simpa using hk)
        (fun m hm => by
          have h' := hlt (m + 1) (by omega)
          rwa [show c + (m + 1) = c + 1 + m from by omega] at h')
        (by rwa [show c + (k + 1) = c + 1 + k from by omega] at hT)
      simp only [vna2dEmit, h0, Bool.false_eq_true, if_false, ih']
      simp [vna2dEmitBlock, vna2dEmitExp, vna2dRowOf, h0]
      omega

theorem vna2dSlow_eq_full (st : Station) (env : Env) (sname t0n t1n : String)
    (slow : List Rat) (i r c L : Nat)
    (Hlen : ∀ s, (tracesPoints env s).length = L)
    (h : ∀ m, m < slow.length * (L + 1) → env.flag (c + m) = false) :
    vna2dSlow st env sname t0n t1n slow i r c =
      (vna2dSlowExp st env sname t0n t1n slow i r c,
        r + slow.length * L, c + slow.length * (L + 1), false) := by
  induction slow generalizing i r c with
  | nil => simp [vna2dSlow, vna2dSlowExp]
  | cons ov rest ih =>
    have hS : (ov :: rest).length * (L + 1) = rest.length * (L + 1) + (L + 1) := by
      simp [List.length_cons, Nat.succ_mul]
    have hin := vna2dEmit_eq_full st env ov i (tracesPoints env i) 0 r c (fun m hm =>
      h m (by rw [hS]; rw [Hlen i] at hm; omega))
    have hout : env.flag (c + L) = false := h L (by rw [hS]; omega)
    have hout' : env.flag (c + (tracesPoints env i).length) = false := by
      rwa [Hlen i]
    have ih' := ih (i + 1) (r + L) (c + L + 1) (fun m hm => by
      have h' := h (L + 1 + m) (by rw [hS]; omega)
      rwa [show c + (L + 1 + m) = c + L + 1 + m from by omega] at h')
    simp only [vna2dSlow, hin, Hlen i, hout, Bool.false_eq_true, if_false]
    rw [ih']
    refine prodEq4 ?_ ?_ ?_ rfl
    · simp [vna2dSlowExp, Hlen i, hout]
    · simp only [List.length_cons, Nat.succ_mul]
      ring
    · simp only [List.length_cons, Nat.succ_mul]
      ring

theorem vna2dSlow_eq_intr_inner (st : Station) (env : Env) (sname t0n t1n : String)
    (slow : List Rat) (i r c L q rem : Nat)
    (Hlen : ∀ s, (tracesPoints env s).length = L)
    (hrem : rem < L) (hq : q < slow.length)
    (hlt : ∀ m, m < q * (L + 1) + rem → env.flag (c + m) = false)
    (hT : env.flag (c + (q * (L + 1) + rem)) = true)
    (hM : FlagMono env) :
    vna2dSlow st env sname t0n t1n slow i r c =
      (vna2dSlowExp st env sname t0n t1n (slow.take q) i r c ++
          Ev.setp sname (slow.getD q 0) :: Ev.sleep :: Ev.meas (i + q) ::
            Ev.trcRead t0n :: Ev.trcRead t1n ::
            (vna2dEmitExp st env (slow.getD q 0) (i + q)
                ((tracesPoints env (i + q)).take (rem + 1)) 0
                (r + q * L) (c + q * (L + 1)) ++
              [Ev.smeta "interrupted" (.b true), Ev.check true]),
        r + q * L + rem + 1,
        c + (q * (L + 1) + rem) + 2, true) := by
  induction slow generalizing i r c q with
  | nil => simp at hq
  | cons ov rest ih =>
    match q with
    | 0 =>
      simp only [Nat.zero_mul, Nat.zero_add] at hlt hT
      have hin := vna2dEmit_eq_intr st env ov i (tracesPoints env i) 0 r c rem
        (by rw [Hlen i]; exact hrem) hlt hT
      have hout : env.flag (c + rem + 1) = true :=
        hM (c + rem) (c + rem + 1) (by omega) hT
      simp only [vna2dSlow, hin, hout, eq_self_iff_true, if_true]
      refine prodEq4 (by simp [vna2dSlowExp, hout]) ?_ ?_ rfl
      · simp
      · simp only [Nat.zero_mul, Nat.zero_add]
    | q + 1 =>
      have hk : L + 1 ≤ (q + 1) * (L + 1) + rem := by
        have : 1 * (L + 1) ≤ (q + 1) * (L + 1) := Nat.mul_le_mul_right _ (by omega)
        omega
      have hin := vna2dEmit_eq_full st env ov i (tracesPoints env i) 0 r c
        (fun m hm => hlt m (by rw [Hlen i] at hm; omega))
      have hout : env.flag (c + (tracesPoints env i).length) = false := by
        rw [Hlen i]
        exact hlt L (by omega)
      have harg : ∀ m, m < q * (L + 1) + rem →
          env.flag (c + L + 1 + m) = false := by
        intro m hm
        have hmm : L + 1 + m < (q + 1) * (L + 1) + rem := by
          rw [Nat.succ_mul]
          omega
        have h' := hlt (L + 1 + m) hmm
        rwa [show c + (L + 1 + m) = c + L + 1 + m from by omega] at h'
      have hT' : env.flag (c + L + 1 + (q * (L + 1) + rem)) = true := by
        have heq : c + ((q + 1) * (L + 1) + rem) = c + L + 1 + (q * (L + 1) + rem) := by
          rw [Nat.succ_mul]
          ring
        rwa [heq] at hT
      have ih' := ih (i + 1) (r + L) (c + L + 1) q (by simpa using hq) harg hT'
      have e1 : r + L + q * L = r + (q + 1) * L := by
        rw [Nat.succ_mul]
        ring
      have e2 : c + L + 1 + q * (L + 1) = c + (q + 1) * (L + 1) := by
        rw [Nat.succ_mul]
        ring
      have e4 : c + L + 1 + (q * (L + 1) + rem) + 2 =
          c + ((q + 1) * (L + 1) + rem) + 2 := by
        rw [Nat.succ_mul]
        ring
      rw [e1, e2, e4] at ih'
      simp only [vna2dSlow, hin, hout, Bool.false_eq_true, if_false]
      rw [show r + (tracesPoints env i).length = r + L from by rw [Hlen i],
        show c + (tracesPoints env i).length + 1 = c + L + 1 from by rw [Hlen i], ih']
      have houtL : env.flag (c + L) = false := by rwa [Hlen i] at hout
      refine prodEq4 ?_ rfl rfl rfl
      simp [vna2dSlowExp, List.take_succ_cons, List.getD_cons_succ, houtL, Hlen i,
        show i + (q + 1) = i + 1 + q from by omega]

theorem vna2dSlow_eq_intr_outer (st : Station) (env : Env) (sname t0n t1n : String)
    (slow : List Rat) (i r c L q : Nat)
    (Hlen : ∀ s, (tracesPoints env s).length = L) (hq : q < slow.length)
    (hlt : ∀ m, m < q * (L + 1) + L → env.flag (c + m) = false)
    (hT : env.flag (c + (q * (L + 1) + L)) = true) :
    vna2dSlow st env sname t0n t1n slow i r c =
      (vna2dSlowExp st env sname t0n t1n (slow.take q) i r c ++
          Ev.setp sname (slow.getD q 0) :: Ev.sleep :: Ev.meas (i + q) ::
            Ev.trcRead t0n :: Ev.trcRead t1n ::
            (vna2dEmitExp st env (slow.getD q 0) (i + q) (tracesPoints env (i + q)) 0
                (r + q * L) (c + q * (L + 1)) ++
              [Ev.check true]),
        r + (q + 1) * L,
        c + (q * (L + 1) + L) + 1, true) := by
  induction slow generalizing i r c q with
  | nil => simp at hq
  | cons ov rest ih =>
    match q with
    | 0 =>
      simp only [Nat.zero_mul, Nat.zero_add] at hlt hT
      have hin := vna2dEmit_eq_full st env ov i (tracesPoints env i) 0 r c
        (fun m hm => hlt m (by rw [Hlen i] at hm; omega))
      have hout : env.flag (c + (tracesPoints env i).length) = true := by
        rw [Hlen i]
        exact hT
      simp only [vna2dSlow, hin, hout, eq_self_iff_true, if_true]
      refine prodEq4 (by simp [vna2dSlowExp, hout, Hlen i]) ?_ ?_ rfl
      · simp [Hlen i, Nat.one_mul]
      · simp [Hlen i]
    | q + 1 =>
      have hk : L + 1 ≤ (q + 1) * (L + 1) + L := by
        have : 1 * (L + 1) ≤ (q + 1) * (L + 1) := Nat.mul_le_mul_right _ (by omega)
        omega
      have hin := vna2dEmit_eq_full st env ov i (tracesPoints env i) 0 r c
        (fun m hm => hlt m (by rw [Hlen i] at hm; omega))
      have hout : env.flag (c + (tracesPoints env i).length) = false := by
        rw [Hlen i]
        exact hlt L (by omega)
      have harg : ∀ m, m < q * (L + 1) + L → env.flag (c + L + 1 + m) = false := by
        intro m hm
        have hmm : L + 1 + m < (q + 1) * (L + 1) + L := by
          rw [Nat.succ_mul]
          omega
        have h' := hlt (L + 1 + m) hmm
        rwa [show c + (L + 1 + m) = c + L + 1 + m from by omega] at h'
      have hT' : env.flag (c + L + 1 + (q * (L + 1) + L)) = true := by
        have heq : c + ((q + 1) * (L + 1) + L) = c + L + 1 + (q * (L + 1) + L) := by
          rw [Nat.succ_mul]
          ring
        rwa [heq] at hT
      have ih' := ih (i + 1) (r + L) (c + L + 1) q (by simpa using hq) harg hT'
      have e2 : c + L + 1 + q * (L + 1) = c + (q + 1) * (L + 1) := by
        rw [Nat.succ_mul]
        ring
      have e3 : r + L + (q + 1) * L = r + (q + 1 + 1) * L := by
        rw [Nat.succ_mul (q + 1)]
        ring
      have e4 : c + L + 1 + (q * (L + 1) + L) + 1 = c + ((q + 1) * (L + 1) + L) + 1 := by
        rw [Nat.succ_mul]
        ring
      have e1 : r + L + q * L = r + (q + 1) * L := by
        rw [Nat.succ_mul]
        ring
      rw [e1, e2, e3, e4] at ih'
      simp only [vna2dSlow, hin, hout, Bool.false_eq_true, if_false]
      rw [show r + (tracesPoints env i).length = r + L from by rw [Hlen i],
        show c + (tracesPoints env i).length + 1 = c + L + 1 from by rw [Hlen i], ih']
      have houtL : env.flag (c + L) = false := by rwa [Hlen i] at hout
      refine prodEq4 ?_ rfl rfl rfl
      simp [vna2dSlowExp, List.take_succ_cons, List.getD_cons_succ, houtL, Hlen i,
        show i + (q + 1) = i + 1 + q from by omega]

theorem wrows_vna2dEmitExp (st : Station) (env : Env) (ov : Rat) (i : Nat)
    (pts : List (List Rat)) (j r c : Nat) :
    wrows (vna2dEmitExp st env ov i pts j r c) = vna2dRowsFastExp st env ov i pts j r := by
  induction pts generalizing j r c with
  | nil => rfl
  | cons pt rest ih =>
    simp [vna2dEmitExp, vna2dEmitBlock, vna2dRowsFastExp, ih]

theorem prows_vna2dEmitExp (st : Station) (env : Env) (ov : Rat) (i : Nat)
    (pts : List (List Rat)) (j r c : Nat) :
    prows (vna2dEmitExp st env ov i pts j r c) = vna2dRowsFastExp st env ov i pts j r := by
  induction pts generalizing j r c with
  | nil => rfl
  | cons pt rest ih =>
    simp [vna2dEmitExp, vna2dEmitBlock, vna2dRowsFastExp, ih]

theorem smetas_vna2dEmitExp (st : Station) (env : Env) (ov : Rat) (i : Nat)
    (pts : List (List Rat)) (j r c : Nat) (k : String) :
    smetas k (vna2dEmitExp st env ov i pts j r c) = [] := by
  induction pts generalizing j r c with
  | nil => rfl
  | cons pt rest ih => simp [vna2dEmitExp, vna2dEmitBlock, ih]

theorem measIdxs_vna2dEmitExp (st : Station) (env : Env) (ov : Rat) (i : Nat)
    (pts : List (List Rat)) (j r c : Nat) :
    measIdxs (vna2dEmitExp st env ov i pts j r c) = [] := by
  induction pts generalizing j r c with
  | nil => rfl
  | cons pt rest ih => simp [vna2dEmitExp, vna2dEmitBlock, ih]

theorem wrows_vna2dSlowExp (st : Station) (env : Env) (sname t0n t1n : String)
    (slow : List Rat) (i r c : Nat) :
    wrows (vna2dSlowExp st env sname t0n t1n slow i r c) =
      vna2dRowsExp st env slow i r := by
  induction slow generalizing i r c with
  | nil => rfl
  | cons ov rest ih =>
    simp [vna2dSlowExp, vna2dRowsExp, wrows_vna2dEmitExp, ih]

theorem prows_vna2dSlowExp (st : Station) (env : Env) (sname t0n t1n : String)
    (slow : List Rat) (i r c : Nat) :
    prows (vna2dSlowExp st env sname t0n t1n slow i r c) =
      vna2dRowsExp st env slow i r := by
  induction slow generalizing i r c with
  | nil => rfl
  | cons ov rest ih =>
    simp [vna2dSlowExp, vna2dRowsExp, prows_vna2dEmitExp, ih]

theorem smetas_vna2dSlowExp (st : Station) (env : Env) (sname t0n t1n : String)
    (slow : List Rat) (i r c : Nat) (k : String) :
    smetas k (vna2dSlowExp st env sname t0n t1n slow i r c) = [] := by
  induction slow generalizing i r c with
  | nil => rfl
  | cons ov rest ih => simp [vna2dSlowExp, smetas_vna2dEmitExp, ih]

/-- The uncancelled `sweep_vna_2d` slow loop performs exactly one parameter
measurement per slow setpoint, in slow order. -/
theorem measIdxs_vna2dSlowExp (st : Station) (env : Env) (sname t0n t1n : String)
    (slow : List Rat) (i r c : Nat) :
    measIdxs (vna2dSlowExp st env sname t0n t1n slow i r c) =
      List.range' i slow.length := by
  induction slow generalizing i r c with
  | nil => rfl
  | cons ov rest ih =>
    simp [vna2dSlowExp, measIdxs_vna2dEmitExp, ih, List.range'_succ]

theorem vna2dRowsFastExp_length (st : Station) (env : Env) (ov : Rat) (i : Nat)
    (pts : List (List Rat)) (j r : Nat) :
    (vna2dRowsFastExp st env ov i pts j r).length = pts.length := by
  induction pts generalizing j r with
  | nil => rfl
  | cons pt rest ih => simp [vna2dRowsFastExp, ih]

theorem vna2dRowsExp_length (st : Station) (env : Env) (slow : List Rat)
    (i r L : Nat) (Hlen : ∀ s, (tracesPoints env s).length = L) :
    (vna2dRowsExp st env slow i r).length = slow.length * L := by
  induction slow generalizing i r with
  | nil => simp [vna2dRowsExp]
  | cons ov rest ih =>
    simp only [vna2dRowsExp, List.length_append, vna2dRowsFastExp_length, ih,
      List.length_cons, Nat.succ_mul, Hlen i]
    ring

theorem vna2dRowsFastExp_getD (st : Station) (env : Env) (ov : Rat) (i : Nat)
    (pts : List (List Rat)) (j r j0 : Nat) (hj : j0 < pts.length) :
    (vna2dRowsFastExp st env ov i pts j r).getD j0 [] =
      vna2dRowOf st env ov i (pts.getD j0 []) (j + j0) (r + j0) := by
  induction pts generalizing j r j0 with
  | nil => simp at hj
  | cons pt rest ih =>
    match j0 with
    | 0 => simp [vna2dRowsFastExp]
    | j0 + 1 =>
      have h' := ih (j + 1) (r + 1) j0 (by simpa using hj)
      rw [show j + 1 + j0 = j + (j0 + 1) from by omega,
        show r + 1 + j0 = r + (j0 + 1) from by omega] at h'
      simpa [vna2dRowsFastExp] using h'

theorem vna2dRowsExp_getD (st : Station) (env : Env) (slow : List Rat)
    (i r L i0 j0 : Nat) (Hlen : ∀ s, (tracesPoints env s).length = L)
    (hi : i0 < slow.length) (hj : j0 < L) :
    (vna2dRowsExp st env slow i r).getD (i0 * L + j0) [] =
      vna2dRowOf st env (slow.getD i0 0) (i + i0)
        ((tracesPoints env (i + i0)).getD j0 []) j0 (r + (i0 * L + j0)) := by
  induction slow generalizing i r i0 with
  | nil => simp at hi
  | cons ov rest ih =>
    match i0 with
    | 0 =>
      have hlen : j0 < (vna2dRowsFastExp st env ov i (tracesPoints env i) 0 r).length := by
        rw [vna2dRowsFastExp_length, Hlen i]
        omega
      simp only [vna2dRowsExp, Nat.zero_mul, Nat.zero_add]
      rw [List.getD_append _ _ _ _ hlen,
        vna2dRowsFastExp_getD st env ov i (tracesPoints env i) 0 r j0
          (by rw [Hlen i]; omega)]
      simp
    | i0 + 1 =>
      have hskip : (vna2dRowsFastExp st env ov i (tracesPoints env i) 0 r).length ≤
          (i0 + 1) * L + j0 := by
        rw [vna2dRowsFastExp_length, Hlen i, Nat.succ_mul]
        omega
      simp only [vna2dRowsExp]
      rw [List.getD_append_right _ _ _ _ hskip]
      have h' := ih (i + 1) (r + (tracesPoints env i).length) i0 (by simpa using hi)
      rw [show i + 1 + i0 = i + (i0 + 1) from by omega] at h'
      have harith : (i0 + 1) * L + j0 -
          (vna2dRowsFastExp st env ov i (tracesPoints env i) 0 r).length =
          i0 * L + j0 := by
        rw [vna2dRowsFastExp_length, Hlen i, Nat.succ_mul]
        omega
      rw [harith, h']
      have : r + (tracesPoints env i).length + (i0 * L + j0) =
          r + ((i0 + 1) * L + j0) := by
        rw [Hlen i, Nat.succ_mul]
        ring
      rw [this]
      simp

/-- Every row the `sweep_vna_2d` emission loop hands to the writer has
width `3 + N + 6`, whatever the flag oracle does. -/
theorem vna2dEmit_row_len (st : Station) (env : Env) (ov : Rat) (i : Nat)
    (pts : List (List Rat)) (j r c : Nat) (hpt : ∀ pt ∈ pts, pt.length = 6) :
    ∀ x ∈ wrows (vna2dEmit st env ov i pts j r c).1,
      x.length = 3 + st.params.length + 6 := by
  induction pts generalizing j r c with
  | nil => simp [vna2dEmit]
  | cons pt rest ih =>
    intro x hx
    simp only [vna2dEmit] at hx
    by_cases hf : env.flag c
    · simp [hf] at hx
      subst hx
      simp [measureAt_length, hpt pt (by simp)]
      omega
    · simp [hf] at hx
      rcases hx with rfl | hx
      · simp [measureAt_length, hpt pt (by simp)]
        omega
      · exact ih (j + 1) (r + 1) (c + 1) (fun p hp => hpt p (by simp [hp])) x hx

theorem vna2dSlow_row_len (st : Station) (env : Env) (sname t0n t1n : String)
    (slow : List Rat) (i r c : Nat) :
    ∀ x ∈ wrows (vna2dSlow st env sname t0n t1n slow i r c).1,
      x.length = 3 + st.params.length + 6 := by
  induction slow generalizing i r c with
  | nil => simp [vna2dSlow]
  | cons ov rest ih =>
    intro x hx
    simp only [vna2dSlow] at hx
    by_cases hf : env.flag (vna2dEmit st env ov i (tracesPoints env i) 0 r c).2.2.1
    · simp [hf] at hx
      exact vna2dEmit_row_len st env ov i (tracesPoints env i) 0 r c
        (tracesPoints_mem_length env i) x hx
    · simp [hf] at hx
      rcases hx with hx | hx
      · exact vna2dEmit_row_len st env ov i (tracesPoints env i) 0 r c
          (tracesPoints_mem_length env i) x hx
      · exact ih _ _ _ x hx

theorem balanced_vna2dEmit (st : Station) (env : Env) (ov : Rat) (i : Nat)
    (pts : List (List Rat)) (j r c : Nat) :
    balanced (vna2dEmit st env ov i pts j r c).1 := by
  induction pts generalizing j r c with
  | nil => exact balanced_nil
  | cons pt rest ih =>
    have hblk : balanced (vna2dEmitBlock st env ov i pt j r c) := by
      refine balanced_block (x := []) (y := [Ev.check (env.flag c)])
        ⟨rfl, rfl⟩ ⟨rfl, rfl⟩ ?_
      by_cases hj : j = 0 <;> simp [hj]
    by_cases hf : env.flag c
    · have : (vna2dEmit st env ov i (pt :: rest) j r c).1 =
        vna2dEmitBlock st env ov i pt j r c ++ [Ev.smeta "interrupted" (.b true)] := by
        simp [vna2dEmit, vna2dEmitBlock, vna2dRowOf, hf]
      rw [this]
      exact balanced_append hblk (balanced_of_rowless ⟨rfl, rfl⟩)
    · have : (vna2dEmit st env ov i (pt :: rest) j r c).1 =
        vna2dEmitBlock st env ov i pt j r c ++
          (vna2dEmit st env ov i rest (j + 1) (r + 1) (c + 1)).1 := by
        simp [vna2dEmit, vna2dEmitBlock, vna2dRowOf, hf]
      rw [this]
      exact balanced_append hblk (ih (j + 1) (r + 1) (c + 1))

theorem balanced_vna2dSlow (st : Station) (env : Env) (sname t0n t1n : String)
    (slow : List Rat) (i r c : Nat) :
    balanced (vna2dSlow st env sname t0n t1n slow i r c).1 := by
  induction slow generalizing i r c with
  | nil => exact balanced_nil
  | cons ov rest ih =>
    have hpre : balanced [Ev.setp sname ov, Ev.sleep, Ev.meas i, Ev.trcRead t0n,
        Ev.trcRead t1n] :=
      balanced_of_rowless ⟨rfl, rfl⟩
    have hinner := balanced_vna2dEmit st env ov i (tracesPoints env i) 0 r c
    have hchk : balanced [Ev.check
        (env.flag (vna2dEmit st env ov i (tracesPoints env i) 0 r c).2.2.1)] :=
      balanced_of_rowless ⟨rfl, rfl⟩
    by_cases hf : env.flag (vna2dEmit st env ov i (tracesPoints env i) 0 r c).2.2.1
    · have : (vna2dSlow st env sname t0n t1n (ov :: rest) i r c).1 =
        [Ev.setp sname ov, Ev.sleep, Ev.meas i, Ev.trcRead t0n, Ev.trcRead t1n] ++
          (vna2dEmit st env ov i (tracesPoints env i) 0 r c).1 ++
          [Ev.check (env.flag (vna2dEmit st env ov i (tracesPoints env i) 0 r c).2.2.1)] := by
        simp [vna2dSlow, hf]
      rw [this]
      exact balanced_append (balanced_append hpre hinner) hchk
    · have : (vna2dSlow st env sname t0n t1n (ov :: rest) i r c).1 =
        [Ev.setp sname ov, Ev.sleep, Ev.meas i, Ev.trcRead t0n, Ev.trcRead t1n] ++
          (vna2dEmit st env ov i (tracesPoints env i) 0 r c).1 ++
          [Ev.check (env.flag (vna2dEmit st env ov i (tracesPoints env i) 0 r c).2.2.1)] ++
          (vna2dSlow st env sname t0n t1n rest (i + 1)
            (vna2dEmit st env ov i (tracesPoints env i) 0 r c).2.1
            ((vna2dEmit st env ov i (tracesPoints env i) 0 r c).2.2.1 + 1)).1 := by
        simp [vna2dSlow, hf]
      rw [this]
      exact balanced_append (balanced_append (balanced_append hpre hinner) hchk) (ih _ _ _)

/-! ### The assembly and finalisation phases -/

theorem smetas_provEvs_columns (env : Env) (l : List String) :
    smetas "columns" (provEvs env l) = [] :=
  smetas_provEvs env l "columns" (by decide)

theorem smetas_provEvs_interrupted (env : Env) (l : List String) :
    smetas "interrupted" (provEvs env l) = [] :=
  smetas_provEvs env l "interrupted" (by decide)

theorem smetas_provEvs_end_time (env : Env) (l : List String) :
    smetas "end_time" (provEvs env l) = [] :=
  smetas_provEvs env l "end_time" (by decide)

theorem rowless_watchPre (st : Station) (env : Env) (delay : Rat)
    (maxDur : Option Rat) : rowless (watchPre st env delay maxDur) := by
  constructor <;> rfl

theorem rowless_watchPost (env : Env) (n : Nat) : rowless (watchPost env n) := by
  by_cases h : env.image <;> constructor <;> simp [watchPost, h]

theorem smetas_watchPre_columns (st : Station) (env : Env) (delay : Rat)
    (maxDur : Option Rat) :
    smetas "columns" (watchPre st env delay maxDur) =
      [.ls ("time" :: col_names st)] := by
  simp [watchPre]

theorem smetas_watchPre_interrupted (st : Station) (env : Env) (delay : Rat)
    (maxDur : Option Rat) :
    smetas "interrupted" (watchPre st env delay maxDur) = [.b false] := by
  simp [watchPre]

theorem smetas_watchPre_end_time (st : Station) (env : Env) (delay : Rat)
    (maxDur : Option Rat) :
    smetas "end_time" (watchPre st env delay maxDur) = [] := by
  simp [watchPre]

theorem smetas_watchPost_columns (env : Env) (n : Nat) :
    smetas "columns" (watchPost env n) = [] := by
  by_cases h : env.image <;> simp [watchPost, h]

theorem smetas_watchPost_interrupted (env : Env) (n : Nat) :
    smetas "interrupted" (watchPost env n) = [] := by
  by_cases h : env.image <;> simp [watchPost, h]

theorem smetas_watchPost_end_time (env : Env) (n : Nat) :
    smetas "end_time" (watchPost env n) = [.q (env.wall (1 + n))] := by
  by_cases h : env.image <;> simp [watchPost, h]

theorem rowless_sweepPre (st : Station) (env : Env) (p : Param) (sps : List Rat)
    (delay : Rat) : rowless (sweepPre st env p sps delay) := by
  by_cases h : st.notes = "" <;>
    exact ⟨by simp [sweepPre, h, wrows_provEvs], by simp [sweepPre, h, prows_provEvs]⟩

theorem rowless_sweepPost (env : Env) (n : Nat) : rowless (sweepPost env n) := by
  by_cases h : env.image <;> constructor <;> simp [sweepPost, h]

theorem smetas_sweepPre_columns (st : Station) (env : Env) (p : Param)
    (sps : List Rat) (delay : Rat) :
    smetas "columns" (sweepPre st env p sps delay) =
      [.ls ("time" :: p.full_name :: col_names st)] := by
  by_cases h : st.notes = "" <;>
    simp [sweepPre, h, smetas_provEvs_columns]

theorem smetas_sweepPre_interrupted (st : Station) (env : Env) (p : Param)
    (sps : List Rat) (delay : Rat) :
    smetas "interrupted" (sweepPre st env p sps delay) = [.b false] := by
  by_cases h : st.notes = "" <;>
    simp [sweepPre, h, smetas_provEvs_interrupted]

theorem smetas_sweepPre_end_time (st : Station) (env : Env) (p : Param)
    (sps : List Rat) (delay : Rat) :
    smetas "end_time" (sweepPre st env p sps delay) = [] := by
  by_cases h : st.notes = "" <;>
    simp [sweepPre, h, smetas_provEvs_end_time]

theorem smetas_sweepPost_columns (env : Env) (n : Nat) :
    smetas "columns" (sweepPost env n) = [] := by
  by_cases h : env.image <;> simp [sweepPost, h]

theorem smetas_sweepPost_interrupted (env : Env) (n : Nat) :
    smetas "interrupted" (sweepPost env n) = [] := by
  by_cases h : env.image <;> simp [sweepPost, h]

theorem smetas_sweepPost_end_time (env : Env) (n : Nat) :
    smetas "end_time" (sweepPost env n) = [.q (env.wall (2 + n))] := by
  by_cases h : env.image <;> simp [sweepPost, h]

theorem rowless_megaPre (st : Station) (env : Env) (sp fp : Param)
    (slow fast : List Rat) (sdelay fdelay : Rat) :
    rowless (megaPre st env sp fp slow fast sdelay fdelay) := by
  by_cases h : st.notes = "" <;>
    exact ⟨by simp [megaPre, h, wrows_provEvs], by simp [megaPre, h, prows_provEvs]⟩

theorem smetas_megaPre_columns (st : Station) (env : Env) (sp fp : Param)
    (slow fast : List Rat) (sdelay fdelay : Rat) :
    smetas "columns" (megaPre st env sp fp slow fast sdelay fdelay) =
      [.ls ("time" :: sp.full_name :: fp.full_name :: col_names st)] := by
  by_cases h : st.notes = "" <;>
    simp [megaPre, h, smetas_provEvs_columns]

theorem smetas_megaPre_interrupted (st : Station) (env : Env) (sp fp : Param)
    (slow fast : List Rat) (sdelay fdelay : Rat) :
    smetas "interrupted" (megaPre st env sp fp slow fast sdelay fdelay) =
      [.b false] := by
  by_cases h : st.notes = "" <;>
    simp [megaPre, h, smetas_provEvs_interrupted]

theorem smetas_megaPre_end_time (st : Station) (env : Env) (sp fp : Param)
    (slow fast : List Rat) (sdelay fdelay : Rat) :
    smetas "end_time" (megaPre st env sp fp slow fast sdelay fdelay) = [] := by
  by_cases h : st.notes = "" <;>
    simp [megaPre, h, smetas_provEvs_end_time]

theorem rowless_vna1dPre (st : Station) (env : Env) (t0 t1 : TraceH) (delay : Rat) :
    rowless (vna1dPre st env t0 t1 delay) := by
  by_cases h : st.notes = "" <;>
    exact ⟨by simp [vna1dPre, h, wrows_provEvs], by simp [vna1dPre, h, prows_provEvs]⟩

theorem smetas_vna1dPre_columns (st : Station) (env : Env) (t0 t1 : TraceH)
    (delay : Rat) :
    smetas "columns" (vna1dPre st env t0 t1 delay) =
      [.ls ("time" :: "znle_frequency" :: col_names st)] := by
  by_cases h : st.notes = "" <;>
    simp [vna1dPre, h, smetas_provEvs_columns]

theorem smetas_vna1dPre_interrupted (st : Station) (env : Env) (t0 t1 : TraceH)
    (delay : Rat) :
    smetas "interrupted" (vna1dPre st env t0 t1 delay) = [.b false] := by
  by_cases h : st.notes = "" <;>
    simp [vna1dPre, h, smetas_provEvs_interrupted]

theorem smetas_vna1dPre_end_time (st : Station) (env : Env) (t0 t1 : TraceH)
    (delay : Rat) :
    smetas "end_time" (vna1dPre st env t0 t1 delay) = [] := by
  by_cases h : st.notes = "" <;>
    simp [vna1dPre, h, smetas_provEvs_end_time]

theorem rowless_vna2dPre (st : Station) (env : Env) (t0 t1 : TraceH) (sp : Param)
    (slow : List Rat) (sdelay : Rat) :
    rowless (vna2dPre st env t0 t1 sp slow sdelay) := by
  by_cases h : st.notes = "" <;>
    exact ⟨by simp [vna2dPre, h, wrows_provEvs], by simp [vna2dPre, h, prows_provEvs]⟩

theorem smetas_vna2dPre_columns (st : Station) (env : Env) (t0 t1 : TraceH)
    (sp : Param) (slow : List Rat) (sdelay : Rat) :
    smetas "columns" (vna2dPre st env t0 t1 sp slow sdelay) =
      [.ls ("time" :: sp.full_name :: "znle_frequency" :: col_names st)] := by
  by_cases h : st.notes = "" <;>
    simp [vna2dPre, h, smetas_provEvs_columns]

theorem smetas_vna2dPre_interrupted (st : Station) (env : Env) (t0 t1 : TraceH)
    (sp : Param) (slow : List Rat) (sdelay : Rat) :
    smetas "interrupted" (vna2dPre st env t0 t1 sp slow sdelay) = [.b false] := by
  by_cases h : st.notes = "" <;>
    simp [vna2dPre, h, smetas_provEvs_interrupted]

theorem smetas_vna2dPre_end_time (st : Station) (env : Env) (t0 t1 : TraceH)
    (sp : Param) (slow : List Rat) (sdelay : Rat) :
    smetas "end_time" (vna2dPre st env t0 t1 sp slow sdelay) = [] := by
  by_cases h : st.notes = "" <;>
    simp [vna2dPre, h, smetas_provEvs_end_time]

theorem measIdxs_vna2dPre (st : Station) (env : Env) (t0 t1 : TraceH)
    (sp : Param) (slow : List Rat) (sdelay : Rat) :
    measIdxs (vna2dPre st env t0 t1 sp slow sdelay) = [] := by
  have : ∀ l, measIdxs (provEvs env l) = [] := by
    intro l
    induction l with
    | nil => rfl
    | cons nm rest ih =>
      simp only [provEvs, List.foldr_cons]
      rw [show (List.foldr _ [] rest : List Ev) = provEvs env rest from rfl]
      simp only [measIdxs, List.filterMap_append] at ih ⊢
      split <;> split <;> simp [ih]

  by_cases h : st.notes = "" <;> simp [vna2dPre, h, this]

theorem measIdxs_sweepPost (env : Env) (n : Nat) :
    measIdxs (sweepPost env n) = [] := by
  by_cases h : env.image <;> simp [sweepPost, h]

/-- The only metadata key any of the loops can touch is `interrupted`
(recorded when the flag is seen set). -/
theorem smetas_sweepLoop_ne (st : Station) (env : Env) (pname : String)
    (sps : List Rat) (i : Nat) (k : String) (hk : k ≠ "interrupted") :
    smetas k (sweepLoop st env pname sps i) = [] := by
  induction sps generalizing i with
  | nil => rfl
  | cons sp rest ih =>
    by_cases hf : env.flag i <;> simp [sweepLoop, hf, ih, Ne.symm hk]

theorem smetas_watchLoop_ne (st : Station) (env : Env) (maxDur : Option Rat)
    (tstart : Rat) (fuel i : Nat) (k : String) (hk : k ≠ "interrupted") :
    smetas k (watchLoop st env maxDur tstart fuel i).1 = [] := by
  induction fuel generalizing i with
  | zero => rfl
  | succ fuel ih =>
    rw [watchLoop_succ]
    by_cases hok : durOK env maxDur tstart i
    · by_cases hf : env.flag i <;>
        simp [hok, hf, watchBlock, ih, Ne.symm hk]
    · simp [hok]

theorem smetas_megaFast_ne (st : Station) (env : Env) (fname : String) (ov : Rat)
    (fast : List Rat) (j r c : Nat) (k : String) (hk : k ≠ "interrupted") :
    smetas k (megaFast st env fname ov fast j r c).1 = [] := by
  induction fast generalizing j r c with
  | nil => rfl
  | cons iv rest ih =>
    by_cases hf : env.flag c <;> simp [megaFast, hf, ih, Ne.symm hk]

theorem smetas_megaSlow_ne (st : Station) (env : Env) (sname fname : String)
    (fast slow : List Rat) (r c : Nat) (k : String) (hk : k ≠ "interrupted") :
    smetas k (megaSlow st env sname fname fast slow r c).1 = [] := by
  induction slow generalizing r c with
  | nil => rfl
  | cons ov rest ih =>
    by_cases hf : env.flag (megaFast st env fname ov fast 0 r c).2.2.1 <;>
      simp [megaSlow, hf, ih, smetas_megaFast_ne st env fname ov fast 0 r c k hk]

theorem smetas_vnaEmit_ne (st : Station) (env : Env) (pts : List (List Rat))
    (j : Nat) (k : String) (hk : k ≠ "interrupted") :
    smetas k (vnaEmit st env pts j) = [] := by
  induction pts generalizing j with
  | nil => rfl
  | cons pt rest ih =>
    by_cases hf : env.flag j <;> simp [vnaEmit, hf, ih, Ne.symm hk]

theorem smetas_vna2dEmit_ne (st : Station) (env : Env) (ov : Rat) (i : Nat)
    (pts : List (List Rat)) (j r c : Nat) (k : String) (hk : k ≠ "interrupted") :
    smetas k (vna2dEmit st env ov i pts j r c).1 = [] := by
  induction pts generalizing j r c with
  | nil => rfl
  | cons pt rest ih =>
    by_cases hf : env.flag c <;> simp [vna2dEmit, hf, ih, Ne.symm hk]

theorem smetas_vna2dSlow_ne (st : Station) (env : Env) (sname t0n t1n : String)
    (slow : List Rat) (i r c : Nat) (k : String) (hk : k ≠ "interrupted") :
    smetas k (vna2dSlow st env sname t0n t1n slow i r c).1 = [] := by
  induction slow generalizing i r c with
  | nil => rfl
  | cons ov rest ih =>
    by_cases hf : env.flag (vna2dEmit st env ov i (tracesPoints env i) 0 r c).2.2.1 <;>
      simp [vna2dSlow, hf, ih,
        smetas_vna2dEmit_ne st env ov i (tracesPoints env i) 0 r c k hk]

theorem prows_take_eq_nil {t : List Ev} (h : prows t = []) (n : Nat) :
    prows (t.take n) = [] := by
  have h2 : List.Sublist (prows (t.take n)) (prows t) :=
    (List.take_sublist n t).filterMap _
  rw [h] at h2
  exact List.sublist_nil.mp h2

theorem col_names_of_traces_nil (st : Station) (h : st.traces = []) :
    col_names st = st.params.map (fun pg => pg.1.full_name) := by
  simp [col_names, h]

theorem col_names_length_of_traces_nil (st : Station) (h : st.traces = []) :
    (col_names st).length = st.params.length := by
  simp [col_names_of_traces_nil st h]

theorem col_names_of_two_traces (st : Station) (t0 t1 : TraceH × Rat)
    (h : st.traces = [t0, t1]) :
    col_names st = st.params.map (fun pg => pg.1.full_name) ++ st.trace_cols := by
  simp [col_names, h]

/-- Unfolds `sweep_vna_1d` when exactly two traces are registered. -/
theorem vna1dRun_eq (st : Station) (env : Env) (delay : Rat) (t0 t1 : TraceH × Rat)
    (htr : st.traces = [t0, t1]) :
    vna1dRun st env delay =
      some (vna1dPre st env t0.1 t1.1 delay ++
        [Ev.trcRead t0.1.trace_name, Ev.sleep, Ev.trcRead t1.1.trace_name, Ev.sleep] ++
        vnaEmit st env (tracesPoints env 0) 0 ++
        sweepPost env (wrows (vnaEmit st env (tracesPoints env 0) 0)).length) := by
  simp only [vna1dRun, htr]

/-- Unfolds `sweep_vna_2d` when exactly two traces are registered. -/
theorem vna2dRun_eq (st : Station) (env : Env) (sp : Param) (slow : List Rat)
    (sdelay : Rat) (t0 t1 : TraceH × Rat) (htr : st.traces = [t0, t1]) :
    vna2dRun st env sp slow sdelay =
      some (vna2dPre st env t0.1 t1.1 sp slow sdelay ++
        (vna2dSlow st env sp.full_name t0.1.trace_name t1.1.trace_name slow 0 0 0).1 ++
        sweepPost env
          (wrows (vna2dSlow st env sp.full_name t0.1.trace_name t1.1.trace_name
            slow 0 0 0).1).length) := by
  simp only [vna2dRun, htr]

theorem watchRun_fst (st : Station) (env : Env) (delay : Rat) (maxDur : Option Rat)
    (fuel : Nat) :
    (watchRun st env delay maxDur fuel).1 =
      watchPre st env delay maxDur ++ (watchLoop st env maxDur (env.mono 0) fuel 0).1 ++
        watchPost env (watchLoop st env maxDur (env.mono 0) fuel 0).2.2 := rfl

theorem sweepRun_eq (st : Station) (env : Env) (p : Param) (sps : List Rat)
    (delay : Rat) :
    sweepRun st env p sps delay =
      sweepPre st env p sps delay ++ sweepLoop st env p.full_name sps 0 ++
        sweepPost env (wrows (sweepLoop st env p.full_name sps 0)).length := rfl

theorem megaRun_eq (st : Station) (env : Env) (sp fp : Param) (slow fast : List Rat)
    (sdelay fdelay : Rat) :
    megaRun st env sp fp slow fast sdelay fdelay =
      megaPre st env sp fp slow fast sdelay fdelay ++
        (megaSlow st env sp.full_name fp.full_name fast slow 0 0).1 ++
        sweepPost env
          (wrows (megaSlow st env sp.full_name fp.full_name fast slow 0 0).1).length := rfl

/-! ### Concrete fixtures for witnesses and counterexamples -/

/-- A deterministic oracle environment: integer clocks, raw reading of
parameter `i` is `i + 1`, no interrupt, two-point frequency grid. -/
def envBase : Env where
  wall := fun k => (k : Rat)
  mono := fun k => (k : Rat)
  raw := fun _ i => ((i : Rat) + 1)
  flag := fun _ => false
  log10 := fun _ => 0
  htime := fun _ => "t"
  hostname := "host"
  calling_file := "file"
  image := false
  trcI := fun _ _ => [1, 2]
  trcQ := fun _ _ => [3, 4]
  freqs := [10, 20]
  zmCal := fun _ => []
  zmVar := fun _ => []
  srFreq := fun _ => 0
  srAmp := fun _ => 0

def pA : Param := ⟨"p1", "I1"⟩

def pB : Param := ⟨"p2", "I1"⟩

def pC : Param := ⟨"p3", "I1"⟩

/-- The test scenario's station: read-only parameters `p2` and `p3`, gain 1. -/
def stP : Station := ⟨[(pB, 1), (pC, 1)], [], [], ""⟩

/-- A station with a single registered trace and no parameters. -/
def stT1 : Station := follow_trace ⟨[], [], [], ""⟩ ⟨"Ch1", "Trc1", "S21"⟩ 1

/-- A station with exactly two registered traces and no parameters. -/
def stT2 : Station :=
  follow_trace (follow_trace ⟨[], [], [], ""⟩ ⟨"Ch1", "Trc1", "S21"⟩ 1)
    ⟨"Ch1", "Trc2", "S11"⟩ 1

/-! ### C4 — handler restoration in `_interruptible` -/

/-- C4 counterexample: `_interruptible` does not restore the previous
handler when the wrapped function raises.  With previous handler 0 and
temporary handler 1, a raising body exits with handler 1 still installed,
refuting restoration "on every exit path". -/
theorem c4_counterexample :
    interruptibleCall 0 1 (.error "boom") = (.error "boom", 1) ∧ (1 : Nat) ≠ 0 := by
  exact ⟨rfl, by decide⟩

/-- C4 amended: the wrapper installs its handler and restores the saved one
on normal completion — which includes interrupted runs, since cooperative
interruption returns normally — but when the wrapped function raises, the
restoring `signal.signal` call is skipped and the temporary handler remains
installed. -/
theorem c4_amended (h0 hNew : Nat) :
    (∀ a : Unit, interruptibleCall h0 hNew (.ok a) = (.ok a, h0)) ∧
    (∀ e : String, interruptibleCall h0 hNew (.error e) = (.error e, hNew)) :=
  ⟨fun _ => rfl, fun _ => rfl⟩

/-! ### C9 — duplicate registration is not detected -/

/-- C9 counterexample: registering the very same handle twice is accepted
silently — `follow_param` appends again, the schema lists `p1` twice, and a
subsequent run proceeds to device I/O (the `meas` event) with no error
anywhere (the embedded registration and run functions are total because the
source has no failure path). -/
theorem c9_counterexample :
    (follow_param (follow_param ⟨[], [], [], ""⟩ pA 1) pA 1).params =
      [(pA, 1), (pA, 1)] ∧
    metaAt (measureRun (follow_param (follow_param ⟨[], [], [], ""⟩ pA 1) pA 1)
        envBase) "columns" = some (.ls ["time", "p1", "p1"]) ∧
    Ev.meas 0 ∈ measureRun (follow_param (follow_param ⟨[], [], [], ""⟩ pA 1) pA 1)
      envBase := by
  refine ⟨rfl, ?_, by decide⟩
  decide

/-- C9 amended: registration performs no validation at all — `follow_param`
unconditionally appends, so a handle already registered is simply appended
again (its count increases), and nothing at registration or entry time
reports an error. -/
theorem c9_amended (st : Station) (p : Param) (g : Rat) :
    (follow_param st p g).params = st.params ++ [(p, g)] ∧
    ((p, g) ∈ st.params →
      ((follow_param st p g).params.count (p, g)) = st.params.count (p, g) + 1) := by
  refine ⟨rfl, fun _ => ?_⟩
  simp [follow_param]

/-- C9 witness: the duplicate-registration branch of the amended claim at a
concrete station that already holds `p1`. -/
theorem c9_witness :
    ((pA, (1 : Rat)) ∈ ([( pA, (1 : Rat))] : List (Param × Rat))) ∧
    ((follow_param ⟨[(pA, 1)], [], [], ""⟩ pA 1).params.count (pA, 1)) =
      ([(pA, (1 : Rat))] : List (Param × Rat)).count (pA, 1) + 1 := by
  refine ⟨by decide, ?_⟩
  exact (c9_amended ⟨[(pA, 1)], [], [], ""⟩ pA 1).2 (by decide)

/-! ### C8 — single-sample runs -/

theorem measureAt_getD (st : Station) (env : Env) (k i : Nat)
    (hi : i < st.params.length) :
    (measureAt st env k).getD i 0 =
      env.raw k i / (st.params.getD i (⟨"", ""⟩, 1)).2 := by
  have h1 : i < (measureAt st env k).length := by rw [measureAt_length]; exact hi
  rw [List.getD_eq_getElem _ _ h1, List.getD_eq_getElem _ _ hi]
  simp [measureAt]

/-- C8: for a station with `N` registered parameter handles (and nothing
else), a single-sample run records the schema `['time'] + names` of length
`1 + N`, persists exactly one row `[t] + measurements` whose entries are the
raw readings divided by the registered gains; concretely, with `p2 = 1.0`
and `p3 = 2.0` at gain 1, the schema is `["time","p2","p3"]` and the single
row has `row[1] = 1`. -/
theorem c8_measure :
    (∀ (ps : List (Param × Rat)) (env : Env),
      metaAt (measureRun ⟨ps, [], [], ""⟩ env) "columns" =
        some (.ls ("time" :: ps.map (fun pg => pg.1.full_name))) ∧
      ("time" :: ps.map (fun pg => pg.1.full_name)).length = 1 + ps.length ∧
      wrows (measureRun ⟨ps, [], [], ""⟩ env) =
        [env.wall 0 :: measureAt ⟨ps, [], [], ""⟩ env 0] ∧
      (∀ i, i < ps.length →
        (measureAt ⟨ps, [], [], ""⟩ env 0).getD i 0 =
          env.raw 0 i / (ps.getD i (⟨"", ""⟩, 1)).2)) ∧
    metaAt (measureRun stP envBase) "columns" = some (.ls ["time", "p2", "p3"]) ∧
    (wrows (measureRun stP envBase)).length = 1 ∧
    ((wrows (measureRun stP envBase)).getD 0 []).getD 1 0 = 1 := by
  refine ⟨fun ps env => ⟨?_, by simp [Nat.add_comm], rfl,
      fun i hi => measureAt_getD _ env 0 i hi⟩,
    by decide, by decide, ?_⟩
  · simp [measureRun, metaAt, col_names]
  · show (envBase.wall 0 :: measureAt stP envBase 0).getD 1 0 = 1
    simp [measureAt, stP, envBase, pB, pC]

/-- C8 witness: the general statement applied to the concrete two-parameter
station, measured value of the first parameter. -/
theorem c8_witness :
    ((0 : Nat) < stP.params.length) ∧
    (measureAt stP envBase 0).getD 0 0 =
      envBase.raw 0 0 / (stP.params.getD 0 (⟨"", ""⟩, 1)).2 :=
  ⟨by decide, (c8_measure.1 stP.params envBase).2.2.2 0 (by decide)⟩

/-! ### C1 — schema/row width agreement -/

/-- The schema discipline of one run: the `columns` metadata value is
recorded before any row reaches the writer, it is never overwritten later,
and every persisted row has exactly the schema's width. -/
def schemaOK (t : List Ev) (cols : List String) : Prop :=
  (∃ t1 t2, t = t1 ++ t2 ∧ Ev.smeta "columns" (.ls cols) ∈ t1 ∧ wrows t1 = []) ∧
  metaAt t "columns" = some (.ls cols) ∧
  ∀ r ∈ wrows t, r.length = cols.length

theorem schemaOK_measureRun (st : Station) (env : Env) (h : st.traces = []) :
    schemaOK (measureRun st env) ("time" :: col_names st) := by
  refine ⟨⟨[Ev.smeta "type" (.s "0D"),
    Ev.smeta "columns" (.ls ("time" :: col_names st))],
    [Ev.smeta "time" (.q (env.wall 0)), Ev.meas 0,
     Ev.wrow (env.wall 0 :: measureAt st env 0)], rfl, by simp, rfl⟩, ?_, ?_⟩
  · simp [measureRun, metaAt]
  · intro r hr
    simp [measureRun] at hr
    subst hr
    simp [measureAt_length, col_names_length_of_traces_nil st h]

theorem schemaOK_watchRun (st : Station) (env : Env) (delay : Rat)
    (maxDur : Option Rat) (fuel : Nat) (h : st.traces = []) :
    schemaOK (watchRun st env delay maxDur fuel).1 ("time" :: col_names st) := by
  rw [watchRun_fst]
  refine ⟨⟨watchPre st env delay maxDur,
    (watchLoop st env maxDur (env.mono 0) fuel 0).1 ++
      watchPost env (watchLoop st env maxDur (env.mono 0) fuel 0).2.2,
    by rw [List.append_assoc], by simp [watchPre],
    (rowless_watchPre st env delay maxDur).1⟩, ?_, ?_⟩
  · simp [metaAt, smetas_watchPre_columns, smetas_watchPost_columns,
      smetas_watchLoop_ne st env maxDur (env.mono 0) fuel 0 "columns" (by decide)]
  · intro r hr
    simp only [wrows_append, (rowless_watchPre st env delay maxDur).1,
      (rowless_watchPost env _).1, List.append_nil, List.nil_append] at hr
    rw [watchLoop_row_len st env maxDur (env.mono 0) fuel 0 r hr]
    simp [col_names_length_of_traces_nil st h]
    omega

theorem schemaOK_sweepRun (st : Station) (env : Env) (p : Param) (sps : List Rat)
    (delay : Rat) (h : st.traces = []) :
    schemaOK (sweepRun st env p sps delay)
      ("time" :: p.full_name :: col_names st) := by
  rw [sweepRun_eq]
  refine ⟨⟨sweepPre st env p sps delay,
    sweepLoop st env p.full_name sps 0 ++
      sweepPost env (wrows (sweepLoop st env p.full_name sps 0)).length,
    by rw [List.append_assoc], ?_,
    (rowless_sweepPre st env p sps delay).1⟩, ?_, ?_⟩
  · by_cases hn : st.notes = "" <;> simp [sweepPre, hn]
  · simp [metaAt, smetas_sweepPre_columns, smetas_sweepPost_columns,
      smetas_sweepLoop_ne st env p.full_name sps 0 "columns" (by decide)]
  · intro r hr
    simp only [wrows_append, (rowless_sweepPre st env p sps delay).1,
      (rowless_sweepPost env _).1, List.append_nil, List.nil_append] at hr
    rw [sweepLoop_row_len st env p.full_name sps 0 r hr]
    simp [col_names_length_of_traces_nil st h]
    omega

theorem schemaOK_megaRun (st : Station) (env : Env) (sp fp : Param)
    (slow fast : List Rat) (sdelay fdelay : Rat) (h : st.traces = []) :
    schemaOK (megaRun st env sp fp slow fast sdelay fdelay)
      ("time" :: sp.full_name :: fp.full_name :: col_names st) := by
  rw [megaRun_eq]
  refine ⟨⟨megaPre st env sp fp slow fast sdelay fdelay,
    (megaSlow st env sp.full_name fp.full_name fast slow 0 0).1 ++
      sweepPost env
        (wrows (megaSlow st env sp.full_name fp.full_name fast slow 0 0).1).length,
    by rw [List.append_assoc], ?_,
    (rowless_megaPre st env sp fp slow fast sdelay fdelay).1⟩, ?_, ?_⟩
  · by_cases hn : st.notes = "" <;> simp [megaPre, hn]
  · simp [metaAt, smetas_megaPre_columns, smetas_sweepPost_columns,
      smetas_megaSlow_ne st env sp.full_name fp.full_name fast slow 0 0 "columns"
        (by decide)]
  · intro r hr
    simp only [wrows_append, (rowless_megaPre st env sp fp slow fast sdelay fdelay).1,
      (rowless_sweepPost env _).1, List.append_nil, List.nil_append] at hr
    rw [megaSlow_row_len st env sp.full_name fp.full_name fast slow 0 0 r hr]
    simp [col_names_length_of_traces_nil st h]
    omega

theorem schemaOK_vna1dRun (st : Station) (env : Env) (delay : Rat)
    (t0 t1 : TraceH × Rat) (htr : st.traces = [t0, t1])
    (hc : st.trace_cols.length = 6) (T : List Ev)
    (hT : vna1dRun st env delay = some T) :
    schemaOK T ("time" :: "znle_frequency" :: col_names st) := by
  rw [vna1dRun_eq st env delay t0 t1 htr] at hT
  rcases Option.some.inj hT with rfl
  refine ⟨⟨vna1dPre st env t0.1 t1.1 delay,
    [Ev.trcRead t0.1.trace_name, Ev.sleep, Ev.trcRead t1.1.trace_name, Ev.sleep] ++
      (vnaEmit st env (tracesPoints env 0) 0 ++
        sweepPost env (wrows (vnaEmit st env (tracesPoints env 0) 0)).length),
    by simp [List.append_assoc], ?_,
    (rowless_vna1dPre st env t0.1 t1.1 delay).1⟩, ?_, ?_⟩
  · by_cases hn : st.notes = "" <;> simp [vna1dPre, hn]
  · simp [metaAt, smetas_vna1dPre_columns, smetas_sweepPost_columns,
      smetas_vnaEmit_ne st env (tracesPoints env 0) 0 "columns" (by decide)]
  · intro r hr
    simp only [wrows_append, (rowless_vna1dPre st env t0.1 t1.1 delay).1,
      (rowless_sweepPost env _).1, List.append_nil, List.nil_append] at hr
    simp only [show wrows [Ev.trcRead t0.1.trace_name, Ev.sleep,
      Ev.trcRead t1.1.trace_name, Ev.sleep] = [] from rfl, List.nil_append] at hr
    rw [vnaEmit_row_len st env (tracesPoints env 0) 0
      (tracesPoints_mem_length env 0) r hr]
    simp [col_names_of_two_traces st t0 t1 htr, hc]
    omega

theorem schemaOK_vna2dRun (st : Station) (env : Env) (sp : Param)
    (slow : List Rat) (sdelay : Rat) (t0 t1 : TraceH × Rat)
    (htr : st.traces = [t0, t1]) (hc : st.trace_cols.length = 6) (T : List Ev)
    (hT : vna2dRun st env sp slow sdelay = some T) :
    schemaOK T ("time" :: sp.full_name :: "znle_frequency" :: col_names st) := by
  rw [vna2dRun_eq st env sp slow sdelay t0 t1 htr] at hT
  rcases Option.some.inj hT with rfl
  refine ⟨⟨vna2dPre st env t0.1 t1.1 sp slow sdelay,
    (vna2dSlow st env sp.full_name t0.1.trace_name t1.1.trace_name slow 0 0 0).1 ++
      sweepPost env
        (wrows (vna2dSlow st env sp.full_name t0.1.trace_name t1.1.trace_name
          slow 0 0 0).1).length,
    by rw [List.append_assoc], ?_,
    (rowless_vna2dPre st env t0.1 t1.1 sp slow sdelay).1⟩, ?_, ?_⟩
  · by_cases hn : st.notes = "" <;> simp [vna2dPre, hn]
  · simp [metaAt, smetas_vna2dPre_columns, smetas_sweepPost_columns,
      smetas_vna2dSlow_ne st env sp.full_name t0.1.trace_name t1.1.trace_name
        slow 0 0 0 "columns" (by decide)]
  · intro r hr
    simp only [wrows_append, (rowless_vna2dPre st env t0.1 t1.1 sp slow sdelay).1,
      (rowless_sweepPost env _).1, List.append_nil, List.nil_append] at hr
    rw [vna2dSlow_row_len st env sp.full_name t0.1.trace_name t1.1.trace_name
      slow 0 0 0 r hr]
    simp [col_names_of_two_traces st t0 t1 htr, hc]
    omega

/-- Number of columns in the schema a run recorded in its metadata. -/
def colsLen (t : List Ev) : Nat :=
  match metaAt t "columns" with
  | some (.ls l) => l.length
  | _ => 0

/-- C1 counterexample: with a `TraceHandle` registered, `sweep` records a
five-column schema (`_col_names` appends the three trace columns) yet
persists two-element rows (the loop never reads the trace), so row length
differs from the recorded schema length. -/
theorem c1_counterexample :
    colsLen (sweepRun stT1 envBase pA [5] 0) = 5 ∧
    wrows (sweepRun stT1 envBase pA [5] 0) = [[2, 5]] ∧
    (([2, 5] : List Rat).length ≠ 5) := by
  exact ⟨by decide, by decide, by decide⟩

/-- C1 amended: the schema is recorded in metadata before the first row and
never overwritten, and every persisted row has the schema's width — for
every combination of registered ParameterHandles provided no TraceHandles
are registered in `measure`/`watch`/`sweep`/`megasweep` (a registered trace
adds three schema columns those entry points never fill), and in the VNA
entry points for the required two registered traces (with their six derived
columns). -/
theorem c1_amended :
    (∀ st env, st.traces = [] →
      schemaOK (measureRun st env) ("time" :: col_names st)) ∧
    (∀ st env delay maxDur fuel, st.traces = [] →
      schemaOK (watchRun st env delay maxDur fuel).1 ("time" :: col_names st)) ∧
    (∀ st env p sps delay, st.traces = [] →
      schemaOK (sweepRun st env p sps delay)
        ("time" :: p.full_name :: col_names st)) ∧
    (∀ st env sp fp slow fast sdelay fdelay, st.traces = [] →
      schemaOK (megaRun st env sp fp slow fast sdelay fdelay)
        ("time" :: sp.full_name :: fp.full_name :: col_names st)) ∧
    (∀ st env delay t0 t1 T, st.traces = [t0, t1] → st.trace_cols.length = 6 →
      vna1dRun st env delay = some T →
      schemaOK T ("time" :: "znle_frequency" :: col_names st)) ∧
    (∀ st env sp slow sdelay t0 t1 T, st.traces = [t0, t1] →
      st.trace_cols.length = 6 → vna2dRun st env sp slow sdelay = some T →
      schemaOK T ("time" :: sp.full_name :: "znle_frequency" :: col_names st)) :=
  ⟨schemaOK_measureRun, schemaOK_watchRun, schemaOK_sweepRun, schemaOK_megaRun,
   fun st env delay t0 t1 T htr hc hT =>
     schemaOK_vna1dRun st env delay t0 t1 htr hc T hT,
   fun st env sp slow sdelay t0 t1 T htr hc hT =>
     schemaOK_vna2dRun st env sp slow sdelay t0 t1 htr hc T hT⟩

/-- The trace of the concrete two-trace 1-D VNA run used as a witness. -/
def vna1dWit : List Ev := (vna1dRun stT2 envBase 0).getD []

/-- C1 witness: the amended claim at the concrete two-parameter station
(no traces) and at the concrete two-trace station. -/
theorem c1_witness :
    stP.traces = [] ∧
    schemaOK (measureRun stP envBase) ("time" :: col_names stP) ∧
    schemaOK vna1dWit ("time" :: "znle_frequency" :: col_names stT2) :=
  ⟨rfl, c1_amended.1 stP envBase rfl,
   c1_amended.2.2.2.2.1 stT2 envBase 0 _ _ vna1dWit rfl (by decide) rfl⟩

/-! ### C2 — 1-D sweep row contract -/

/-- An environment whose interrupt flag is already set at the first check:
the signal arrived during the first iteration. -/
def envFlagTrue : Env := { envBase with flag := fun _ => true }

theorem getD_take {α : Type} (l : List α) (d : α) (n m : Nat) (h : m < n) :
    (l.take n).getD m d = l.getD m d := by
  by_cases hm : m < l.length
  · have h1 : m < (l.take n).length := by
      rw [List.length_take]
      omega
    rw [List.getD_eq_getElem _ _ h1, List.getD_eq_getElem _ _ hm]
    exact List.getElem_take l
  · have h1 : ¬m < (l.take n).length := by
      rw [List.length_take]
      omega
    rw [List.getD_eq_default _ _ (by omega), List.getD_eq_default _ _ (by omega)]

/-- C2 counterexample: a one-point sweep whose interrupt signal arrives
during the (only) iteration persists all `M = 1` rows — not fewer — while
still recording `interrupted = true`: the check runs after the row is
persisted, so cancellation during the final iteration contradicts "fewer
rows are persisted". -/
theorem c2_counterexample :
    (wrows (sweepRun ⟨[], [], [], ""⟩ envFlagTrue pA [42] 0)).length = 1 ∧
    metaAt (sweepRun ⟨[], [], [], ""⟩ envFlagTrue pA [42] 0) "interrupted" =
      some (.b true) ∧
    ¬((wrows (sweepRun ⟨[], [], [], ""⟩ envFlagTrue pA [42] 0)).length < 1) := by
  exact ⟨by decide, by decide, by decide⟩

/-- C2 amended: an uninterrupted M-point 1-D sweep with N parameters (no
traces) persists exactly M rows of width `2 + N` whose position-1 entries
are the setpoints in order; if the flag is first seen set at the check
after row `k + 1`, exactly `k + 1 ≤ M` rows are persisted (fewer than M
whenever the signal is seen before the final iteration's check; a signal
seen at the final check leaves all M rows) and `interrupted = true` is
recorded. -/
theorem c2_amended (st : Station) (env : Env) (p : Param) (sps : List Rat)
    (delay : Rat) (h : st.traces = []) :
    ((∀ j, j < sps.length → env.flag j = false) →
      (wrows (sweepRun st env p sps delay)).length = sps.length ∧
      (∀ k, k < sps.length →
        ((wrows (sweepRun st env p sps delay)).getD k []).length =
          2 + st.params.length ∧
        ((wrows (sweepRun st env p sps delay)).getD k []).getD 1 0 =
          sps.getD k 0) ∧
      metaAt (sweepRun st env p sps delay) "interrupted" = some (.b false)) ∧
    (∀ k, k < sps.length → (∀ j, j < k → env.flag j = false) →
      env.flag k = true →
      (wrows (sweepRun st env p sps delay)).length = k + 1 ∧ k + 1 ≤ sps.length ∧
      (∀ m, m < k + 1 →
        ((wrows (sweepRun st env p sps delay)).getD m []).length =
          2 + st.params.length ∧
        ((wrows (sweepRun st env p sps delay)).getD m []).getD 1 0 =
          sps.getD m 0) ∧
      metaAt (sweepRun st env p sps delay) "interrupted" = some (.b true)) := by
  constructor
  · intro hflag
    have hloop := sweepLoop_eq_full st env p.full_name sps 0
      (fun j hj => by simpa using hflag j hj)
    have hw : wrows (sweepRun st env p sps delay) = sweepRowsExp st env sps 0 := by
      rw [sweepRun_eq, hloop]
      simp [(rowless_sweepPre st env p sps delay).1, (rowless_sweepPost env _).1,
        wrows_sweepFullExp]
    refine ⟨by rw [hw, sweepRowsExp_length], fun k hk => ?_, ?_⟩
    · rw [hw, sweepRowsExp_getD st env sps 0 k hk]
      exact ⟨sweepRow_length st env (sps.getD k 0) (0 + k),
        sweepRow_getD_one st env (sps.getD k 0) (0 + k)⟩
    · have hsm : smetas "interrupted" (sweepRun st env p sps delay) = [.b false] := by
        rw [sweepRun_eq, hloop]
        simp [smetas_sweepPre_interrupted, smetas_sweepPost_interrupted,
          smetas_sweepFullExp]
      rw [metaAt, hsm]
      rfl
  · intro k hk hlt hT
    have hloop := sweepLoop_eq_intr st env p.full_name sps 0 k hk
      (fun j hj => by simpa using hlt j hj) (by simpa using hT)
    have hw : wrows (sweepRun st env p sps delay) =
        sweepRowsExp st env (sps.take (k + 1)) 0 := by
      rw [sweepRun_eq, hloop]
      simp [(rowless_sweepPre st env p sps delay).1, (rowless_sweepPost env _).1,
        wrows_sweepFullExp]
    refine ⟨?_, by omega, fun m hm => ?_, ?_⟩
    · rw [hw, sweepRowsExp_length, List.length_take]
      omega
    · have hm' : m < (sps.take (k + 1)).length := by
        rw [List.length_take]
        omega
      rw [hw, sweepRowsExp_getD st env _ 0 m hm', getD_take sps 0 (k + 1) m hm]
      exact ⟨sweepRow_length st env (sps.getD m 0) (0 + m),
        sweepRow_getD_one st env (sps.getD m 0) (0 + m)⟩
    · have hsm : smetas "interrupted" (sweepRun st env p sps delay) =
          [.b false, .b true] := by
        rw [sweepRun_eq, hloop]
        simp [smetas_sweepPre_interrupted, smetas_sweepPost_interrupted,
          smetas_sweepFullExp]
      rw [metaAt, hsm]
      rfl

/-- An environment whose interrupt flag turns on at the second flag read
and stays on (the signal arrives during the second iteration). -/
def envCancel2 : Env := { envBase with flag := fun c => decide (1 ≤ c) }

/-- C2 witness: the amended claim at a concrete three-point sweep, both
uninterrupted and cancelled after the second row. -/
theorem c2_witness :
    ((∀ j, j < ([7, 8, 9] : List Rat).length → envBase.flag j = false) ∧
      (wrows (sweepRun stP envBase pA [7, 8, 9] 0)).length = 3) ∧
    ((∀ j, j < 1 → envCancel2.flag j = false) ∧ envCancel2.flag 1 = true ∧
      (wrows (sweepRun stP envCancel2 pA [7, 8, 9] 0)).length = 2 ∧
      metaAt (sweepRun stP envCancel2 pA [7, 8, 9] 0) "interrupted" =
        some (.b true)) :=
  ⟨⟨by decide, ((c2_amended stP envBase pA [7, 8, 9] 0 rfl).1 (by decide)).1⟩,
   ⟨by decide, by decide,
    ((c2_amended stP envCancel2 pA [7, 8, 9] 0 rfl).2 1 (by decide) (by decide)
      (by decide)).1,
    (((c2_amended stP envCancel2 pA [7, 8, 9] 0 rfl).2 1 (by decide) (by decide)
      (by decide)).2.2).2⟩⟩

/-! ### C6 — rows reach the writer before the plotter, in the same order -/

theorem vna1dRun_some {st : Station} {env : Env} {delay : Rat} {T : List Ev}
    (hT : vna1dRun st env delay = some T) :
    ∃ t0 t1, st.traces = [t0, t1] ∧
      T = vna1dPre st env t0.1 t1.1 delay ++
        [Ev.trcRead t0.1.trace_name, Ev.sleep, Ev.trcRead t1.1.trace_name, Ev.sleep] ++
        vnaEmit st env (tracesPoints env 0) 0 ++
        sweepPost env (wrows (vnaEmit st env (tracesPoints env 0) 0)).length := by
  rcases htr : st.traces with _ | ⟨t0, _ | ⟨t1, _ | ⟨t2, rest⟩⟩⟩
  · simp [vna1dRun, htr] at hT
  · simp [vna1dRun, htr] at hT
  · rw [vna1dRun_eq st env delay t0 t1 htr] at hT
    exact ⟨t0, t1, rfl, (Option.some.inj hT).symm⟩
  · simp [vna1dRun, htr] at hT

theorem vna2dRun_some {st : Station} {env : Env} {sp : Param} {slow : List Rat}
    {sdelay : Rat} {T : List Ev} (hT : vna2dRun st env sp slow sdelay = some T) :
    ∃ t0 t1, st.traces = [t0, t1] ∧
      T = vna2dPre st env t0.1 t1.1 sp slow sdelay ++
        (vna2dSlow st env sp.full_name t0.1.trace_name t1.1.trace_name slow 0 0 0).1 ++
        sweepPost env
          (wrows (vna2dSlow st env sp.full_name t0.1.trace_name t1.1.trace_name
            slow 0 0 0).1).length := by
  rcases htr : st.traces with _ | ⟨t0, _ | ⟨t1, _ | ⟨t2, rest⟩⟩⟩
  · simp [vna2dRun, htr] at hT
  · simp [vna2dRun, htr] at hT
  · rw [vna2dRun_eq st env sp slow sdelay t0 t1 htr] at hT
    exact ⟨t0, t1, rfl, (Option.some.inj hT).symm⟩
  · simp [vna2dRun, htr] at hT

/-- C6: in every entry point, each produced row is handed to the
persistence writer strictly before the plotter (in every trace prefix the
plotter's rows form a prefix of the writer's), and both collaborators
receive exactly the same row sequence — except `measure`, which sends its
single row to the writer only, so the plotter trivially never gets a row
early. -/
theorem c6_ordering :
    (∀ st env, plotAfterWrite (measureRun st env) ∧
      prows (measureRun st env) = []) ∧
    (∀ st env delay maxDur fuel,
      plotAfterWrite (watchRun st env delay maxDur fuel).1 ∧
      prows (watchRun st env delay maxDur fuel).1 =
        wrows (watchRun st env delay maxDur fuel).1) ∧
    (∀ st env p sps delay,
      plotAfterWrite (sweepRun st env p sps delay) ∧
      prows (sweepRun st env p sps delay) = wrows (sweepRun st env p sps delay)) ∧
    (∀ st env sp fp slow fast sdelay fdelay,
      plotAfterWrite (megaRun st env sp fp slow fast sdelay fdelay) ∧
      prows (megaRun st env sp fp slow fast sdelay fdelay) =
        wrows (megaRun st env sp fp slow fast sdelay fdelay)) ∧
    (∀ st env delay T, vna1dRun st env delay = some T →
      plotAfterWrite T ∧ prows T = wrows T) ∧
    (∀ st env sp slow sdelay T, vna2dRun st env sp slow sdelay = some T →
      plotAfterWrite T ∧ prows T = wrows T) := by
  refine ⟨fun st env => ⟨fun n => ?_, rfl⟩,
    fun st env delay maxDur fuel => ?_,
    fun st env p sps delay => ?_,
    fun st env sp fp slow fast sdelay fdelay => ?_,
    fun st env delay T hT => ?_,
    fun st env sp slow sdelay T hT => ?_⟩
  · rw [prows_take_eq_nil (t := measureRun st env) rfl n]
    exact List.nil_prefix
  · rw [watchRun_fst]
    exact balanced_append
      (balanced_append (balanced_of_rowless (rowless_watchPre st env delay maxDur))
        (balanced_watchLoop st env maxDur (env.mono 0) fuel 0))
      (balanced_of_rowless (rowless_watchPost env _))
  · rw [sweepRun_eq]
    exact balanced_append
      (balanced_append (balanced_of_rowless (rowless_sweepPre st env p sps delay))
        (balanced_sweepLoop st env p.full_name sps 0))
      (balanced_of_rowless (rowless_sweepPost env _))
  · rw [megaRun_eq]
    exact balanced_append
      (balanced_append
        (balanced_of_rowless (rowless_megaPre st env sp fp slow fast sdelay fdelay))
        (balanced_megaSlow st env sp.full_name fp.full_name fast slow 0 0))
      (balanced_of_rowless (rowless_sweepPost env _))
  · rcases vna1dRun_some hT with ⟨t0, t1, htr, rfl⟩
    exact balanced_append
      (balanced_append
        (balanced_append (balanced_of_rowless (rowless_vna1dPre st env t0.1 t1.1 delay))
          (balanced_of_rowless ⟨rfl, rfl⟩))
        (balanced_vnaEmit st env (tracesPoints env 0) 0))
      (balanced_of_rowless (rowless_sweepPost env _))
  · rcases vna2dRun_some hT with ⟨t0, t1, htr, rfl⟩
    exact balanced_append
      (balanced_append
        (balanced_of_rowless (rowless_vna2dPre st env t0.1 t1.1 sp slow sdelay))
        (balanced_vna2dSlow st env sp.full_name t0.1.trace_name t1.1.trace_name
          slow 0 0 0))
      (balanced_of_rowless (rowless_sweepPost env _))

/-- C6 witness: the ordering property at a concrete `sweep` run and a
concrete two-trace 1-D VNA run. -/
theorem c6_witness :
    plotAfterWrite (measureRun stP envBase) ∧
    prows (sweepRun stP envBase pA [5, 6] 0) =
      wrows (sweepRun stP envBase pA [5, 6] 0) ∧
    plotAfterWrite vna1dWit :=
  ⟨(c6_ordering.1 stP envBase).1,
   (c6_ordering.2.2.1 stP envBase pA [5, 6] 0).2,
   (c6_ordering.2.2.2.2.1 stT2 envBase 0 vna1dWit rfl).1⟩

/-! ### C5 — 2-D sweep row count and new-line signals -/

theorem plotEvs_provEvs (env : Env) (l : List String) :
    plotEvs (provEvs env l) = [] := by
  induction l with
  | nil => rfl
  | cons nm rest ih =>
    simp only [provEvs, List.foldr_cons]
    rw [show (List.foldr _ [] rest : List Ev) = provEvs env rest from rfl]
    simp only [plotEvs, List.filterMap_append] at ih ⊢
    split <;> split <;> simp [ih]

theorem newLines_provEvs (env : Env) (l : List String) :
    newLines (provEvs env l) = 0 := by
  induction l with
  | nil => rfl
  | cons nm rest ih =>
    simp only [provEvs, List.foldr_cons]
    rw [show (List.foldr _ [] rest : List Ev) = provEvs env rest from rfl]
    simp only [newLines, List.filterMap_append] at ih ⊢
    split <;> split <;> simp [ih]

theorem plotEvs_megaPre (st : Station) (env : Env) (sp fp : Param)
    (slow fast : List Rat) (sdelay fdelay : Rat) :
    plotEvs (megaPre st env sp fp slow fast sdelay fdelay) = [] := by
  by_cases h : st.notes = "" <;> simp [megaPre, h, plotEvs_provEvs]

theorem newLines_megaPre (st : Station) (env : Env) (sp fp : Param)
    (slow fast : List Rat) (sdelay fdelay : Rat) :
    newLines (megaPre st env sp fp slow fast sdelay fdelay) = 0 := by
  by_cases h : st.notes = "" <;> simp [megaPre, h, newLines_provEvs]

theorem plotEvs_sweepPost (env : Env) (n : Nat) :
    plotEvs (sweepPost env n) = [] := by
  by_cases h : env.image <;> simp [sweepPost, h]

theorem newLines_sweepPost (env : Env) (n : Nat) :
    newLines (sweepPost env n) = 0 := by
  by_cases h : env.image <;> simp [sweepPost, h]

theorem newLines_megaSlowExp_nilfast (st : Station) (env : Env)
    (sname fname : String) (slow : List Rat) (r c : Nat) :
    newLines (megaSlowExp st env sname fname [] slow r c) = 0 := by
  induction slow generalizing r c with
  | nil => rfl
  | cons ov rest ih => simp [megaSlowExp, megaFastExp, ih]

/-- C5 counterexample: a `megasweep` over one slow setpoint and an empty
fast axis runs zero fast iterations, so the plotter receives zero new-line
signals — not `S = 1` of them. -/
theorem c5_counterexample :
    (wrows (megaRun ⟨[], [], [], ""⟩ envBase pA pB [5] [] 0 0)).length = 0 ∧
    newLines (megaRun ⟨[], [], [], ""⟩ envBase pA pB [5] [] 0 0) = 0 ∧
    ((0 : Nat) ≠ 1) := by
  exact ⟨by decide, by decide, by decide⟩

/-- C5 amended: an uninterrupted 2-D sweep over slow length S and fast
length F persists exactly `S * F` rows; when `F ≥ 1` the plotter receives
exactly S new-line signals — one at each fast index zero, every other row
appended to the current line (the `megaPlotsExp` closed form) — and when
`F = 0` it receives none. -/
theorem c5_amended (st : Station) (env : Env) (sp fp : Param)
    (slow fast : List Rat) (sdelay fdelay : Rat)
    (hflag : ∀ m, m < slow.length * (fast.length + 1) → env.flag m = false) :
    wrows (megaRun st env sp fp slow fast sdelay fdelay) =
      megaRowsExp st env fast slow 0 ∧
    (wrows (megaRun st env sp fp slow fast sdelay fdelay)).length =
      slow.length * fast.length ∧
    plotEvs (megaRun st env sp fp slow fast sdelay fdelay) =
      megaPlotsExp st env fast slow 0 ∧
    (fast ≠ [] →
      newLines (megaRun st env sp fp slow fast sdelay fdelay) = slow.length) ∧
    (fast = [] →
      newLines (megaRun st env sp fp slow fast sdelay fdelay) = 0) := by
  have hloop := megaSlow_eq_full st env sp.full_name fp.full_name fast slow 0 0
    (fun m hm => by simpa using hflag m hm)
  have hw : wrows (megaRun st env sp fp slow fast sdelay fdelay) =
      megaRowsExp st env fast slow 0 := by
    rw [megaRun_eq, hloop]
    simp [(rowless_megaPre st env sp fp slow fast sdelay fdelay).1,
      (rowless_sweepPost env _).1, wrows_megaSlowExp]
  refine ⟨hw, by rw [hw, megaRowsExp_length], ?_, fun hne => ?_, fun hnil => ?_⟩
  · rw [megaRun_eq, hloop]
    simp [plotEvs_megaPre, plotEvs_sweepPost, plotEvs_megaSlowExp]
  · rcases fast with _ | ⟨iv, fast'⟩
    · exact absurd rfl hne
    · rw [megaRun_eq, hloop]
      simp [newLines_megaPre, newLines_sweepPost, newLines_megaSlowExp]
  · subst hnil
    rw [megaRun_eq, hloop]
    simp [newLines_megaPre, newLines_sweepPost, newLines_megaSlowExp_nilfast]

/-- C5 witness: the amended claim at a concrete uninterrupted 2-by-2
`megasweep`. -/
theorem c5_witness :
    (∀ m, m < 6 → envBase.flag m = false) ∧
    (wrows (megaRun stP envBase pA pB [1, 2] [3, 4] 0 0)).length = 2 * 2 ∧
    newLines (megaRun stP envBase pA pB [1, 2] [3, 4] 0 0) = 2 :=
  ⟨fun m _ => rfl,
   (c5_amended stP envBase pA pB [1, 2] [3, 4] 0 0 (fun m _ => rfl)).2.1,
   (c5_amended stP envBase pA pB [1, 2] [3, 4] 0 0 (fun m _ => rfl)).2.2.2.1
     (by decide)⟩

/-! ### C7 — the `watch` duration bound -/

/-- C7: the maximum-duration bound of `watch` is enforced against the
monotonic clock captured once at loop entry (`mono 0`, the `tstart` stored
in `watchPre`/`watchRun`): (a) with a bound `d`, the loop exits through the
duration branch at the first re-read of the monotonic clock whose elapsed
value reaches `d`, having persisted exactly the rows of the completed
iterations — the exhibited trace shows each iteration as
`[chkDur, sleep, meas, wrow, prow, check]`, so the duration re-check
immediately follows each interrupt-flag check with no device traffic in
between; (b) the exit mode and the number of rows are unchanged under any
replacement of the wall clock; (c) with `max_duration = None` the loop can
never exit through the duration branch and runs until the interrupt flag is
seen. -/
theorem c7_watch (st : Station) (env : Env) (delay : Rat) (d : Rat)
    (fuel k : Nat) :
    ((∀ j, env.flag j = false) →
      (∀ j, j < k → env.mono (j + 1) - env.mono 0 < d) →
      d ≤ env.mono (k + 1) - env.mono 0 → k < fuel →
      (watchRun st env delay (some d) fuel).2 = .dur ∧
      (watchRun st env delay (some d) fuel).1 =
        watchPre st env delay (some d) ++
          (watchFullExp st env k 0 ++ [Ev.chkDur false]) ++ watchPost env k ∧
      (wrows (watchRun st env delay (some d) fuel).1).length = k) ∧
    (∀ w', (watchRun st { env with wall := w' } delay (some d) fuel).2 =
        (watchRun st env delay (some d) fuel).2 ∧
      (wrows (watchRun st { env with wall := w' } delay (some d) fuel).1).length =
        (wrows (watchRun st env delay (some d) fuel).1).length) ∧
    ((watchRun st env delay none fuel).2 ≠ .dur) ∧
    (∀ j, j < fuel → (∀ m, m < j → env.flag m = false) → env.flag j = true →
      (watchRun st env delay none fuel).2 = .intr ∧
      (wrows (watchRun st env delay none fuel).1).length = j + 1) := by
  refine ⟨fun hflag hlt hge hfuel => ?_, fun w' => ?_, ?_, fun j hj hm hT => ?_⟩
  · have hloop := watchLoop_eq_dur st env (some d) (env.mono 0) fuel 0 k hfuel
      (fun j hj => ⟨by simp [durOK, hlt j hj], by simpa using hflag j⟩)
      (by simp [durOK, not_lt.mpr hge])
    refine ⟨?_, ?_, ?_⟩
    · show (watchLoop st env (some d) (env.mono 0) fuel 0).2.1 = .dur
      rw [hloop]
    · rw [watchRun_fst, hloop]
      simp
    · rw [watchRun_fst, hloop]
      simp [(rowless_watchPre st env delay (some d)).1,
        (rowless_watchPost env _).1, wrows_watchFullExp, watchRowsExp_length]
  · have h := watchLoop_wall_indep st env w' (some d) (env.mono 0) fuel 0
    constructor
    · show (watchLoop st { env with wall := w' } (some d) (env.mono 0) fuel 0).2.1 =
        (watchLoop st env (some d) (env.mono 0) fuel 0).2.1
      rw [h.1]
    · rw [watchRun_fst, watchRun_fst]
      simp only [wrows_append, (rowless_watchPre _ _ _ _).1,
        (rowless_watchPost _ _).1, List.append_nil, List.nil_append,
        List.length_append]
      exact h.2
  · show (watchLoop st env none (env.mono 0) fuel 0).2.1 ≠ .dur
    exact watchLoop_none_ne_dur st env (env.mono 0) fuel 0
  · have hloop := watchLoop_eq_intr st env none (env.mono 0) fuel 0 j hj
      (fun m _ => rfl) (fun m hm' => by simpa using hm m hm') (by simpa using hT)
    constructor
    · show (watchLoop st env none (env.mono 0) fuel 0).2.1 = .intr
      rw [hloop]
    · rw [watchRun_fst, hloop]
      simp [(rowless_watchPre st env delay none).1, (rowless_watchPost env _).1,
        wrows_watchFullExp, watchRowsExp_length]

/-- C7 witness: with integer monotonic clock and bound 3/2, the loop stops
through the duration branch after one row; without a bound and with the
flag set it stops through the interrupt branch. -/
theorem c7_witness :
    ((∀ j, envBase.flag j = false) ∧
      (∀ j, j < 1 → envBase.mono (j + 1) - envBase.mono 0 < 3 / 2) ∧
      ((3 / 2 : Rat) ≤ envBase.mono (1 + 1) - envBase.mono 0) ∧ 1 < 5) ∧
    (watchRun stP envBase 0 (some (3 / 2)) 5).2 = .dur ∧
    (wrows (watchRun stP envBase 0 (some (3 / 2)) 5).1).length = 1 ∧
    (watchRun stP envFlagTrue 0 none 5).2 = .intr ∧
    (wrows (watchRun stP envFlagTrue 0 none 5).1).length = 0 + 1 := by
  have h1 : ∀ j, j < 1 → envBase.mono (j + 1) - envBase.mono 0 < 3 / 2 := by
    intro j hj
    interval_cases j
    show ((1 : Nat) : Rat) - ((0 : Nat) : Rat) < 3 / 2
    norm_num
  have h2 : (3 / 2 : Rat) ≤ envBase.mono (1 + 1) - envBase.mono 0 := by
    show (3 / 2 : Rat) ≤ ((2 : Nat) : Rat) - ((0 : Nat) : Rat)
    norm_num
  have ha := (c7_watch stP envBase 0 (3 / 2) 5 1).1 (fun j => rfl) h1 h2 (by omega)
  have hc := (c7_watch stP envFlagTrue 0 (3 / 2) 5 1).2.2.2 0 (by omega)
    (fun m hm => by omega) rfl
  exact ⟨⟨fun j => rfl, h1, h2, by omega⟩, ha.1, ha.2.2, hc.1, hc.2⟩

/-! ### C10 — one parameter measurement per slow setpoint in `sweep_vna_2d` -/

/-- C10: in an uninterrupted `sweep_vna_2d` over S slow setpoints whose
traces report series on the instrument's frequency grid, the run trace has
the closed form in which every slow pass is
`setp, sleep, meas i, trcRead, trcRead, rows...` — the parameters are
measured exactly once per slow setpoint (`measIdxs = range S`), after the
setpoint write and before the trace reads — and the measured values of pass
`i` are replicated unchanged into every one of that pass's rows (positions
3 .. 3+N of each row equal `measureAt i`), never re-read per frequency
point. -/
theorem c10_vna2d (st : Station) (env : Env) (sp : Param) (slow : List Rat)
    (sdelay : Rat) (t0 t1 : TraceH × Rat) (T : List Ev)
    (htr : st.traces = [t0, t1])
    (HL : ∀ s, (tracesPoints env s).length = env.freqs.length)
    (hflag : ∀ m, m < slow.length * (env.freqs.length + 1) → env.flag m = false)
    (hT : vna2dRun st env sp slow sdelay = some T) :
    T = vna2dPre st env t0.1 t1.1 sp slow sdelay ++
        vna2dSlowExp st env sp.full_name t0.1.trace_name t1.1.trace_name slow 0 0 0 ++
        sweepPost env (slow.length * env.freqs.length) ∧
    measIdxs T = List.range slow.length ∧
    (∀ i j, i < slow.length → j < env.freqs.length →
      (((wrows T).getD (i * env.freqs.length + j) []).drop 3).take st.params.length =
        measureAt st env i) := by
  have hloop := vna2dSlow_eq_full st env sp.full_name t0.1.trace_name t1.1.trace_name
    slow 0 0 0 env.freqs.length HL (fun m hm => by simpa using hflag m hm)
  rw [vna2dRun_eq st env sp slow sdelay t0 t1 htr] at hT
  rcases Option.some.inj hT with rfl
  have hwl : wrows (vna2dSlow st env sp.full_name t0.1.trace_name t1.1.trace_name
      slow 0 0 0).1 = vna2dRowsExp st env slow 0 0 := by
    rw [hloop]
    exact wrows_vna2dSlowExp ..
  have hlen : (wrows (vna2dSlow st env sp.full_name t0.1.trace_name t1.1.trace_name
      slow 0 0 0).1).length = slow.length * env.freqs.length := by
    rw [hwl]
    exact vna2dRowsExp_length st env slow 0 0 env.freqs.length HL
  refine ⟨by rw [hlen, hloop], ?_, fun i j hi hj => ?_⟩
  · simp [measIdxs_vna2dPre, measIdxs_sweepPost, hloop, measIdxs_vna2dSlowExp,
      List.range_eq_range']
  · have hw : wrows (vna2dPre st env t0.1 t1.1 sp slow sdelay ++
        (vna2dSlow st env sp.full_name t0.1.trace_name t1.1.trace_name slow 0 0 0).1 ++
        sweepPost env (wrows (vna2dSlow st env sp.full_name t0.1.trace_name
          t1.1.trace_name slow 0 0 0).1).length) = vna2dRowsExp st env slow 0 0 := by
      simp [(rowless_vna2dPre st env t0.1 t1.1 sp slow sdelay).1,
        (rowless_sweepPost env _).1, hwl]
    rw [hw, vna2dRowsExp_getD st env slow 0 0 env.freqs.length i j HL hi hj]
    simp only [vna2dRowOf, Nat.zero_add, List.drop_succ_cons, List.drop_zero]
    rw [show st.params.length = (measureAt st env i).length from
      (measureAt_length st env i).symm, List.take_left]

/-- The trace of the concrete one-setpoint two-trace 2-D VNA run used as a
witness. -/
def vna2dWit : List Ev := (vna2dRun stT2 envBase pA [5] 0).getD []

/-- C10 witness: the claim at the concrete two-trace station, one slow
setpoint, two-point frequency grid. -/
theorem c10_witness :
    measIdxs vna2dWit = List.range 1 ∧
    (((wrows vna2dWit).getD (0 * envBase.freqs.length + 0) []).drop 3).take
      stT2.params.length = measureAt stT2 envBase 0 :=
  ⟨(c10_vna2d stT2 envBase pA [5] 0 _ _ vna2dWit rfl (fun s => rfl)
      (fun m _ => rfl) rfl).2.1,
   (c10_vna2d stT2 envBase pA [5] 0 _ _ vna2dWit rfl (fun s => rfl)
      (fun m _ => rfl) rfl).2.2 0 0 (by decide) (by decide)⟩

/-! ### C3 — interruption semantics at the per-row checks -/

/-- C3 counterexample: in `megasweep` over slow length 2 and fast length 1,
a signal arriving after the inner loop's final check is caught by the outer
check (line 304), which breaks **without** setting `interrupted`: the run
ends with 1 persisted row (fewer than the 2 total) and an end time, but
`interrupted` remains `false`, refuting "the run ends with metadata
'interrupted' = true". -/
theorem c3_counterexample :
    (wrows (megaRun ⟨[], [], [], ""⟩ envCancel2 pA pB [7, 8] [9] 0 0)).length = 1 ∧
    metaAt (megaRun ⟨[], [], [], ""⟩ envCancel2 pA pB [7, 8] [9] 0 0) "interrupted" =
      some (.b false) ∧
    (metaAt (megaRun ⟨[], [], [], ""⟩ envCancel2 pA pB [7, 8] [9] 0 0)
      "end_time").isSome = true ∧
    (1 : Nat) < 2 * 1 := by
  exact ⟨by decide, by decide, by decide, by decide⟩

theorem c3_sweep_case (st : Station) (env : Env) (p : Param) (sps : List Rat)
    (delay : Rat) (k : Nat) (hk : k < sps.length)
    (hlt : ∀ j, j < k → env.flag j = false) (hT : env.flag k = true) :
    sweepRun st env p sps delay =
      sweepPre st env p sps delay ++
        (sweepFullExp st env p.full_name (sps.take (k + 1)) 0 ++
          [Ev.smeta "interrupted" (.b true)]) ++ sweepPost env (k + 1) ∧
    wrows (sweepRun st env p sps delay) =
      sweepRowsExp st env (sps.take (k + 1)) 0 ∧
    (wrows (sweepRun st env p sps delay)).length = k + 1 ∧
    metaAt (sweepRun st env p sps delay) "interrupted" = some (.b true) ∧
    (metaAt (sweepRun st env p sps delay) "end_time").isSome = true := by
  have hloop := sweepLoop_eq_intr st env p.full_name sps 0 k hk
    (fun j hj => by simpa using hlt j hj) (by simpa using hT)
  have hwl : wrows (sweepLoop st env p.full_name sps 0) =
      sweepRowsExp st env (sps.take (k + 1)) 0 := by
    rw [hloop]
    simp [wrows_sweepFullExp]
  have hn : (wrows (sweepLoop st env p.full_name sps 0)).length = k + 1 := by
    rw [hwl, sweepRowsExp_length, List.length_take]
    omega
  have hw : wrows (sweepRun st env p sps delay) =
      sweepRowsExp st env (sps.take (k + 1)) 0 := by
    rw [sweepRun_eq]
    simp [(rowless_sweepPre st env p sps delay).1, (rowless_sweepPost env _).1, hwl]
  refine ⟨?_, hw, ?_, ?_, ?_⟩
  · rw [sweepRun_eq, hn, hloop]
  · rw [hw, sweepRowsExp_length, List.length_take]
    omega
  · have hsm : smetas "interrupted" (sweepRun st env p sps delay) =
        [.b false, .b true] := by
      rw [sweepRun_eq, hloop]
      simp [smetas_sweepPre_interrupted, smetas_sweepPost_interrupted,
        smetas_sweepFullExp]
    rw [metaAt, hsm]
    rfl
  · have hsm : smetas "end_time" (sweepRun st env p sps delay) =
        [.q (env.wall (2 + (wrows (sweepLoop st env p.full_name sps 0)).length))] := by
      rw [sweepRun_eq]
      simp [smetas_sweepPre_end_time, smetas_sweepPost_end_time, hloop,
        smetas_sweepFullExp]
    rw [metaAt, hsm]
    rfl

theorem c3_watch_case (st : Station) (env : Env) (delay : Rat)
    (maxDur : Option Rat) (fuel k : Nat) (hk : k < fuel)
    (hok : ∀ j, j ≤ k → durOK env maxDur (env.mono 0) j = true)
    (hlt : ∀ j, j < k → env.flag j = false) (hT : env.flag k = true) :
    (watchRun st env delay maxDur fuel).1 =
      watchPre st env delay maxDur ++
        (watchFullExp st env (k + 1) 0 ++ [Ev.smeta "interrupted" (.b true)]) ++
        watchPost env (k + 1) ∧
    (wrows (watchRun st env delay maxDur fuel).1).length = k + 1 ∧
    metaAt (watchRun st env delay maxDur fuel).1 "interrupted" = some (.b true) ∧
    (metaAt (watchRun st env delay maxDur fuel).1 "end_time").isSome = true := by
  have hloop := watchLoop_eq_intr st env maxDur (env.mono 0) fuel 0 k hk
    (fun j hj => by simpa using hok j hj)
    (fun j hj => by simpa using hlt j hj) (by simpa using hT)
  refine ⟨?_, ?_, ?_, ?_⟩
  · rw [watchRun_fst, hloop]
    simp
  · rw [watchRun_fst, hloop]
    simp [(rowless_watchPre st env delay maxDur).1, (rowless_watchPost env _).1,
      wrows_watchFullExp, watchRowsExp_length]
  · have hsm : smetas "interrupted" (watchRun st env delay maxDur fuel).1 =
        [.b false, .b true] := by
      rw [watchRun_fst, hloop]
      simp [smetas_watchPre_interrupted, smetas_watchPost_interrupted,
        smetas_watchFullExp]
    rw [metaAt, hsm]
    rfl
  · have hsm : smetas "end_time" (watchRun st env delay maxDur fuel).1 =
        [.q (env.wall (1 + (watchLoop st env maxDur (env.mono 0) fuel 0).2.2))] := by
      rw [watchRun_fst]
      simp [smetas_watchPre_end_time, smetas_watchPost_end_time, hloop,
        smetas_watchFullExp]
    rw [metaAt, hsm]
    rfl

theorem c3_vna1d_case (st : Station) (env : Env) (delay : Rat)
    (t0 t1 : TraceH × Rat) (htr : st.traces = [t0, t1]) (T : List Ev)
    (hT : vna1dRun st env delay = some T) (k : Nat)
    (hk : k < (tracesPoints env 0).length)
    (hlt : ∀ j, j < k → env.flag j = false) (hTk : env.flag k = true) :
    T = vna1dPre st env t0.1 t1.1 delay ++
        [Ev.trcRead t0.1.trace_name, Ev.sleep, Ev.trcRead t1.1.trace_name, Ev.sleep] ++
        (vnaEmitExp st env ((tracesPoints env 0).take (k + 1)) 0 ++
          [Ev.smeta "interrupted" (.b true)]) ++ sweepPost env (k + 1) ∧
    (wrows T).length = k + 1 ∧
    metaAt T "interrupted" = some (.b true) ∧
    (metaAt T "end_time").isSome = true := by
  have hloop := vnaEmit_eq_intr st env (tracesPoints env 0) 0 k hk
    (fun j hj => by simpa using hlt j hj) (by simpa using hTk)
  rw [vna1dRun_eq st env delay t0 t1 htr] at hT
  rcases Option.some.inj hT with rfl
  have hacq : wrows [Ev.trcRead t0.1.trace_name, Ev.sleep,
      Ev.trcRead t1.1.trace_name, Ev.sleep] = [] := rfl
  have hwl : wrows (vnaEmit st env (tracesPoints env 0) 0) =
      vnaRowsExp st env ((tracesPoints env 0).take (k + 1)) 0 := by
    rw [hloop]
    simp [wrows_vnaEmitExp]
  have hn : (wrows (vnaEmit st env (tracesPoints env 0) 0)).length = k + 1 := by
    rw [hwl, vnaRowsExp_length, List.length_take]
    omega
  refine ⟨?_, ?_, ?_, ?_⟩
  · rw [hn, hloop]
  · simp [(rowless_vna1dPre st env t0.1 t1.1 delay).1, (rowless_sweepPost env _).1,
      hacq, hn]
  · have hsm : smetas "interrupted" (vna1dPre st env t0.1 t1.1 delay ++
        [Ev.trcRead t0.1.trace_name, Ev.sleep, Ev.trcRead t1.1.trace_name, Ev.sleep] ++
        vnaEmit st env (tracesPoints env 0) 0 ++
        sweepPost env (wrows (vnaEmit st env (tracesPoints env 0) 0)).length) =
        [.b false, .b true] := by
      rw [hloop]
      simp [smetas_vna1dPre_interrupted, smetas_sweepPost_interrupted,
        smetas_vnaEmitExp]
    rw [metaAt, hsm]
    rfl
  · have hsm : smetas "end_time" (vna1dPre st env t0.1 t1.1 delay ++
        [Ev.trcRead t0.1.trace_name, Ev.sleep, Ev.trcRead t1.1.trace_name, Ev.sleep] ++
        vnaEmit st env (tracesPoints env 0) 0 ++
        sweepPost env (wrows (vnaEmit st env (tracesPoints env 0) 0)).length) =
        [.q (env.wall (2 + (wrows (vnaEmit st env (tracesPoints env 0) 0)).length))] := by
      simp [smetas_vna1dPre_end_time, smetas_sweepPost_end_time,
        smetas_vnaEmit_ne st env (tracesPoints env 0) 0 "end_time" (by decide)]
    rw [metaAt, hsm]
    rfl

theorem c3_mega_inner (st : Station) (env : Env) (sp fp : Param)
    (slow fast : List Rat) (sdelay fdelay : Rat) (q rem : Nat)
    (hM : FlagMono env) (hrem : rem < fast.length) (hq : q < slow.length)
    (hlt : ∀ m, m < q * (fast.length + 1) + rem → env.flag m = false)
    (hT : env.flag (q * (fast.length + 1) + rem) = true) :
    wrows (megaRun st env sp fp slow fast sdelay fdelay) =
      megaRowsExp st env fast (slow.take q) 0 ++
        megaRowsFastExp st env (slow.getD q 0) (fast.take (rem + 1))
          (q * fast.length) ∧
    (wrows (megaRun st env sp fp slow fast sdelay fdelay)).length =
      q * fast.length + rem + 1 ∧
    metaAt (megaRun st env sp fp slow fast sdelay fdelay) "interrupted" =
      some (.b true) ∧
    (metaAt (megaRun st env sp fp slow fast sdelay fdelay) "end_time").isSome =
      true := by
  have hloop := megaSlow_eq_intr_inner st env sp.full_name fp.full_name fast slow 0 0
    q rem hrem hq (fun m hm => by simpa using hlt m hm) (by simpa using hT) hM
  have hw : wrows (megaRun st env sp fp slow fast sdelay fdelay) =
      megaRowsExp st env fast (slow.take q) 0 ++
        megaRowsFastExp st env (slow.getD q 0) (fast.take (rem + 1))
          (q * fast.length) := by
    rw [megaRun_eq, hloop]
    simp [(rowless_megaPre st env sp fp slow fast sdelay fdelay).1,
      (rowless_sweepPost env _).1, wrows_megaSlowExp, wrows_megaFastExp]
  refine ⟨hw, ?_, ?_, ?_⟩
  · rw [hw]
    simp only [List.length_append, megaRowsExp_length, megaRowsFastExp_length,
      List.length_take]
    rw [Nat.min_eq_left (le_of_lt hq),
      Nat.min_eq_left (show rem + 1 ≤ fast.length by omega)]
    omega
  · have hsm : smetas "interrupted" (megaRun st env sp fp slow fast sdelay fdelay) =
        [.b false, .b true] := by
      rw [megaRun_eq, hloop]
      simp [smetas_megaPre_interrupted, smetas_sweepPost_interrupted,
        smetas_megaSlowExp, smetas_megaFastExp]
    rw [metaAt, hsm]
    rfl
  · have hsm : smetas "end_time" (megaRun st env sp fp slow fast sdelay fdelay) =
        [.q (env.wall (2 + (wrows (megaSlow st env sp.full_name fp.full_name
          fast slow 0 0).1).length))] := by
      rw [megaRun_eq]
      simp [smetas_megaPre_end_time, smetas_sweepPost_end_time, hloop,
        smetas_megaSlowExp, smetas_megaFastExp]
    rw [metaAt, hsm]
    rfl

theorem c3_mega_outer (st : Station) (env : Env) (sp fp : Param)
    (slow fast : List Rat) (sdelay fdelay : Rat) (q : Nat) (hq : q < slow.length)
    (hlt : ∀ m, m < q * (fast.length + 1) + fast.length → env.flag m = false)
    (hT : env.flag (q * (fast.length + 1) + fast.length) = true) :
    wrows (megaRun st env sp fp slow fast sdelay fdelay) =
      megaRowsExp st env fast (slow.take q) 0 ++
        megaRowsFastExp st env (slow.getD q 0) fast (q * fast.length) ∧
    (wrows (megaRun st env sp fp slow fast sdelay fdelay)).length =
      (q + 1) * fast.length ∧
    metaAt (megaRun st env sp fp slow fast sdelay fdelay) "interrupted" =
      some (.b false) ∧
    (metaAt (megaRun st env sp fp slow fast sdelay fdelay) "end_time").isSome =
      true := by
  have hloop := megaSlow_eq_intr_outer st env sp.full_name fp.full_name fast slow 0 0
    q hq (fun m hm => by simpa using hlt m hm) (by simpa using hT)
  have hw : wrows (megaRun st env sp fp slow fast sdelay fdelay) =
      megaRowsExp st env fast (slow.take q) 0 ++
        megaRowsFastExp st env (slow.getD q 0) fast (q * fast.length) := by
    rw [megaRun_eq, hloop]
    simp [(rowless_megaPre st env sp fp slow fast sdelay fdelay).1,
      (rowless_sweepPost env _).1, wrows_megaSlowExp, wrows_megaFastExp]
  refine ⟨hw, ?_, ?_, ?_⟩
  · rw [hw]
    simp only [List.length_append, megaRowsExp_length, megaRowsFastExp_length,
      List.length_take]
    rw [Nat.min_eq_left (le_of_lt hq), Nat.succ_mul]
  · have hsm : smetas "interrupted" (megaRun st env sp fp slow fast sdelay fdelay) =
        [.b false] := by
      rw [megaRun_eq, hloop]
      simp [smetas_megaPre_interrupted, smetas_sweepPost_interrupted,
        smetas_megaSlowExp, smetas_megaFastExp]
    rw [metaAt, hsm]
    rfl
  · have hsm : smetas "end_time" (megaRun st env sp fp slow fast sdelay fdelay) =
        [.q (env.wall (2 + (wrows (megaSlow st env sp.full_name fp.full_name
          fast slow 0 0).1).length))] := by
      rw [megaRun_eq]
      simp [smetas_megaPre_end_time, smetas_sweepPost_end_time, hloop,
        smetas_megaSlowExp, smetas_megaFastExp]
    rw [metaAt, hsm]
    rfl

theorem c3_vna2d_inner (st : Station) (env : Env) (sp : Param) (slow : List Rat)
    (sdelay : Rat) (t0 t1 : TraceH × Rat) (htr : st.traces = [t0, t1])
    (T : List Ev) (hT : vna2dRun st env sp slow sdelay = some T)
    (L q rem : Nat) (Hlen : ∀ s, (tracesPoints env s).length = L)
    (hM : FlagMono env) (hrem : rem < L) (hq : q < slow.length)
    (hlt : ∀ m, m < q * (L + 1) + rem → env.flag m = false)
    (hTk : env.flag (q * (L + 1) + rem) = true) :
    (wrows T).length = q * L + rem + 1 ∧
    metaAt T "interrupted" = some (.b true) ∧
    (metaAt T "end_time").isSome = true := by
  have hloop := vna2dSlow_eq_intr_inner st env sp.full_name t0.1.trace_name
    t1.1.trace_name slow 0 0 0 L q rem Hlen hrem hq
    (fun m hm => by simpa using hlt m hm) (by simpa using hTk) hM
  rw [vna2dRun_eq st env sp slow sdelay t0 t1 htr] at hT
  rcases Option.some.inj hT with rfl
  have hw : wrows (vna2dPre st env t0.1 t1.1 sp slow sdelay ++
      (vna2dSlow st env sp.full_name t0.1.trace_name t1.1.trace_name slow 0 0 0).1 ++
      sweepPost env (wrows (vna2dSlow st env sp.full_name t0.1.trace_name
        t1.1.trace_name slow 0 0 0).1).length) =
      vna2dRowsExp st env (slow.take q) 0 0 ++
        vna2dRowsFastExp st env (slow.getD q 0) q
          ((tracesPoints env q).take (rem + 1)) 0 (q * L) := by
    rw [hloop]
    simp [(rowless_vna2dPre st env t0.1 t1.1 sp slow sdelay).1,
      (rowless_sweepPost env _).1, wrows_vna2dSlowExp, wrows_vna2dEmitExp]
  refine ⟨?_, ?_, ?_⟩
  · rw [hw]
    simp only [List.length_append, vna2dRowsExp_length st env (slow.take q) 0 0 L Hlen,
      vna2dRowsFastExp_length, List.length_take, Hlen q]
    rw [Nat.min_eq_left (le_of_lt hq), Nat.min_eq_left (show rem + 1 ≤ L by omega)]
    omega
  · have hsm : smetas "interrupted" (vna2dPre st env t0.1 t1.1 sp slow sdelay ++
        (vna2dSlow st env sp.full_name t0.1.trace_name t1.1.trace_name slow 0 0 0).1 ++
        sweepPost env (wrows (vna2dSlow st env sp.full_name t0.1.trace_name
          t1.1.trace_name slow 0 0 0).1).length) = [.b false, .b true] := by
      rw [hloop]
      simp [smetas_vna2dPre_interrupted, smetas_sweepPost_interrupted,
        smetas_vna2dSlowExp, smetas_vna2dEmitExp]
    rw [metaAt, hsm]
    rfl
  · have hsm : smetas "end_time" (vna2dPre st env t0.1 t1.1 sp slow sdelay ++
        (vna2dSlow st env sp.full_name t0.1.trace_name t1.1.trace_name slow 0 0 0).1 ++
        sweepPost env (wrows (vna2dSlow st env sp.full_name t0.1.trace_name
          t1.1.trace_name slow 0 0 0).1).length) =
        [.q (env.wall (2 + (wrows (vna2dSlow st env sp.full_name t0.1.trace_name
          t1.1.trace_name slow 0 0 0).1).length))] := by
      simp [smetas_vna2dPre_end_time, smetas_sweepPost_end_time, hloop,
        smetas_vna2dSlowExp, smetas_vna2dEmitExp]
    rw [metaAt, hsm]
    rfl

theorem c3_vna2d_outer (st : Station) (env : Env) (sp : Param) (slow : List Rat)
    (sdelay : Rat) (t0 t1 : TraceH × Rat) (htr : st.traces = [t0, t1])
    (T : List Ev) (hT : vna2dRun st env sp slow sdelay = some T)
    (L q : Nat) (Hlen : ∀ s, (tracesPoints env s).length = L) (hq : q < slow.length)
    (hlt : ∀ m, m < q * (L + 1) + L → env.flag m = false)
    (hTk : env.flag (q * (L + 1) + L) = true) :
    (wrows T).length = (q + 1) * L ∧
    metaAt T "interrupted" = some (.b false) ∧
    (metaAt T "end_time").isSome = true := by
  have hloop := vna2dSlow_eq_intr_outer st env sp.full_name t0.1.trace_name
    t1.1.trace_name slow 0 0 0 L q Hlen hq
    (fun m hm => by simpa using hlt m hm) (by simpa using hTk)
  rw [vna2dRun_eq st env sp slow sdelay t0 t1 htr] at hT
  rcases Option.some.inj hT with rfl
  have hw : wrows (vna2dPre st env t0.1 t1.1 sp slow sdelay ++
      (vna2dSlow st env sp.full_name t0.1.trace_name t1.1.trace_name slow 0 0 0).1 ++
      sweepPost env (wrows (vna2dSlow st env sp.full_name t0.1.trace_name
        t1.1.trace_name slow 0 0 0).1).length) =
      vna2dRowsExp st env (slow.take q) 0 0 ++
        vna2dRowsFastExp st env (slow.getD q 0) q (tracesPoints env q) 0 (q * L) := by
    rw [hloop]
    simp [(rowless_vna2dPre st env t0.1 t1.1 sp slow sdelay).1,
      (rowless_sweepPost env _).1, wrows_vna2dSlowExp, wrows_vna2dEmitExp]
  refine ⟨?_, ?_, ?_⟩
  · rw [hw]
    simp only [List.length_append, vna2dRowsExp_length st env (slow.take q) 0 0 L Hlen,
      vna2dRowsFastExp_length, List.length_take, Hlen q]
    rw [Nat.min_eq_left (le_of_lt hq), Nat.succ_mul]
  · have hsm : smetas "interrupted" (vna2dPre st env t0.1 t1.1 sp slow sdelay ++
        (vna2dSlow st env sp.full_name t0.1.trace_name t1.1.trace_name slow 0 0 0).1 ++
        sweepPost env (wrows (vna2dSlow st env sp.full_name t0.1.trace_name
          t1.1.trace_name slow 0 0 0).1).length) = [.b false] := by
      rw [hloop]
      simp [smetas_vna2dPre_interrupted, smetas_sweepPost_interrupted,
        smetas_vna2dSlowExp, smetas_vna2dEmitExp]
    rw [metaAt, hsm]
    rfl
  · have hsm : smetas "end_time" (vna2dPre st env t0.1 t1.1 sp slow sdelay ++
        (vna2dSlow st env sp.full_name t0.1.trace_name t1.1.trace_name slow 0 0 0).1 ++
        sweepPost env (wrows (vna2dSlow st env sp.full_name t0.1.trace_name
          t1.1.trace_name slow 0 0 0).1).length) =
        [.q (env.wall (2 + (wrows (vna2dSlow st env sp.full_name t0.1.trace_name
          t1.1.trace_name slow 0 0 0).1).length))] := by
      simp [smetas_vna2dPre_end_time, smetas_sweepPost_end_time, hloop,
        smetas_vna2dSlowExp, smetas_vna2dEmitExp]
    rw [metaAt, hsm]
    rfl

/-- C3 (amended): the interrupt flag is read exactly once per persisted row,
strictly after that row is persisted. In `watch`, `sweep` and `sweep_vna_1d`,
if the flag first reads true at the check following row k+1, the run persists
exactly the first k+1 expected rows (none lost, duplicated or reordered),
records `interrupted = true`, and records an end time. In `megasweep` and
`sweep_vna_2d` the same holds for a flag first seen at an inner (per-row)
check; but a flag first seen at an outer (per-pass) check — check index
q*(F+1)+F for fast length F — ends the run after the complete pass of
(q+1)*F rows with `interrupted` left `false`, though the end time is still
recorded. -/
theorem c3_amended :
    (∀ (st : Station) (env : Env) (delay : Rat) (maxDur : Option Rat)
      (fuel k : Nat), k < fuel →
      (∀ j, j ≤ k → durOK env maxDur (env.mono 0) j = true) →
      (∀ j, j < k → env.flag j = false) → env.flag k = true →
      (watchRun st env delay maxDur fuel).1 =
        watchPre st env delay maxDur ++
          (watchFullExp st env (k + 1) 0 ++ [Ev.smeta "interrupted" (.b true)]) ++
          watchPost env (k + 1) ∧
      (wrows (watchRun st env delay maxDur fuel).1).length = k + 1 ∧
      metaAt (watchRun st env delay maxDur fuel).1 "interrupted" = some (.b true) ∧
      (metaAt (watchRun st env delay maxDur fuel).1 "end_time").isSome = true) ∧
    (∀ (st : Station) (env : Env) (p : Param) (sps : List Rat) (delay : Rat)
      (k : Nat), k < sps.length →
      (∀ j, j < k → env.flag j = false) → env.flag k = true →
      sweepRun st env p sps delay =
        sweepPre st env p sps delay ++
          (sweepFullExp st env p.full_name (sps.take (k + 1)) 0 ++
            [Ev.smeta "interrupted" (.b true)]) ++ sweepPost env (k + 1) ∧
      wrows (sweepRun st env p sps delay) =
        sweepRowsExp st env (sps.take (k + 1)) 0 ∧
      (wrows (sweepRun st env p sps delay)).length = k + 1 ∧
      metaAt (sweepRun st env p sps delay) "interrupted" = some (.b true) ∧
      (metaAt (sweepRun st env p sps delay) "end_time").isSome = true) ∧
    (∀ (st : Station) (env : Env) (delay : Rat) (t0 t1 : TraceH × Rat),
      st.traces = [t0, t1] → ∀ (T : List Ev), vna1dRun st env delay = some T →
      ∀ (k : Nat), k < (tracesPoints env 0).length →
      (∀ j, j < k → env.flag j = false) → env.flag k = true →
      T = vna1dPre st env t0.1 t1.1 delay ++
          [Ev.trcRead t0.1.trace_name, Ev.sleep, Ev.trcRead t1.1.trace_name,
            Ev.sleep] ++
          (vnaEmitExp st env ((tracesPoints env 0).take (k + 1)) 0 ++
            [Ev.smeta "interrupted" (.b true)]) ++ sweepPost env (k + 1) ∧
      (wrows T).length = k + 1 ∧
      metaAt T "interrupted" = some (.b true) ∧
      (metaAt T "end_time").isSome = true) ∧
    (∀ (st : Station) (env : Env) (sp fp : Param) (slow fast : List Rat)
      (sdelay fdelay : Rat) (q rem : Nat), FlagMono env → rem < fast.length →
      q < slow.length →
      (∀ m, m < q * (fast.length + 1) + rem → env.flag m = false) →
      env.flag (q * (fast.length + 1) + rem) = true →
      wrows (megaRun st env sp fp slow fast sdelay fdelay) =
        megaRowsExp st env fast (slow.take q) 0 ++
          megaRowsFastExp st env (slow.getD q 0) (fast.take (rem + 1))
            (q * fast.length) ∧
      (wrows (megaRun st env sp fp slow fast sdelay fdelay)).length =
        q * fast.length + rem + 1 ∧
      metaAt (megaRun st env sp fp slow fast sdelay fdelay) "interrupted" =
        some (.b true) ∧
      (metaAt (megaRun st env sp fp slow fast sdelay fdelay) "end_time").isSome =
        true) ∧
    (∀ (st : Station) (env : Env) (sp fp : Param) (slow fast : List Rat)
      (sdelay fdelay : Rat) (q : Nat), q < slow.length →
      (∀ m, m < q * (fast.length + 1) + fast.length → env.flag m = false) →
      env.flag (q * (fast.length + 1) + fast.length) = true →
      wrows (megaRun st env sp fp slow fast sdelay fdelay) =
        megaRowsExp st env fast (slow.take q) 0 ++
          megaRowsFastExp st env (slow.getD q 0) fast (q * fast.length) ∧
      (wrows (megaRun st env sp fp slow fast sdelay fdelay)).length =
        (q + 1) * fast.length ∧
      metaAt (megaRun st env sp fp slow fast sdelay fdelay) "interrupted" =
        some (.b false) ∧
      (metaAt (megaRun st env sp fp slow fast sdelay fdelay) "end_time").isSome =
        true) ∧
    (∀ (st : Station) (env : Env) (sp : Param) (slow : List Rat) (sdelay : Rat)
      (t0 t1 : TraceH × Rat), st.traces = [t0, t1] →
      ∀ (T : List Ev), vna2dRun st env sp slow sdelay = some T →
      ∀ (L q rem : Nat), (∀ s, (tracesPoints env s).length = L) → FlagMono env →
      rem < L → q < slow.length →
      (∀ m, m < q * (L + 1) + rem → env.flag m = false) →
      env.flag (q * (L + 1) + rem) = true →
      (wrows T).length = q * L + rem + 1 ∧
      metaAt T "interrupted" = some (.b true) ∧
      (metaAt T "end_time").isSome = true) ∧
    (∀ (st : Station) (env : Env) (sp : Param) (slow : List Rat) (sdelay : Rat)
      (t0 t1 : TraceH × Rat), st.traces = [t0, t1] →
      ∀ (T : List Ev), vna2dRun st env sp slow sdelay = some T →
      ∀ (L q : Nat), (∀ s, (tracesPoints env s).length = L) → q < slow.length →
      (∀ m, m < q * (L + 1) + L → env.flag m = false) →
      env.flag (q * (L + 1) + L) = true →
      (wrows T).length = (q + 1) * L ∧
      metaAt T "interrupted" = some (.b false) ∧
      (metaAt T "end_time").isSome = true) :=
  ⟨c3_watch_case, c3_sweep_case, c3_vna1d_case, c3_mega_inner, c3_mega_outer,
    c3_vna2d_inner, c3_vna2d_outer⟩

/-- C3 witness: the sweep clause of `c3_amended` instantiated at a concrete
three-point sweep under a flag that first reads true at check index 1: the
run keeps exactly 2 rows, `interrupted` is true, and an end time is set. -/
theorem c3_witness :
    (wrows (sweepRun ⟨[], [], [], ""⟩ envCancel2 pA [4, 5, 6] 0)).length = 2 ∧
    metaAt (sweepRun ⟨[], [], [], ""⟩ envCancel2 pA [4, 5, 6] 0) "interrupted" =
      some (.b true) ∧
    (metaAt (sweepRun ⟨[], [], [], ""⟩ envCancel2 pA [4, 5, 6] 0)
      "end_time").isSome = true := by
  obtain ⟨-, hsw, -⟩ := c3_amended
  obtain ⟨-, -, h1, h2, h3⟩ := hsw ⟨[], [], [], ""⟩ envCancel2 pA [4, 5, 6] 0 1
    (by decide) (by decide) (by decide)
  exact ⟨h1, h2, h3⟩

end Emlab
